import Mathlib

set_option maxRecDepth 4000

/-!
Verification development for the rive-HTML-graphics repository.

The repository generates a single-file HTML template whose inline script
implements a payload-normalization and lifecycle protocol for CasparCG
(channel graphics).  This file gives a shallow embedding of that inline
protocol (the second, queue-equipped `buildTemplate` variant of
`src/js/template-builders.mjs`), of the option resolution of `buildTemplate`
itself, and of the schema extractor's acquisition/release flow
(`src/js/preset.mjs`, `src/unnamed/part_000`), and proves or refutes the
frozen specification claims about them.

Modelling conventions:
* JavaScript values are the inductive `JVal` (no `undefined`: an absent
  object field is `Option.none`); JavaScript numbers are modelled as `Int`,
  which covers every numeral the claims exercise; `NaN` is `Option.none`
  where a coercion can fail.
* `x >>> 0` is `toU32` (reduction mod 2 ^ 32, NaN mapped to 0 exactly as
  JavaScript bitwise coercion does).
* association lists model JavaScript objects: assignment `o[k] = v`
  replaces in place or appends (`objSet`), matching JS key-order semantics.
-/

namespace RG

/-- JavaScript runtime values as they occur in template payloads. -/
inductive JVal where
  | jnull
  | jbool (b : Bool)
  | jnum (n : Int)
  | jstr (s : String)
  | jarr (xs : List JVal)
  | jobj (fs : List (String × JVal))
deriving Repr

/-- Whitespace characters recognised by the embedded trim / number parsing
(the ASCII subset of the JavaScript whitespace class; all strings the claims
exercise only contain these). -/
def isWsCh (c : Char) : Bool :=
  c = ' ' || c = '\t' || c = '\n' || c = '\r' || c = '\x0b' || c = '\x0c'

/-- Drop leading and trailing whitespace from a character list
(model of JavaScript `String.prototype.trim`). -/
def trimL (l : List Char) : List Char :=
  ((l.dropWhile isWsCh).reverse.dropWhile isWsCh).reverse

/-- Decimal digit character for a digit value below 10. -/
def digitCh (d : Nat) : Char := Char.ofNat (48 + d)

/-- Fuelled decimal printer for naturals (most significant digit first). -/
def natDecAux : Nat → Nat → List Char
  | 0, _ => []
  | f + 1, n => if n < 10 then [digitCh n] else natDecAux f (n / 10) ++ [digitCh (n % 10)]

/-- Decimal digits of a natural number. -/
def natDecL (n : Nat) : List Char := natDecAux (n + 1) n

/-- Decimal character form of an integer (model of JavaScript `String(n)`
for integral numbers). -/
def intDecL (n : Int) : List Char :=
  if n < 0 then '-' :: natDecL n.natAbs else natDecL n.toNat

mutual

/-- Character form of `String(v)` for a JavaScript value `v`
(array stringification joins element strings with commas, `null` elements
becoming empty, as `Array.prototype.toString` does). -/
def jsToStringL : JVal → List Char
  | .jnull => ['n', 'u', 'l', 'l']
  | .jbool true => ['t', 'r', 'u', 'e']
  | .jbool false => ['f', 'a', 'l', 's', 'e']
  | .jnum n => intDecL n
  | .jstr s => s.data
  | .jarr xs => jsArrJoinL xs
  | .jobj _ => "[object Object]".data

/-- Comma join used by array stringification. -/
def jsArrJoinL : List JVal → List Char
  | [] => []
  | [x] => (match x with | .jnull => [] | v => jsToStringL v)
  | x :: xs => (match x with | .jnull => [] | v => jsToStringL v) ++ ',' :: jsArrJoinL xs

end

/-- String form of a JavaScript value. -/
def jsToString (v : JVal) : String := ⟨jsToStringL v⟩

/-- ASCII lower-casing of one character (model of `toLowerCase` on the
ASCII strings the protocol compares). -/
def lowerCh (c : Char) : Char :=
  if 'A' ≤ c ∧ c ≤ 'Z' then Char.ofNat (c.toNat + 32) else c

/-- ASCII lower-casing of a string. -/
def lowerS (s : String) : String := ⟨s.data.map lowerCh⟩

/-- Truthiness of a JavaScript value (`!!v`). -/
def jsTruthy : JVal → Bool
  | .jnull => false
  | .jbool b => b
  | .jnum n => n ≠ 0
  | .jstr s => s ≠ ""
  | .jarr _ => true
  | .jobj _ => true

/-- Value of a decimal digit character. -/
def decDigVal (c : Char) : Option Nat :=
  if '0' ≤ c ∧ c ≤ '9' then some (c.toNat - 48) else none

/-- Value of a hexadecimal digit character. -/
def hexDigVal (c : Char) : Option Nat :=
  if '0' ≤ c ∧ c ≤ '9' then some (c.toNat - 48)
  else if 'a' ≤ c ∧ c ≤ 'f' then some (c.toNat - 87)
  else if 'A' ≤ c ∧ c ≤ 'F' then some (c.toNat - 55)
  else none

/-- Accumulator step for decimal digit folding. -/
def decStep (acc : Option Nat) (c : Char) : Option Nat :=
  match acc, decDigVal c with
  | some a, some d => some (a * 10 + d)
  | _, _ => none

/-- Parse a full character list of decimal digits (none on empty input or
any non-digit). -/
def decAllL (l : List Char) : Option Nat :=
  if l = [] then none else l.foldl decStep (some 0)

/-- Accumulator step for hexadecimal digit folding. -/
def hexStep (acc : Option Nat) (c : Char) : Option Nat :=
  match acc, hexDigVal c with
  | some a, some d => some (a * 16 + d)
  | _, _ => none

/-- Parse a full character list of hexadecimal digits. -/
def hexAllL (l : List Char) : Option Nat :=
  if l = [] then none else l.foldl hexStep (some 0)

/-- Model of JavaScript `Number(s)` on a character list, restricted to the
integral numerals the protocol exercises: trims, maps the empty string to 0,
accepts an optional sign with decimal digits or an unsigned `0x` hexadecimal
form; every other input (including non-integral numerals, which no claim
exercises) is `none`, standing for a value failing `isFinite`. -/
def jsStrToNumL (l : List Char) : Option Int :=
  let t := trimL l
  if t = [] then some 0
  else if t.head? = some '-' then (decAllL t.tail).map (fun m => -(Int.ofNat m))
  else if t.head? = some '+' then (decAllL t.tail).map Int.ofNat
  else if t.take 2 = ['0', 'x'] ∨ t.take 2 = ['0', 'X'] then
    (hexAllL (t.drop 2)).map Int.ofNat
  else (decAllL t).map Int.ofNat

/-- Model of JavaScript `Number(v)` (none = not finite). -/
def jsToNumber : JVal → Option Int
  | .jnull => some 0
  | .jbool b => some (if b then 1 else 0)
  | .jnum n => some n
  | .jstr s => jsStrToNumL s.data
  | .jarr xs => jsStrToNumL (jsArrJoinL xs)
  | .jobj _ => none

/-- Unsigned 32-bit reduction (`x >>> 0`). -/
def toU32 (n : Int) : Nat := (n % (2 ^ 32 : Int)).toNat

/-- Model of `parseInt(s, 16)`: optional sign, then leading hexadecimal
digits (trailing garbage ignored), none when no digit is found. -/
def parseIntHexL (l : List Char) : Option Int :=
  if l.head? = some '-' then
    (hexAllL (l.tail.takeWhile (fun c => (hexDigVal c).isSome))).map (fun m => -(Int.ofNat m))
  else if l.head? = some '+' then
    (hexAllL (l.tail.takeWhile (fun c => (hexDigVal c).isSome))).map Int.ofNat
  else
    (hexAllL (l.takeWhile (fun c => (hexDigVal c).isSome))).map Int.ofNat

/-- The generated document's `toColor32` (template-builders.mjs lines
514-521): `#`-prefixed strings parse as hexadecimal, a 7-character string
(`#RRGGBB`) gets `0xFF000000` or-ed in before `>>> 0`; any other value goes
through `Number` and `>>> 0` when finite.  A failed `parseInt` is `NaN`,
which JavaScript bitwise coercion sends to 0, hence `getD 0`. -/
def toColor32 (raw : JVal) : Option Nat :=
  match raw with
  | .jnull => none
  | _ =>
    let s := trimL (jsToStringL raw)
    if s.head? = some '#' then
      let hv := (parseIntHexL s.tail).getD 0
      if s.length = 7 then some (Nat.lor 0xFF000000 (toU32 hv))
      else some (toU32 hv)
    else (jsStrToNumL s).map toU32

/-- Typed result of the extractor's `coerceVMValue` (preset.mjs lines
97-120); `cvNum none` stands for a NaN number result. -/
inductive CV where
  | cvStr (s : String)
  | cvNum (n : Option Int)
  | cvBool (b : Bool)
  | cvColor (n : Nat)
  | cvNull
  | cvRaw (v : JVal)
deriving Repr

/-- The extractor's `coerceVMValue` (preset.mjs lines 97-120).  The color
branch accepts a finite number via `>>> 0` and otherwise a `#`-string of
length 7 or 9 via `parseInt(_, 16) >>> 0` with no alpha forcing. -/
def coerceVMValue (ty : String) (raw : JVal) : CV :=
  match (lowerS ty).data with
  | ['s', 't', 'r', 'i', 'n', 'g'] =>
      (match raw with | .jnull => .cvStr "" | v => .cvStr (jsToString v))
  | ['n', 'u', 'm', 'b', 'e', 'r'] =>
      (match raw with | .jnull => .cvNum (some 0) | v => .cvNum (jsToNumber v))
  | ['b', 'o', 'o', 'l', 'e', 'a', 'n'] => .cvBool (jsTruthy raw)
  | ['c', 'o', 'l', 'o', 'r'] =>
      (match raw with
       | .jnull => .cvColor 0
       | v =>
         match jsToNumber v with
         | some n => .cvColor (toU32 n)
         | none =>
           let s := trimL (jsToStringL v)
           match s with
           | '#' :: rest =>
               if s.length = 7 ∨ s.length = 9 then
                 .cvColor (toU32 ((parseIntHexL rest).getD 0))
               else .cvColor 0
           | _ => .cvColor 0)
  | ['t', 'r', 'i', 'g', 'g', 'e', 'r'] => .cvNull
  | ['i', 'm', 'a', 'g', 'e'] => .cvNull
  | _ => .cvRaw raw

/-- Boolean coercion of the generated update dispatch, shared verbatim by
the generic fallback (template-builders.mjs line 715) and the per-property
fast path (line 777):
`String(val).toLowerCase()==="true" || val===true || val===1 ||
 String(val).toLowerCase()==="yes"`. -/
def jsBoolCoerceUpd (val : JVal) : Bool :=
  lowerS (jsToString val) = "true" ||
  (match val with | .jbool b => b | _ => false) ||
  (match val with | .jnum n => n = 1 | _ => false) ||
  lowerS (jsToString val) = "yes"

/-! ## Schema, view-model state and the generated `apply` dispatch

The generated document bakes the schema into two tables
(`VM_INDEX` lowercased-name -> canonical name, `VM_TYPES` canonical
name -> type, template-builders.mjs lines 489-490) and one fast-path update
line per declared property, followed by a generic case-insensitive fallback
(lines 689-732).  The third-party view-model instance `vmi` is modelled by
typed association lists; its typed accessors (`vmi.string(name)`, ...)
return a live setter exactly when the schema declares `name` at that type,
and return null otherwise, which is the behaviour the generated code relies
on when probing. -/

/-- Property types of the view-model schema. -/
inductive PType where
  | string | number | boolean | color | trigger | image
deriving Repr, DecidableEq

/-- One declared view-model property. -/
structure VProp where
  name : String
  ptype : PType
deriving Repr, DecidableEq

/-- The baked schema: the `viewModelProps` sequence in declaration order. -/
abbrev Schema := List VProp

/-- First value bound to a key in an association list. -/
def getAssoc {α : Type} (l : List (String × α)) (k : String) : Option α :=
  (l.find? (fun kv => kv.1 = k)).map (fun kv => kv.2)

/-- JavaScript-style assignment `o[k] = v`: replace the first binding in
place, or append a new one. -/
def setAssoc {α : Type} : List (String × α) → String → α → List (String × α)
  | [], k, v => [(k, v)]
  | (k', v') :: rest, k, v =>
      if k' = k then (k, v) :: rest else (k', v') :: setAssoc rest k v

/-- Object field access (`o.k` / `o[k]`); `none` is `undefined`. -/
def objGet (fs : List (String × JVal)) (k : String) : Option JVal := getAssoc fs k

/-- Does the schema declare a property of this name and type?  This is also
when the runtime's typed accessor for that name returns a non-null item. -/
def schemaHas (sch : Schema) (name : String) (t : PType) : Bool :=
  sch.any (fun p => p.name = name && p.ptype = t)

/-- The baked `VM_TYPES` table (canonical name -> type).  It is emitted as a
JavaScript object literal keyed by name, where a duplicated name keeps the
last entry, hence the reversed search. -/
def vmTypes (sch : Schema) (name : String) : Option PType :=
  (sch.reverse.find? (fun p => p.name = name)).map (fun p => p.ptype)

/-- The baked `VM_INDEX` table (lowercased name -> canonical name), last
entry winning as in an object literal. -/
def vmIndex (sch : Schema) (lc : String) : Option String :=
  (sch.reverse.find? (fun p => lowerS p.name = lc)).map (fun p => p.name)

/-- View-model instance state: one typed association list per accessor
family, plus the ordered log of fired triggers.  An image slot records the
accepted source string (`none` = cleared); the asynchronous byte decode the
real runtime performs is external to this model. -/
structure Vm where
  strs : List (String × String) := []
  nums : List (String × Int) := []
  bools : List (String × Bool) := []
  cols : List (String × Nat) := []
  imgs : List (String × Option String) := []
  fired : List String := []
deriving Repr, DecidableEq

/-- The empty view-model state. -/
def emptyVm : Vm := {}

/-- The generated `fireVmTrigger` (template-builders.mjs lines 522-532),
given a bound instance: fails on an empty name or an undeclared trigger,
otherwise fires (the model takes the `t.fire()` branch of the feature
probe) and reports success. -/
def fireVmTriggerVm (sch : Schema) (name : String) (vm : Vm) : Vm × Bool :=
  if name = "" then (vm, false)
  else if schemaHas sch name .trigger then
    ({ vm with fired := vm.fired ++ [name] }, true)
  else (vm, false)

/-- The generated `setImageFromSource` (lines 544-603) reduced to its
state effect: no-op without a declared image property; empty/"clear"/"none"
clears the slot; otherwise the slot records the source string (the
data:/b64:/http(s):/raw-base64 decode paths all feed the same slot and
their byte-level decoding is outside this model). -/
def setImageFromSource (sch : Schema) (name : String) (src : String) (vm : Vm) : Vm :=
  if schemaHas sch name .image then
    if src = "" || src = "clear" || src = "none" then
      { vm with imgs := setAssoc vm.imgs name none }
    else
      { vm with imgs := setAssoc vm.imgs name (some src) }
  else vm

/-- Trigger truthiness test of the dispatch paths:
`val===true || String(val)==="true" || String(val)==="1"`. -/
def trigTruthy (val : JVal) : Bool :=
  (match val with | .jbool b => b | _ => false) ||
  jsToString val = "true" || jsToString val = "1"

/-- One per-property fast-path line of the generated `apply`
(`setterUpdateLine`, template-builders.mjs lines 768-783): exact-name
lookup in the payload, null-excluded, then the type's coercion through the
type's accessor. -/
def fastStep (sch : Schema) (o : List (String × JVal)) (p : VProp) (vm : Vm) : Vm :=
  match p.ptype with
  | .trigger =>
      match objGet o p.name with
      | some (.jbool true) => (fireVmTriggerVm sch p.name vm).1
      | _ => vm
  | .string =>
      match objGet o p.name with
      | none => vm
      | some .jnull => vm
      | some v =>
          if schemaHas sch p.name .string then
            { vm with strs := setAssoc vm.strs p.name (jsToString v) }
          else vm
  | .number =>
      match objGet o p.name with
      | none => vm
      | some .jnull => vm
      | some v =>
          match jsToNumber v with
          | some n =>
              if schemaHas sch p.name .number then
                { vm with nums := setAssoc vm.nums p.name n }
              else vm
          | none => vm
  | .boolean =>
      match objGet o p.name with
      | none => vm
      | some .jnull => vm
      | some v =>
          if schemaHas sch p.name .boolean then
            { vm with bools := setAssoc vm.bools p.name (jsBoolCoerceUpd v) }
          else vm
  | .color =>
      match objGet o p.name with
      | none => vm
      | some .jnull => vm
      | some v =>
          match toColor32 v with
          | some c =>
              if schemaHas sch p.name .color then
                { vm with cols := setAssoc vm.cols p.name c }
              else vm
          | none => vm
  | .image =>
      match objGet o p.name with
      | none => vm
      | some .jnull => vm
      | some v => setImageFromSource sch p.name (jsToString v) vm

/-- The typed branch of the generic fallback (lines 712-719): dispatch on
the resolved name's declared type; the returned flag is `done`.  An arm
whose accessor is unavailable or whose coercion fails leaves `done` false,
after which the caller probes. -/
def typedStep (sch : Schema) (name : String) (t : Option PType) (val : JVal) (vm : Vm) :
    Vm × Bool :=
  match t with
  | some .string =>
      if schemaHas sch name .string then
        ({ vm with strs := setAssoc vm.strs name (jsToString val) }, true)
      else (vm, false)
  | some .number =>
      if schemaHas sch name .number then
        match jsToNumber val with
        | some n => ({ vm with nums := setAssoc vm.nums name n }, true)
        | none => (vm, false)
      else (vm, false)
  | some .boolean =>
      if schemaHas sch name .boolean then
        ({ vm with bools := setAssoc vm.bools name (jsBoolCoerceUpd val) }, true)
      else (vm, false)
  | some .color =>
      if schemaHas sch name .color then
        match toColor32 val with
        | some c => ({ vm with cols := setAssoc vm.cols name c }, true)
        | none => (vm, false)
      else (vm, false)
  | some .image =>
      (setImageFromSource sch name (jsToString val) vm, true)
  | some .trigger =>
      if trigTruthy val then ((fireVmTriggerVm sch name vm).1, true)
      else (vm, false)
  | none => (vm, false)

/-- The probe cascade for keys the typed branch did not settle (lines
724-729): try string, number, boolean, color, image accessors in order,
each only effective when the schema declares the name at that type, then
the trailing truthy-trigger fire attempt (line 729). -/
def probeStep (sch : Schema) (name : String) (val : JVal) (vm : Vm) : Vm :=
  if schemaHas sch name .string then
    { vm with strs := setAssoc vm.strs name (jsToString val) }
  else if schemaHas sch name .number then
    match jsToNumber val with
    | some n => { vm with nums := setAssoc vm.nums name n }
    | none =>
      -- accessor non-null but value not finite: done stays false, yet the
      -- later probes cannot apply either (the name is a number property),
      -- so only the final trigger attempt remains
      if trigTruthy val then (fireVmTriggerVm sch name vm).1 else vm
  else if schemaHas sch name .boolean then
    { vm with bools := setAssoc vm.bools name (jsBoolCoerceUpd val) }
  else if schemaHas sch name .color then
    match toColor32 val with
    | some c => { vm with cols := setAssoc vm.cols name c }
    | none =>
      if trigTruthy val then (fireVmTriggerVm sch name vm).1 else vm
  else if schemaHas sch name .image then
    setImageFromSource sch name (jsToString val) vm
  else
    if trigTruthy val then (fireVmTriggerVm sch name vm).1 else vm

/-- One iteration of the generic fallback loop (lines 700-730): resolve the
key through `VM_TYPES` then `VM_INDEX`, run the typed branch, and probe when
not done. -/
def genericStep (sch : Schema) (vm : Vm) (kv : String × JVal) : Vm :=
  let k := kv.1
  let val := kv.2
  let name :=
    match vmTypes sch k with
    | some _ => k
    | none =>
        match vmIndex sch (lowerS k) with
        | some nm => nm
        | none => k
  let t := vmTypes sch name
  let r := typedStep sch name t val vm
  if r.2 then r.1 else probeStep sch name val r.1

/-- Enumerable own keys of a payload value in `for (var k in o)` order
(object fields in insertion order; array element indices; primitives have
none of interest to the dispatch). -/
def payloadEntries : JVal → List (String × JVal)
  | .jobj fs => fs
  | .jarr xs => (xs.enum).map (fun p => (⟨natDecL p.1⟩, p.2))
  | _ => []

/-- The generated `apply(o)` (template-builders.mjs lines 689-732) on a
bound view-model instance: the per-property fast-path lines in schema
order, then the generic case-insensitive fallback over the payload's keys.
The `!o || !vmi` guard is at the call sites of this model. -/
def applyPayload (sch : Schema) (o : JVal) (vm : Vm) : Vm :=
  match o with
  | .jnull => vm
  | _ =>
    let fs := payloadEntries o
    let vm1 := sch.foldl (fun acc p => fastStep sch fs p acc) vm
    fs.foldl (fun acc kv => genericStep sch acc kv) vm1

/-! ## Payload normalization (the robust UPDATE pipeline)

Models of the parsing helpers generated into the Caspar template
(template-builders.mjs lines 369-434): `stripBomAndTrim`,
`unwrapIfQuoted`, `escapeBareNewlinesInJson`, the strict/lenient JSON
parse with `templateData` flattening, the regular-expression scrape
fallback, and the `componentData` XML extraction over a small XML
document model standing for `DOMParser`. -/

/-- JavaScript short-circuit `a || b` on possibly-absent values: keep `a`
when present and truthy, else `b`. -/
def jsOr (a b : Option JVal) : Option JVal :=
  match a with
  | some x => if jsTruthy x then some x else b
  | none => b

/-- The generated `stripBomAndTrim`: drop one leading byte-order mark,
then trim. -/
def stripBomAndTrim (s : String) : String :=
  match s.data with
  | '﻿' :: rest => ⟨trimL rest⟩
  | l => ⟨trimL l⟩

/-- The generated `unwrapIfQuoted`: strip one layer of matching surrounding
double or single quotes from a string of length at least 2. -/
def unwrapIfQuoted (s : String) : String :=
  let l := s.data
  if 2 ≤ l.length then
    if (l.head? = some '"' ∧ l.getLast? = some '"') ∨
       (l.head? = some (Char.ofNat 39) ∧ l.getLast? = some (Char.ofNat 39)) then
      ⟨(l.drop 1).dropLast⟩
    else s
  else s

/-- The generated `escapeBareNewlinesInJson`: every `\r?\n` becomes the
two-character sequence backslash-n (a lone carriage return is kept). -/
def escBareNlL : List Char → List Char
  | [] => []
  | c :: rest =>
      if c = '\n' then '\\' :: 'n' :: escBareNlL rest
      else if c = '\r' then
        (match rest with
         | '\n' :: rest2 => '\\' :: 'n' :: escBareNlL rest2
         | [] => [c]
         | d :: rest2 => c :: escBareNlL (d :: rest2))
      else c :: escBareNlL rest

/-- Collapse every run of carriage returns / line feeds to a single space
(the scrape fallback's `replace(/[\r\n]+/g, ' ')`), fuelled by input
length. -/
def replNlAux : Nat → List Char → List Char
  | 0, _ => []
  | _ + 1, [] => []
  | f + 1, c :: rest =>
      if c = '\r' || c = '\n' then
        ' ' :: replNlAux f (rest.dropWhile (fun x => x = '\r' || x = '\n'))
      else c :: replNlAux f rest

/-- Newline-run collapsing on a character list. -/
def replNlL (l : List Char) : List Char := replNlAux (l.length + 1) l

/-- One attempted match of the scrape pattern
`"([^"\x5c]+)"\s*:\s*"([^"\x5c]*)"` anchored at the head of the input;
on success returns key, value and the rest after the match. -/
def scanKV (l : List Char) : Option (String × String × List Char) :=
  match l with
  | '"' :: rest =>
      let k := rest.takeWhile (fun c => !(c = '"' || c = '\\'))
      if k = [] then none else
      match rest.drop k.length with
      | '"' :: r2 =>
          match r2.dropWhile isWsCh with
          | ':' :: r4 =>
              match r4.dropWhile isWsCh with
              | '"' :: r6 =>
                  let v := r6.takeWhile (fun c => !(c = '"' || c = '\\'))
                  match r6.drop v.length with
                  | '"' :: r7 => some (⟨k⟩, ⟨v⟩, r7)
                  | _ => none
              | _ => none
          | _ => none
      | _ => none
  | _ => none

/-- Global left-to-right scan accumulating scraped `(key, value)` pairs
(`out[k] = v` per match), fuelled by input length. -/
def scrapeAux : Nat → List Char → List (String × String) → List (String × String)
  | 0, _, acc => acc
  | _ + 1, [], acc => acc
  | f + 1, l, acc =>
      match scanKV l with
      | some (k, v, rest) => scrapeAux f rest (setAssoc acc k v)
      | none => scrapeAux f l.tail acc

/-- The scrape fallback of `parseCasparJsonLenient` on a raw string. -/
def scrapePairs (raw : String) : List (String × String) :=
  let l := replNlL raw.data
  scrapeAux (l.length + 1) l []

/-- JSON whitespace. -/
def skipWsJ (l : List Char) : List Char :=
  l.dropWhile (fun c => c = ' ' || c = '\t' || c = '\n' || c = '\r')

/-- JSON string escape shorthands. -/
def escCh (c : Char) : Option Char :=
  if c = '"' then some '"'
  else if c = '\\' then some '\\'
  else if c = '/' then some '/'
  else if c = 'b' then some '\x08'
  else if c = 'f' then some '\x0c'
  else if c = 'n' then some '\n'
  else if c = 'r' then some '\r'
  else if c = 't' then some '\t'
  else none

/-- JSON string body scanner (after the opening quote): returns the decoded
content and the rest after the closing quote; rejects raw control
characters as `JSON.parse` does. -/
def pStr : List Char → Option (List Char × List Char)
  | [] => none
  | c :: rest =>
      if c = '"' then some ([], rest)
      else if c = '\\' then
        (match rest with
         | [] => none
         | 'u' :: h1 :: h2 :: h3 :: h4 :: rest2 =>
             (match hexDigVal h1, hexDigVal h2, hexDigVal h3, hexDigVal h4 with
              | some a, some b, some c, some d =>
                  (pStr rest2).map (fun r => (Char.ofNat (((a * 16 + b) * 16 + c) * 16 + d) :: r.1, r.2))
              | _, _, _, _ => none)
         | e :: rest2 =>
             (match escCh e with
              | some c => (pStr rest2).map (fun r => (c :: r.1, r.2))
              | none => none))
      else if c.toNat < 32 then none
      else (pStr rest).map (fun r => (c :: r.1, r.2))

/-- JSON unsigned integer numeral (leading-zero rule of the JSON grammar);
the model rejects fractional and exponent forms, which no claim
exercises. -/
def pNumNat (l : List Char) : Option (Nat × List Char) :=
  match l with
  | '0' :: rest => some (0, rest)
  | c :: rest =>
      (match decDigVal c with
       | some _ =>
           let digs := rest.takeWhile (fun x => (decDigVal x).isSome)
           (decAllL (c :: digs)).map (fun m => (m, rest.drop digs.length))
       | none => none)
  | [] => none

/-- Reject a numeral continued by a fraction or exponent marker (the model
covers integral JSON numbers only). -/
def pNumGuard (r : Nat × List Char) : Option (Nat × List Char) :=
  match r.2 with
  | c :: _ => if c = '.' || c = 'e' || c = 'E' then none else some r
  | [] => some r

mutual

/-- Fuelled recursive-descent JSON value parser (model of `JSON.parse`,
integral numbers only). -/
def pVal : Nat → List Char → Option (JVal × List Char)
  | 0, _ => none
  | f + 1, l =>
      match l with
      | '"' :: rest => (pStr rest).map (fun r => (.jstr ⟨r.1⟩, r.2))
      | '\x7b' :: rest =>
          (match skipWsJ rest with
           | '\x7d' :: rest2 => some (.jobj [], rest2)
           | r => (pMembers f r []).map (fun p => (.jobj p.1, p.2)))
      | '[' :: rest =>
          (match skipWsJ rest with
           | ']' :: rest2 => some (.jarr [], rest2)
           | r => (pElems f r []).map (fun p => (.jarr p.1, p.2)))
      | 't' :: 'r' :: 'u' :: 'e' :: rest => some (.jbool true, rest)
      | 'f' :: 'a' :: 'l' :: 's' :: 'e' :: rest => some (.jbool false, rest)
      | 'n' :: 'u' :: 'l' :: 'l' :: rest => some (.jnull, rest)
      | '-' :: rest =>
          ((pNumNat rest).bind pNumGuard).map (fun r => (.jnum (-(r.1 : Int)), r.2))
      | _ =>
          ((pNumNat l).bind pNumGuard).map (fun r => (.jnum (r.1 : Int), r.2))

/-- Object member list: `"key" : value (, "key" : value)*` then the closing
brace; duplicate keys overwrite in place as in `JSON.parse`. -/
def pMembers : Nat → List Char → List (String × JVal) →
    Option (List (String × JVal) × List Char)
  | 0, _, _ => none
  | f + 1, l, acc =>
      match l with
      | '"' :: rest =>
          (pStr rest).bind (fun kr =>
            match skipWsJ kr.2 with
            | ':' :: r2 =>
                (pVal f (skipWsJ r2)).bind (fun vr =>
                  let acc2 := setAssoc acc ⟨kr.1⟩ vr.1
                  match skipWsJ vr.2 with
                  | ',' :: r3 => pMembers f (skipWsJ r3) acc2
                  | '\x7d' :: r3 => some (acc2, r3)
                  | _ => none)
            | _ => none)
      | _ => none

/-- Array element list: `value (, value)*` then the closing bracket. -/
def pElems : Nat → List Char → List JVal → Option (List JVal × List Char)
  | 0, _, _ => none
  | f + 1, l, acc =>
      (pVal f l).bind (fun vr =>
        match skipWsJ vr.2 with
        | ',' :: r2 => pElems f (skipWsJ r2) (acc ++ [vr.1])
        | ']' :: r2 => some (acc ++ [vr.1], r2)
        | _ => none)

end

/-- Model of `JSON.parse`: a single value surrounded by whitespace only. -/
def jsonParse (s : String) : Option JVal :=
  let l := skipWsJ s.data
  match pVal (l.length + 1) l with
  | some (v, rest) => if skipWsJ rest = [] then some v else none
  | none => none

/-- Elements of `td.componentData || td.componentdata || []` that the
flattening loop actually iterates (a truthy non-array has no `length`, so
the loop body never runs). -/
def tdArr (td : JVal) : List JVal :=
  match td with
  | .jobj fs =>
      (match jsOr (objGet fs "componentData") (objGet fs "componentdata") with
       | some (.jarr xs) => xs
       | _ => [])
  | _ => []

/-- One `templateData` entry flattened into the map
(template-builders.mjs lines 402-407): `id = it.id || it.componentId ||
it.name`, `val = (it.data && (it.data.value != null ? it.data.value :
it.data.text)) || it.value || ''`, then `map[id] = String(val)`. -/
def tdEntry (acc : List (String × JVal)) (it : JVal) : List (String × JVal) :=
  let itf : List (String × JVal) := match it with | .jobj fs => fs | _ => []
  let idv := jsOr (jsOr (objGet itf "id") (objGet itf "componentId")) (objGet itf "name")
  let fromData : Option JVal :=
    match objGet itf "data" with
    | some d =>
        if jsTruthy d then
          (let dfs : List (String × JVal) := match d with | .jobj fs => fs | _ => []
           match objGet dfs "value" with
           | some .jnull => objGet dfs "text"
           | some v => some v
           | none => objGet dfs "text")
        else none
    | none => none
  let val : JVal :=
    match jsOr (jsOr fromData (objGet itf "value")) none with
    | some v => v
    | none => .jstr ""
  match idv with
  | some i => setAssoc acc (jsToString i) (.jstr (jsToString val))
  | none => acc

/-- The generated `normalizeCasparJsonObject` (lines 396-411): flatten a
nested `templateData` structure, pass a flat object (or an array, which is
also `typeof "object"`) through unchanged, and send non-objects to the
empty map. -/
def normalizeCasparJsonObject (o : JVal) : JVal :=
  match o with
  | .jobj fs =>
      (match jsOr (objGet fs "templateData") (objGet fs "templatedata") with
       | some tdv => .jobj ((tdArr tdv).foldl tdEntry [])
       | none => .jobj fs)
  | .jarr xs => .jarr xs
  | _ => .jobj []

/-- The generated `parseCasparJsonStrict` on a string argument. -/
def parseCasparJsonStrictStr (s : String) : Option JVal :=
  (jsonParse s).map normalizeCasparJsonObject

/-- The generated `parseCasparJsonLenient` on a string: strict parse, then
the recovery chain (strip BOM and trim, unwrap one quote layer, escape bare
newlines, retry), then the regular-expression scrape of the original
string. -/
def parseCasparJsonLenientStr (raw : String) : JVal :=
  match parseCasparJsonStrictStr raw with
  | some o => o
  | none =>
      let s : String := ⟨escBareNlL (unwrapIfQuoted (stripBomAndTrim raw)).data⟩
      match parseCasparJsonStrictStr s with
      | some o => o
      | none => .jobj ((scrapePairs raw).map (fun kv => (kv.1, JVal.jstr kv.2)))

/-- The generated `parseCasparJsonLenient` on a non-string argument: the
normalization itself cannot throw, so the recovery branch is dead. -/
def parseCasparJsonLenientObj (o : JVal) : JVal := normalizeCasparJsonObject o

/-! ### The XML `componentData` route -/

mutual

/-- XML document node (model of the DOM tree `DOMParser` produces). -/
inductive XNode where
  | elem (tag : String) (attrs : List (String × String)) (children : XNodes)
  | text (s : String)

/-- Sibling list of XML nodes. -/
inductive XNodes where
  | nil
  | cons (hd : XNode) (tl : XNodes)

end

mutual

/-- All elements of the given tag in a subtree, document order, the root
included (as `document.getElementsByTagName` behaves). -/
def elemsByTagN (tag : String) : XNode → List XNode
  | .text _ => []
  | .elem t a cs => (if t = tag then [.elem t a cs] else []) ++ elemsByTagNs tag cs

/-- All elements of the given tag under a sibling list. -/
def elemsByTagNs (tag : String) : XNodes → List XNode
  | .nil => []
  | .cons h tl => elemsByTagN tag h ++ elemsByTagNs tag tl

end

mutual

/-- Concatenated descendant text (`textContent`). -/
def textContentN : XNode → List Char
  | .text s => s.data
  | .elem _ _ cs => textContentNs cs

/-- Concatenated descendant text of a sibling list. -/
def textContentNs : XNodes → List Char
  | .nil => []
  | .cons h tl => textContentN h ++ textContentNs tl

end

/-- Descendant elements by tag (`node.getElementsByTagName`, which excludes
the node itself). -/
def descElemsByTag (n : XNode) (tag : String) : List XNode :=
  match n with
  | .text _ => []
  | .elem _ _ cs => elemsByTagNs tag cs

/-- First attribute binding (`getAttribute`; absent gives null). -/
def getAttr (n : XNode) (a : String) : Option String :=
  match n with
  | .text _ => none
  | .elem _ attrs _ => getAssoc attrs a

/-- The generated `textByTag`: text content of the first descendant element
of the tag, else the empty string. -/
def textByTag (n : XNode) (tag : String) : String :=
  match (descElemsByTag n tag).head? with
  | some e => ⟨textContentN e⟩
  | none => ""

/-- Name characters accepted by the model XML tokenizer (ASCII
alphanumerics cover every tag and attribute the protocol reads). -/
def xNameCh (c : Char) : Bool := c.isAlphanum

/-- XML whitespace skipping. -/
def skipWsX (l : List Char) : List Char := l.dropWhile isWsCh

/-- Decode one entity reference after an ampersand. -/
def xEntity (l : List Char) : Option (Char × List Char) :=
  match l with
  | 'a' :: 'm' :: 'p' :: ';' :: r => some ('&', r)
  | 'l' :: 't' :: ';' :: r => some ('<', r)
  | 'g' :: 't' :: ';' :: r => some ('>', r)
  | 'q' :: 'u' :: 'o' :: 't' :: ';' :: r => some ('"', r)
  | 'a' :: 'p' :: 'o' :: 's' :: ';' :: r => some (Char.ofNat 39, r)
  | _ => none

/-- Fuelled attribute value scanner up to the closing quote `q`; a raw `<`
or a bad entity is a well-formedness error. -/
def xAttrValAux (q : Char) : Nat → List Char → Option (List Char × List Char)
  | 0, _ => none
  | _ + 1, [] => none
  | f + 1, c :: rest =>
      if c = q then some ([], rest)
      else if c = '<' then none
      else if c = '&' then
        (xEntity rest).bind (fun er => (xAttrValAux q f er.2).map (fun r => (er.1 :: r.1, r.2)))
      else (xAttrValAux q f rest).map (fun r => (c :: r.1, r.2))

/-- Attribute value scanner. -/
def xAttrVal (q : Char) (l : List Char) : Option (List Char × List Char) :=
  xAttrValAux q (l.length + 1) l

/-- Fuelled text run scanner: decoded characters up to the next `<` (not
consumed). -/
def xTextAux : Nat → List Char → Option (List Char × List Char)
  | 0, _ => none
  | _ + 1, [] => some ([], [])
  | f + 1, c :: rest =>
      if c = '<' then some ([], c :: rest)
      else if c = '&' then
        (xEntity rest).bind (fun er => (xTextAux f er.2).map (fun r => (er.1 :: r.1, r.2)))
      else (xTextAux f rest).map (fun r => (c :: r.1, r.2))

/-- Text run scanner. -/
def xText (l : List Char) : Option (List Char × List Char) :=
  xTextAux (l.length + 1) l

mutual

/-- Fuelled node-list parser; stops before a closing tag or at the end. -/
def xParseNodes : Nat → List Char → Option (XNodes × List Char)
  | 0, _ => none
  | f + 1, l =>
      match l with
      | [] => some (.nil, [])
      | '<' :: '/' :: rest => some (.nil, '<' :: '/' :: rest)
      | '<' :: rest =>
          (xParseElem f rest).bind (fun nr =>
            (xParseNodes f nr.2).map (fun r => (.cons nr.1 r.1, r.2)))
      | _ =>
          (xText l).bind (fun tr =>
            (xParseNodes f tr.2).map (fun r => (.cons (.text ⟨tr.1⟩) r.1, r.2)))

/-- Fuelled element parser, called after the opening `<`: name, attributes,
then either a self-closing `/>` or children and a matching close tag. -/
def xParseElem : Nat → List Char → Option (XNode × List Char)
  | 0, _ => none
  | f + 1, l =>
      let nm := l.takeWhile xNameCh
      if nm = [] then none else
      (xAttrsP f (skipWsX (l.drop nm.length))).bind (fun ar =>
        match ar.2 with
        | '/' :: '>' :: r3 => some (.elem ⟨nm⟩ ar.1 .nil, r3)
        | '>' :: r3 =>
            (xParseNodes f r3).bind (fun cr =>
              match cr.2 with
              | '<' :: '/' :: r5 =>
                  let nm2 := r5.takeWhile xNameCh
                  if nm2 = nm then
                    (match skipWsX (r5.drop nm2.length) with
                     | '>' :: r6 => some (.elem ⟨nm⟩ ar.1 cr.1, r6)
                     | _ => none)
                  else none
              | _ => none)
        | _ => none)

/-- Fuelled attribute-list parser. -/
def xAttrsP : Nat → List Char → Option (List (String × String) × List Char)
  | 0, _ => none
  | f + 1, l =>
      match l with
      | '/' :: rest => some ([], '/' :: rest)
      | '>' :: rest => some ([], '>' :: rest)
      | c :: _ =>
          if xNameCh c then
            let an := l.takeWhile xNameCh
            (match skipWsX (l.drop an.length) with
             | '=' :: r2 =>
                 (match skipWsX r2 with
                  | q :: r3 =>
                      if q = '"' || q = Char.ofNat 39 then
                        (xAttrVal q r3).bind (fun vr =>
                          (xAttrsP f (skipWsX vr.2)).map
                            (fun r => ((⟨an⟩, ⟨vr.1⟩) :: r.1, r.2)))
                      else none
                  | [] => none)
             | _ => none)
          else none
      | [] => none

end

/-- Parse a whole XML document: one root element surrounded by whitespace
(`DOMParser` rejects anything else with an error document, which the
extraction then sees as empty). -/
def xParseDoc (s : String) : Option XNode :=
  match skipWsX s.data with
  | '<' :: rest =>
      (xParseElem (rest.length + 1) rest).bind (fun nr =>
        if skipWsX nr.2 = [] then some nr.1 else none)
  | _ => none

/-- The generated `parseTemplateDataXml` (lines 372-387): all
`componentData` elements (lowercase `componentdata` only when none exist),
id from the attribute or an `id` child, value from the first descendant
`data` element's `value` attribute or text content, else a `value` child's
text. -/
def parseTemplateDataXml (s : String) : List (String × JVal) :=
  match xParseDoc s with
  | none => []
  | some root =>
      let up := elemsByTagN "componentData" root
      let nodes := match up with
                   | [] => elemsByTagN "componentdata" root
                   | _ => up
      nodes.foldl (fun out n =>
        let id : String :=
          match getAttr n "id" with
          | some a => if a ≠ "" then a else textByTag n "id"
          | none => textByTag n "id"
        let val : String :=
          match (descElemsByTag n "data").head? with
          | some d =>
              (match getAttr d "value" with
               | some a => if a ≠ "" then a else ⟨textContentN d⟩
               | none => ⟨textContentN d⟩)
          | none => textByTag n "value"
        if id ≠ "" then setAssoc out id (.jstr val) else out) []

/-- The parse section of the generated `__realUpdate` (lines 444-452):
strings are routed to the XML extraction when their first non-whitespace
character is `<` and to the lenient JSON pipeline otherwise; non-string
objects go through the lenient normalization; booleans and numbers leave
the initial empty map. -/
def parseUpdatePayload (raw : JVal) : JVal :=
  match raw with
  | .jstr s0 =>
      let s := stripBomAndTrim s0
      if (s.data.dropWhile isWsCh).head? = some '<' then .jobj (parseTemplateDataXml s)
      else parseCasparJsonLenientStr s
  | .jnull => .jobj []
  | .jbool _ => .jobj []
  | .jnum _ => .jobj []
  | o => parseCasparJsonLenientObj o

/-! ## Lifecycle and update-queueing state machine

The generated Caspar document (template-builders.mjs lines 361-486 and the
`onLoad` callback, lines 659-684).  Events are the host's `update` calls
(the early stub before the main script runs, then `__realUpdate`), `play`,
the first-play grace timer callback, and the runtime's load completion. -/

/-- Baked generation-time configuration of one Caspar document: the schema
tables, the configured triggers (absent or empty strings make the generator
emit nothing, hence `Option`), the baked defaults in key order, and the URL
query parameters in document order. -/
structure CasparCfg where
  sch : Schema
  trigIn : Option String := none
  trigOut : Option String := none
  trigNext : Option String := none
  vmDefaults : List (String × String) := []
  urlParams : List (String × String) := []

/-- Animation-level side effects of the document. -/
inductive DocEffect where
  | rivePlay | riveStop | riveCleanup
deriving Repr, DecidableEq

/-- Mutable state of the generated document's inline script. -/
structure DocState where
  rLive : Bool := false
  vmi : Option Vm := none
  early : List JVal := []
  pending : List JVal := []
  hasUpdatedOnce : Bool := false
  firstPlayPending : Bool := false
  timerArmed : Bool := false
  effects : List DocEffect := []

/-- The boot state after the inline script has run and `boot()` succeeded
(runtime constructed, load callback still outstanding). -/
def bootState : DocState := { rLive := true }

/-- One generated `bakeDefaultLine` (lines 786-795): try the string,
number, boolean, color, image accessors in order.  Each generated line
contains a plain `return`, and the lines are concatenated into the body of
`applyBakedDefaults`, so the first line that finds an accessor returns from
the whole function; the flag reports whether that happened. -/
def bakeStep (sch : Schema) (name value : String) (vm : Vm) : Vm × Bool :=
  if schemaHas sch name .string then
    ({ vm with strs := setAssoc vm.strs name value }, true)
  else if schemaHas sch name .number then
    (match jsStrToNumL value.data with
     | some n => ({ vm with nums := setAssoc vm.nums name n }, true)
     | none => (vm, true))
  else if schemaHas sch name .boolean then
    ({ vm with bools := setAssoc vm.bools name (lowerS value = "true") }, true)
  else if schemaHas sch name .color then
    (match toColor32 (.jstr value) with
     | some c => ({ vm with cols := setAssoc vm.cols name c }, true)
     | none => (vm, true))
  else if schemaHas sch name .image then
    (setImageFromSource sch name value vm, true)
  else (vm, false)

/-- The generated `applyBakedDefaults` on a bound instance: run the baked
lines, stopping at the first one whose accessor chain returns. -/
def applyBakedDefaults (cfg : CasparCfg) (vm : Vm) : Vm :=
  (cfg.vmDefaults.foldl
    (fun acc kv =>
      if acc.2 then acc
      else bakeStep cfg.sch kv.1 kv.2 acc.1)
    (vm, false)).1

/-- Boolean coercion of the URL setter lines:
`String(v).toLowerCase()==="true" || v==="1" ||
 String(v).toLowerCase()==="yes"`. -/
def urlBoolCoerce (v : String) : Bool :=
  lowerS v = "true" || v = "1" || lowerS v = "yes"

/-- One per-property URL setter line (`setterLine`, lines 749-764):
exact-case lookup of `vm.<Name>`, then the declared type's coercion. -/
def urlSetterStep (sch : Schema) (ps : List (String × String)) (vm : Vm) (p : VProp) : Vm :=
  let key := "vm." ++ p.name
  match p.ptype with
  | .string =>
      (match getAssoc ps key with
       | some v =>
           if schemaHas sch p.name .string then
             { vm with strs := setAssoc vm.strs p.name v }
           else vm
       | none => vm)
  | .number =>
      (match getAssoc ps key with
       | some v =>
           (match jsStrToNumL v.data with
            | some n =>
                if schemaHas sch p.name .number then
                  { vm with nums := setAssoc vm.nums p.name n }
                else vm
            | none => vm)
       | none => vm)
  | .boolean =>
      (match getAssoc ps key with
       | some v =>
           if schemaHas sch p.name .boolean then
             { vm with bools := setAssoc vm.bools p.name (urlBoolCoerce v) }
           else vm
       | none => vm)
  | .color =>
      (match getAssoc ps key with
       | some v =>
           (match toColor32 (.jstr v) with
            | some c =>
                if schemaHas sch p.name .color then
                  { vm with cols := setAssoc vm.cols p.name c }
                else vm
            | none => vm)
       | none => vm)
  | .image =>
      (match getAssoc ps key with
       | some v => setImageFromSource sch p.name v vm
       | none => vm)
  | .trigger =>
      (match getAssoc ps key with
       | some v =>
           if v = "true" || v = "1" then (fireVmTriggerVm sch p.name vm).1 else vm
       | none => vm)

/-- One iteration of the generic URL fallback loop (lines 633-645): any
`vm.`-prefixed parameter probes the string, number, boolean, color, image,
trigger accessors in order and stops at the first available one. -/
def urlGenericStep (sch : Schema) (vm : Vm) (kv : String × String) : Vm :=
  match kv.1.data with
  | 'v' :: 'm' :: '.' :: nameL =>
      let name : String := ⟨nameL⟩
      let value := kv.2
      if schemaHas sch name .string then
        { vm with strs := setAssoc vm.strs name value }
      else if schemaHas sch name .number then
        (match jsStrToNumL value.data with
         | some n => { vm with nums := setAssoc vm.nums name n }
         | none => vm)
      else if schemaHas sch name .boolean then
        { vm with bools := setAssoc vm.bools name (urlBoolCoerce value) }
      else if schemaHas sch name .color then
        (match toColor32 (.jstr value) with
         | some c => { vm with cols := setAssoc vm.cols name c }
         | none => vm)
      else if schemaHas sch name .image then
        setImageFromSource sch name value vm
      else if schemaHas sch name .trigger then
        (if value = "true" || value = "1" then (fireVmTriggerVm sch name vm).1 else vm)
      else vm
  | _ => vm

/-- The generated `applyFromUrl` (lines 628-646) on a bound instance: the
per-property setter lines in schema order, then the generic `vm.*`
fallback over the query parameters in document order. -/
def applyFromUrl (cfg : CasparCfg) (vm : Vm) : Vm :=
  let vm1 := cfg.sch.foldl (urlSetterStep cfg.sch cfg.urlParams) vm
  cfg.urlParams.foldl (urlGenericStep cfg.sch) vm1

/-- The generated `__doPlayNow` (lines 436-439): guarded `r.play()`, then
the configured enter trigger (`fireVmTrigger` is a no-op while the binding
is absent). -/
def doPlayNow (cfg : CasparCfg) (st : DocState) : DocState :=
  let st1 := if st.rLive then { st with effects := st.effects ++ [DocEffect.rivePlay] } else st
  match cfg.trigIn with
  | none => st1
  | some t =>
      match st1.vmi with
      | none => st1
      | some vm => { st1 with vmi := some (fireVmTriggerVm cfg.sch t vm).1 }

/-- The early capture stub (lines 347-358) active before the main script
replaces the handlers: every payload is pushed onto `window.__caspar.q`. -/
def stubUpdate (st : DocState) (raw : JVal) : DocState :=
  { st with early := st.early ++ [raw] }

/-- The generated `__realUpdate` (lines 442-462): return on null, parse,
queue the parsed mapping while the binding is absent, otherwise apply it,
record that an update happened, and release a pending first play (timer
cancelled, `__doPlayNow` immediately). -/
def realUpdate (cfg : CasparCfg) (st : DocState) (raw : JVal) : DocState :=
  match raw with
  | .jnull => st
  | _ =>
    let obj := parseUpdatePayload raw
    match st.vmi with
    | none => { st with pending := st.pending ++ [obj] }
    | some vm =>
        let st1 := { st with vmi := some (applyPayload cfg.sch obj vm), hasUpdatedOnce := true }
        if st1.firstPlayPending then
          doPlayNow cfg { st1 with firstPlayPending := false, timerArmed := false }
        else st1

/-- The generated `window.play` (lines 467-482): before any update has been
applied, mark a first play pending and arm the fixed grace timer (once);
otherwise play now. -/
def playCmd (cfg : CasparCfg) (st : DocState) : DocState :=
  if st.hasUpdatedOnce then doPlayNow cfg st
  else
    let st1 := { st with firstPlayPending := true }
    if st1.timerArmed then st1 else { st1 with timerArmed := true }

/-- The fixed first-play grace window (`__firstPlayWaitMs`, line 366). -/
def firstPlayWaitMs : Nat := 250

/-- The grace timer callback (lines 472-477): if the first play is still
pending, clear the flag and play with whatever values are current.  The
timer handle itself is not cleared by the callback. -/
def timerFire (cfg : CasparCfg) (st : DocState) : DocState :=
  if st.firstPlayPending then doPlayNow cfg { st with firstPlayPending := false } else st

/-- The runtime's load-completion callback (lines 659-684): bind the fresh
view-model instance, apply baked defaults then URL values, drain the early
capture queue through `__realUpdate`, then apply every queued pending
mapping in order and mark updates as seen when any were queued. -/
def onLoadEvent (cfg : CasparCfg) (st : DocState) : DocState :=
  let vm0 := applyFromUrl cfg (applyBakedDefaults cfg emptyVm)
  let st1 := { st with vmi := some vm0 }
  let st2 := st1.early.foldl (fun s raw => realUpdate cfg s raw) st1
  let st3 := { st2 with early := [] }
  match st3.vmi, st3.pending with
  | some vm, p :: ps =>
      let vmF := (p :: ps).foldl (fun acc o => applyPayload cfg.sch o acc) vm
      { st3 with vmi := some vmF, pending := [], hasUpdatedOnce := true }
  | _, _ => st3

/-! ## Exception structure of the public command surface

For the error-handling claim the relevant structure is where the generated
entry points place their guards (template-builders.mjs lines 442-486 and
522-532), not what the animation does.  `FailEnv` lets every fallible
runtime primitive throw adversarially; the entry points below mirror the
source's try/catch skeleton, returning the state reached together with
whether an exception escaped to the caller. -/

/-- Adversarial fallibility of the runtime primitives. -/
structure FailEnv where
  playThrows : Bool
  stopThrows : Bool
  cleanupThrows : Bool
  parseThrows : Bool
  trigThrows : String → Bool
  trigHas : String → Bool

/-- Document state reduced to the flags the command surface touches. -/
structure EDoc where
  rLive : Bool
  vmiLive : Bool
  released : Bool
  stopped : Bool
  hasUpdatedOnce : Bool
  firstPlayPending : Bool
  timerArmed : Bool
deriving Repr, DecidableEq

/-- `fireVmTrigger` never throws: the accessor call, feature probe and fire
all sit inside its own try, and the null guards precede it; the result is
whether a trigger actually fired. -/
def fireVmTriggerE (env : FailEnv) (st : EDoc) (name : String) : Bool :=
  if name = "" || !st.vmiLive then false
  else if env.trigThrows name then false
  else env.trigHas name

/-- Body of `__realUpdate` before its blanket catch: parsing may throw;
with no binding the payload is queued; otherwise the per-property writes
are each individually caught inside `apply`, so only the parse step can
abort the body. -/
def updateBodyE (env : FailEnv) (st : EDoc) : EDoc × Bool :=
  if env.parseThrows then (st, true)
  else if !st.vmiLive then (st, false)
  else
    let st1 := { st with hasUpdatedOnce := true }
    if st1.firstPlayPending then
      ({ st1 with firstPlayPending := false, timerArmed := false }, false)
    else (st1, false)

/-- `window.update` / `window.data` / `window.SetData`: the body inside the
blanket try/catch (line 461) — an exception becomes a logged no-op. -/
def updateE (env : FailEnv) (st : EDoc) : EDoc × Bool :=
  ((updateBodyE env st).1, false)

/-- `window.play`: flag bookkeeping and `setTimeout` cannot throw, and
`__doPlayNow` guards `r.play()` with its own try and fires the trigger
through `fireVmTrigger`. -/
def playE (_env : FailEnv) (st : EDoc) : EDoc × Bool :=
  if st.hasUpdatedOnce then (st, false)
  else ({ st with firstPlayPending := true, timerArmed := true }, false)

/-- `window.next`: a bare `fireVmTrigger` call, which cannot throw and does
not touch the command-surface flags. -/
def nextE (env : FailEnv) (trigNext : Option String) (st : EDoc) : EDoc × Bool :=
  match trigNext with
  | some t => let _ := fireVmTriggerE env st t; (st, false)
  | none => (st, false)

/-- `window.stop` (line 484): fire the exit trigger; only when nothing
fired, call the guarded native `r.stop()`. -/
def stopE (env : FailEnv) (trigOut : Option String) (st : EDoc) : EDoc × Bool :=
  let fired := match trigOut with
               | some t => fireVmTriggerE env st t
               | none => false
  if fired then (st, false)
  else if st.rLive && !env.stopThrows then ({ st with stopped := true }, false)
  else (st, false)

/-- `window.remove` (line 485): guarded `r.cleanup()`; success releases the
document, a throw is swallowed. -/
def removeE (env : FailEnv) (st : EDoc) : EDoc × Bool :=
  if st.rLive && !env.cleanupThrows then ({ st with released := true }, false)
  else (st, false)

/-! ## `buildTemplate` option resolution

The synthesizer's handling of mode, runtime, embedding and the external
path (src/unnamed/part_002 lines 4-22; the embed/base64/rivPath lines are
identical in src/js/template-builders.mjs lines 322-324). -/

/-- Call options of `buildTemplate` (absent fields are `none`). -/
structure BuildOpts where
  mode : String := "caspar"
  runtime : Option String := none
  embed : Bool := false
  base64 : Option String := none
  rivPath : Option String := none
deriving Repr, DecidableEq

/-- Resolved generation inputs baked into the document. -/
structure BuildCfg where
  mode : String
  runtime : String
  embed : Bool
  rivBase64 : String
  rivPath : String
deriving Repr, DecidableEq

/-- JavaScript `x || d` on an optional string (empty string is falsy). -/
def jsOrDefaultS (x : Option String) (d : String) : String :=
  match x with
  | some s => if s = "" then d else s
  | none => d

/-- Option resolution of `buildTemplate`: the only rejection is an unknown
mode; `base64` defaults to empty when embedding, and `rivPath` falls back
to `./graphics.riv` when not embedding. -/
def buildTemplateCfg (opts : BuildOpts) : Except String BuildCfg :=
  if opts.mode ≠ "caspar" ∧ opts.mode ≠ "obs" then
    .error "mode must be caspar|obs"
  else
    .ok { mode := opts.mode
          runtime := if opts.mode = "caspar" then jsOrDefaultS opts.runtime "canvas" else "canvas"
          embed := opts.embed
          rivBase64 := if opts.embed then jsOrDefaultS opts.base64 "" else ""
          rivPath := if opts.embed then "" else jsOrDefaultS opts.rivPath "./graphics.riv" }

/-! ## Extractor acquisition/release flow

Each `inspectContents` / `buildSchema` variant constructs one offscreen
runtime instance and installs load/failure handlers; what the claim is
about is which handlers call `cleanup()`.  `ExtractorRun` records, for a
given load outcome, whether the returned promise resolved, rejected or
never settled, and whether the instance was released. -/

/-- Load outcome of the offscreen instance. -/
inductive LoadOutcome where
  | loadOk | loadErr
deriving Repr, DecidableEq

/-- Observable outcome of one extractor call. -/
structure ExtractorRun where
  resolved : Bool
  rejected : Bool
  cleanupCalled : Bool
  settled : Bool
deriving Repr, DecidableEq

/-- `inspectContents` of src/js/preset.mjs lines 124-155: `onLoad` resolves
then releases in a `finally`; `onLoadError` releases then rejects. -/
def inspectContentsRun : LoadOutcome → ExtractorRun
  | .loadOk => { resolved := true, rejected := false, cleanupCalled := true, settled := true }
  | .loadErr => { resolved := false, rejected := true, cleanupCalled := true, settled := true }

/-- `buildSchema` of src/js/preset.mjs lines 158-208: `onLoad` resolves and
releases; `onLoadError` releases then rejects. -/
def buildSchemaRun : LoadOutcome → ExtractorRun
  | .loadOk => { resolved := true, rejected := false, cleanupCalled := true, settled := true }
  | .loadErr => { resolved := false, rejected := true, cleanupCalled := true, settled := true }

/-- `buildSchema` of src/js/preset.mjs lines 248-278: `onLoad` releases in
a `finally` and resolves, but the failure handler is
`onError: (e) => reject(...)` with no `cleanup()` call. -/
def buildSchemaOnErrorRun : LoadOutcome → ExtractorRun
  | .loadOk => { resolved := true, rejected := false, cleanupCalled := true, settled := true }
  | .loadErr => { resolved := false, rejected := true, cleanupCalled := false, settled := true }

/-- `buildSchema` of src/unnamed/part_000 lines 28-53: `onLoad` releases
and resolves, but no failure handler is installed at all, so a load error
neither settles the promise nor releases the instance. -/
def buildSchemaNoHandlerRun : LoadOutcome → ExtractorRun
  | .loadOk => { resolved := true, rejected := false, cleanupCalled := true, settled := true }
  | .loadErr => { resolved := false, rejected := false, cleanupCalled := false, settled := false }

/-- Accumulated value of a hexadecimal digit list (total companion of
`hexAllL`). -/
def hexValL (l : List Char) : Nat :=
  l.foldl (fun a c => a * 16 + (hexDigVal c).getD 0) 0

/-- The hexadecimal digit characters. -/
def hexChars : List Char :=
  ['A', 'B', 'C', 'D', 'E', 'F', 'a', 'b', 'c', 'd', 'e', 'f',
   '0', '1', '2', '3', '4', '5', '6', '7', '8', '9']

/-- A payload key resolves against the baked tables when it is a declared
canonical name (`VM_TYPES`) or its lowercasing is indexed (`VM_INDEX`). -/
def resolvableB (sch : Schema) (k : String) : Bool :=
  (vmTypes sch k).isSome || (vmIndex sch (lowerS k)).isSome

/-! ## Encodings of one logical content (test vectors for normalization)

Each encoder below renders the logical content with one name/value pair in
one of the payload shapes the generated document accepts.  They are inputs
to the normalization pipeline, not part of the program.  `simpleCh`
describes characters representable in every encoding at once (ASCII
alphanumerics and the space). -/

/-- Characters representable verbatim in every payload encoding. -/
def simpleCh (c : Char) : Bool :=
  (48 ≤ c.toNat && c.toNat ≤ 57) || (65 ≤ c.toNat && c.toNat ≤ 90) ||
  (97 ≤ c.toNat && c.toNat ≤ 122) || c.toNat = 32

/-- Strict flat JSON object text for the content. -/
def encJsonFlat (name v : List Char) : List Char :=
  '\x7b' :: '"' :: (name ++ '"' :: ':' :: ' ' :: '"' :: (v ++ '"' :: '\x7d' :: []))

/-- The flat JSON text preceded by a byte-order mark. -/
def encBom (name v : List Char) : List Char :=
  '﻿' :: encJsonFlat name v

/-- Flat JSON text wrapped in one stray layer of double quotes (the shape
the quote-unwrapping recovery step repairs). -/
def encWrapped (name v : List Char) : List Char :=
  '"' :: (encJsonFlat name v ++ ['"'])

/-- Flat JSON text with a trailing comma, unparsable as strict JSON even
after recovery, so only the regular-expression scrape extracts it. -/
def encScrape (name v : List Char) : List Char :=
  '\x7b' :: '"' :: (name ++ '"' :: ':' :: ' ' :: '"' :: (v ++ '"' :: ',' :: '\x7d' :: []))

/-- Nested `templateData`/`componentData` JSON text for the content. -/
def encTD (name v : List Char) : List Char :=
  '\x7b' :: '"' :: ("templateData".data ++ '"' :: ':' :: ' ' :: '\x7b' :: '"' ::
    ("componentData".data ++ '"' :: ':' :: ' ' :: '[' :: '\x7b' :: '"' ::
      ("id".data ++ '"' :: ':' :: ' ' :: '"' ::
        (name ++ '"' :: ',' :: ' ' :: '"' ::
          ("value".data ++ '"' :: ':' :: ' ' :: '"' ::
            (v ++ '"' :: '\x7d' :: ']' :: '\x7d' :: '\x7d' :: []))))))

/-- XML `componentData` fragment for the content (id attribute, value
attribute on the `data` child). -/
def encXml (name v : List Char) : List Char :=
  '<' :: ("templateData><componentData id=".data ++ '"' ::
    (name ++ ('"' :: "><data value=".data ++ '"' ::
      (v ++ ('"' :: "/></componentData></templateData>".data)))))

/-- Flat JSON text in which the value contains a literal (unescaped) line
break — invalid strict JSON that the bare-newline escaping recovery
repairs. -/
def encNlRaw (name v1 v2 : List Char) : List Char :=
  '\x7b' :: '"' :: (name ++ '"' :: ':' :: ' ' :: '"' :: (v1 ++ '\n' :: (v2 ++ '"' :: '\x7d' :: [])))

/-- Strict flat JSON text for the same newline-carrying content, with the
line break properly escaped. -/
def encNlEsc (name v1 v2 : List Char) : List Char :=
  '\x7b' :: '"' :: (name ++ '"' :: ':' :: ' ' :: '"' :: (v1 ++ '\\' :: 'n' :: (v2 ++ '"' :: '\x7d' :: [])))

/-! # Helper lemmas -/

theorem dropWhile_all_false {p : Char → Bool} {l : List Char}
    (h : ∀ c ∈ l, p c = false) : l.dropWhile p = l := by
  cases l with
  | nil => rfl
  | cons c rest => simp [List.dropWhile, h c (by simp)]

theorem takeWhile_all_true {p : Char → Bool} :
    ∀ {l : List Char}, (∀ c ∈ l, p c = true) → l.takeWhile p = l := by
  intro l
  induction l with
  | nil => intro _; rfl
  | cons c rest ih =>
      intro h
      rw [List.takeWhile_cons, if_pos (h c (by simp))]
      rw [ih (fun x hx => h x (by simp [hx]))]

theorem trimL_all_nonws {l : List Char} (h : ∀ c ∈ l, isWsCh c = false) :
    trimL l = l := by
  unfold trimL
  rw [dropWhile_all_false h, dropWhile_all_false (fun c hc => h c (by simpa using hc)),
      List.reverse_reverse]

theorem map_self_of {f : Char → Char} :
    ∀ {l : List Char}, (∀ c ∈ l, f c = c) → l.map f = l := by
  intro l
  induction l with
  | nil => intro _; rfl
  | cons c rest ih =>
      intro h
      rw [List.map_cons, h c (by simp), ih (fun x hx => h x (by simp [hx]))]

theorem mem_of_head? {l : List Char} {c : Char} (h : l.head? = some c) : c ∈ l := by
  cases l with
  | nil => simp at h
  | cons x rest =>
      simp only [List.head?_cons, Option.some.injEq] at h
      subst h
      exact List.mem_cons_self x rest

theorem digitCh_dec {d : Nat} (h : d < 10) : decDigVal (digitCh d) = some d := by
  interval_cases d <;> rfl

theorem digitCh_not_ws {d : Nat} (h : d < 10) : isWsCh (digitCh d) = false := by
  interval_cases d <;> rfl

theorem digitCh_lower {d : Nat} (h : d < 10) : lowerCh (digitCh d) = digitCh d := by
  interval_cases d <;> rfl

theorem natDecAux_mem : ∀ f n c, c ∈ natDecAux f n → ∃ d, d < 10 ∧ c = digitCh d := by
  intro f
  induction f with
  | zero => intro n c h; simp [natDecAux] at h
  | succ f ih =>
      intro n c h
      unfold natDecAux at h
      by_cases h10 : n < 10
      · simp [h10] at h; exact ⟨n, h10, h⟩
      · simp [h10] at h
        rcases h with h | h
        · exact ih _ _ h
        · exact ⟨n % 10, by omega, h⟩

theorem natDecAux_ne_nil {f n : Nat} (h : 0 < f) : natDecAux f n ≠ [] := by
  cases f with
  | zero => omega
  | succ f =>
      unfold natDecAux
      by_cases h10 : n < 10 <;> simp [h10]

theorem natDecAux_foldl : ∀ f n, n < f → ∀ a : Nat,
    List.foldl decStep (some a) (natDecAux f n) =
      some (a * 10 ^ (natDecAux f n).length + n) := by
  intro f
  induction f with
  | zero => omega
  | succ f ih =>
      intro n hn a
      unfold natDecAux
      by_cases h10 : n < 10
      · simp [h10, decStep, digitCh_dec h10]
      · have hdiv : n / 10 < f := by
          have h1 : n / 10 < n := Nat.div_lt_self (by omega) (by omega)
          omega
        simp only [h10, if_false, List.foldl_append]
        rw [ih (n / 10) hdiv a]
        simp only [List.foldl_cons, List.foldl_nil, decStep,
          digitCh_dec (show n % 10 < 10 by omega), List.length_append,
          List.length_cons, List.length_nil, Nat.zero_add]
        congr 1
        rw [pow_succ]
        have hmod : n / 10 * 10 + n % 10 = n := by omega
        calc (a * 10 ^ (natDecAux f (n / 10)).length + n / 10) * 10 + n % 10
            = a * (10 ^ (natDecAux f (n / 10)).length * 10) + (n / 10 * 10 + n % 10) := by
              ring
          _ = a * (10 ^ (natDecAux f (n / 10)).length * 10) + n := by rw [hmod]

theorem decAll_natDecL (n : Nat) : decAllL (natDecL n) = some n := by
  unfold decAllL natDecL
  rw [if_neg (natDecAux_ne_nil (by omega))]
  rw [natDecAux_foldl (n + 1) n (by omega) 0]
  simp

theorem intDec_mem {n : Int} {c : Char} (h : c ∈ intDecL n) :
    c = '-' ∨ ∃ d, d < 10 ∧ c = digitCh d := by
  unfold intDecL at h
  by_cases hn : n < 0
  · simp [hn] at h
    rcases h with h | h
    · exact Or.inl h
    · exact Or.inr (natDecAux_mem _ _ _ h)
  · simp [hn] at h
    exact Or.inr (natDecAux_mem _ _ _ h)

theorem intDec_nonws {n : Int} : ∀ c ∈ intDecL n, isWsCh c = false := by
  intro c hc
  rcases intDec_mem hc with h | ⟨d, hd, h⟩
  · subst h; rfl
  · subst h; exact digitCh_not_ws hd

theorem intDec_ne_nil (n : Int) : intDecL n ≠ [] := by
  unfold intDecL
  by_cases hn : n < 0 <;> simp [hn, natDecAux_ne_nil, natDecL]

theorem jsStrToNum_intDec (n : Int) : jsStrToNumL (intDecL n) = some n := by
  have htrim : trimL (intDecL n) = intDecL n := trimL_all_nonws intDec_nonws
  unfold jsStrToNumL
  simp only [htrim]
  rw [if_neg (intDec_ne_nil n)]
  by_cases hn : n < 0
  · have hform : intDecL n = '-' :: natDecL n.natAbs := by
      unfold intDecL; rw [if_pos hn]
    rw [hform]
    rw [if_pos (by rfl)]
    show (decAllL (natDecL n.natAbs)).map _ = some n
    rw [decAll_natDecL]
    simp only [Option.map_some', Int.ofNat_eq_coe]
    congr 1
    omega
  · have hform : intDecL n = natDecL n.toNat := by
      unfold intDecL; rw [if_neg hn]
    have hmem : ∀ c ∈ intDecL n, ∃ d, d < 10 ∧ c = digitCh d := by
      intro c hc
      rw [hform] at hc
      exact natDecAux_mem _ _ _ hc
    have h1 : ¬ ((intDecL n).head? = some '-') := by
      intro h
      rcases hmem _ (mem_of_head? h) with ⟨d, hd, hxd⟩
      interval_cases d <;> exact absurd hxd (by decide)
    have h2 : ¬ ((intDecL n).head? = some '+') := by
      intro h
      rcases hmem _ (mem_of_head? h) with ⟨d, hd, hxd⟩
      interval_cases d <;> exact absurd hxd (by decide)
    have h3 : ¬ ((intDecL n).take 2 = ['0', 'x'] ∨ (intDecL n).take 2 = ['0', 'X']) := by
      rintro (h | h)
      · have hx : 'x' ∈ (intDecL n).take 2 := by rw [h]; simp
        rcases hmem _ (List.take_subset _ _ hx) with ⟨d, hd, hxd⟩
        interval_cases d <;> exact absurd hxd (by decide)
      · have hx : 'X' ∈ (intDecL n).take 2 := by rw [h]; simp
        rcases hmem _ (List.take_subset _ _ hx) with ⟨d, hd, hxd⟩
        interval_cases d <;> exact absurd hxd (by decide)
    rw [if_neg h1, if_neg h2, if_neg h3]
    rw [hform, decAll_natDecL]
    simp only [Option.map_some', Int.ofNat_eq_coe]
    congr 1
    omega

theorem hexCh_facts {c : Char} (h : c ∈ hexChars) :
    (hexDigVal c).isSome = true ∧ isWsCh c = false ∧ c ≠ '-' ∧ c ≠ '+' := by
  unfold hexChars at h
  fin_cases h <;> exact ⟨by decide, by decide, by decide, by decide⟩

theorem hexAll_fold {l : List Char} (h : ∀ c ∈ l, (hexDigVal c).isSome) :
    ∀ a, List.foldl hexStep (some a) l =
      some (l.foldl (fun a c => a * 16 + (hexDigVal c).getD 0) a) := by
  induction l with
  | nil => intro a; rfl
  | cons c rest ih =>
      intro a
      have hc := h c (by simp)
      rcases Option.isSome_iff_exists.mp hc with ⟨d, hd⟩
      simp [hexStep, hd]
      exact ih (fun x hx => h x (by simp [hx])) _

theorem hexAllL_spec {l : List Char} (hne : l ≠ []) (h : ∀ c ∈ l, (hexDigVal c).isSome) :
    hexAllL l = some (hexValL l) := by
  unfold hexAllL hexValL
  rw [if_neg hne, hexAll_fold h]

theorem toU32_ofNat (m : Nat) : toU32 (m : Int) = m % 2 ^ 32 := by
  unfold toU32
  omega

/-! ## Dispatch-table lemmas (towards C4 and C6) -/

theorem vmTypes_none_not_name {sch : Schema} {k : String} (h : vmTypes sch k = none) :
    ∀ p ∈ sch, p.name ≠ k := by
  intro p hp
  unfold vmTypes at h
  rw [Option.map_eq_none'] at h
  rw [List.find?_eq_none] at h
  have := h p (List.mem_reverse.mpr hp)
  simpa using this

theorem schemaHas_false_of_vmTypes_none {sch : Schema} {k : String}
    (h : vmTypes sch k = none) (t : PType) : schemaHas sch k t = false := by
  unfold schemaHas
  rw [List.any_eq_false]
  intro p hp
  simp [vmTypes_none_not_name h p hp]

theorem schemaHas_of_mem {sch : Schema} {p : VProp} (hp : p ∈ sch) :
    schemaHas sch p.name p.ptype = true := by
  unfold schemaHas
  rw [List.any_eq_true]
  exact ⟨p, hp, by simp⟩

theorem vmTypes_isSome_of_mem {sch : Schema} {p : VProp} (hp : p ∈ sch) :
    (vmTypes sch p.name).isSome = true := by
  unfold vmTypes
  rw [Option.isSome_map']
  rw [List.find?_isSome]
  exact ⟨p, List.mem_reverse.mpr hp, by simp⟩

theorem resolvableB_of_mem {sch : Schema} {p : VProp} (hp : p ∈ sch) :
    resolvableB sch p.name = true := by
  unfold resolvableB
  rw [vmTypes_isSome_of_mem hp]
  rfl

theorem schemaHas_unique {sch : Schema} {nm : String} {t t' : PType}
    (huniq : ∀ q ∈ sch, q.name = nm → q.ptype = t)
    (h : schemaHas sch nm t' = true) : t' = t := by
  unfold schemaHas at h
  rw [List.any_eq_true] at h
  rcases h with ⟨q, hq, hqp⟩
  simp only [Bool.and_eq_true, decide_eq_true_eq] at hqp
  have := huniq q hq hqp.1
  rw [hqp.2] at this
  exact this

theorem schemaHas_false_of_unique {sch : Schema} {nm : String} {t t' : PType}
    (huniq : ∀ q ∈ sch, q.name = nm → q.ptype = t) (hne : t' ≠ t) :
    schemaHas sch nm t' = false := by
  cases hb : schemaHas sch nm t' with
  | false => rfl
  | true => exact absurd (schemaHas_unique huniq hb) hne

theorem fire_noop {sch : Schema} {nm : String} {vm : Vm}
    (h : schemaHas sch nm .trigger = false) : (fireVmTriggerVm sch nm vm).1 = vm := by
  unfold fireVmTriggerVm
  split
  · rfl
  · rw [h]; rfl

theorem probeStep_noop {sch : Schema} {nm : String} {v : JVal} {vm : Vm}
    (h : ∀ t, schemaHas sch nm t = false) : probeStep sch nm v vm = vm := by
  unfold probeStep
  rw [h .string, h .number, h .boolean, h .color, h .image]
  simp only [Bool.false_eq_true, if_false]
  split
  · exact fire_noop (h .trigger)
  · rfl

theorem isSome_false_eq_none {α : Type} {o : Option α} (h : o.isSome = false) : o = none := by
  cases o with
  | none => rfl
  | some x => simp at h

theorem genericStep_unresolved {sch : Schema} {kv : String × JVal} {vm : Vm}
    (h : resolvableB sch kv.1 = false) : genericStep sch vm kv = vm := by
  unfold resolvableB at h
  rw [Bool.or_eq_false_iff] at h
  have h1 : vmTypes sch kv.1 = none := isSome_false_eq_none h.1
  have h2 : vmIndex sch (lowerS kv.1) = none := isSome_false_eq_none h.2
  unfold genericStep
  simp only [h1, h2]
  exact probeStep_noop (schemaHas_false_of_vmTypes_none h1)

theorem fastStep_none {sch : Schema} {o : List (String × JVal)} {p : VProp} {vm : Vm}
    (h : objGet o p.name = none) : fastStep sch o p vm = vm := by
  rcases p with ⟨nm, t⟩
  cases t <;> simp [fastStep, h]

theorem fastStep_congr {sch : Schema} {o o' : List (String × JVal)} {p : VProp} {vm : Vm}
    (h : objGet o p.name = objGet o' p.name) :
    fastStep sch o p vm = fastStep sch o' p vm := by
  rcases p with ⟨nm, t⟩
  cases t <;> simp only [fastStep] <;> rw [h]

theorem objGet_filter {pred : String → Bool} {k : String} (hk : pred k = true) :
    ∀ (o : List (String × JVal)),
      objGet (o.filter (fun kv => pred kv.1)) k = objGet o k := by
  intro o
  induction o with
  | nil => rfl
  | cons kv rest ih =>
      unfold objGet getAssoc
      by_cases hp : pred kv.1
      · rw [List.filter_cons_of_pos (by simpa using hp)]
        by_cases he : kv.1 = k
        · rw [List.find?_cons_of_pos _ (by simp [he]), List.find?_cons_of_pos _ (by simp [he])]
        · rw [List.find?_cons_of_neg _ (by simp [he]), List.find?_cons_of_neg _ (by simp [he])]
          exact ih
      · rw [List.filter_cons_of_neg (by simpa using hp)]
        have hne : kv.1 ≠ k := by
          intro e; rw [e] at hp; exact hp hk
        rw [List.find?_cons_of_neg _ (by simp [hne])]
        exact ih

theorem fastFold_filter {sch : Schema} {o : List (String × JVal)} :
    ∀ (ps : List VProp) (vm : Vm), (∀ p ∈ ps, resolvableB sch p.name = true) →
      ps.foldl (fun acc p => fastStep sch o p acc) vm =
        ps.foldl (fun acc p => fastStep sch (o.filter (fun kv => resolvableB sch kv.1)) p acc) vm := by
  intro ps
  induction ps with
  | nil => intro vm _; rfl
  | cons p rest ih =>
      intro vm h
      simp only [List.foldl_cons]
      rw [fastStep_congr (objGet_filter (h p (by simp)) o).symm]
      exact ih _ (fun q hq => h q (by simp [hq]))

theorem genericFold_filter {sch : Schema} :
    ∀ (o : List (String × JVal)) (vm : Vm),
      o.foldl (genericStep sch) vm =
        (o.filter (fun kv => resolvableB sch kv.1)).foldl (genericStep sch) vm := by
  intro o
  induction o with
  | nil => intro vm; rfl
  | cons kv rest ih =>
      intro vm
      by_cases h : resolvableB sch kv.1
      · rw [List.filter_cons_of_pos (by simpa using h)]
        simp only [List.foldl_cons]
        exact ih _
      · rw [List.filter_cons_of_neg (by simpa using h)]
        simp only [List.foldl_cons]
        rw [genericStep_unresolved (by simpa using h)]
        exact ih _

theorem fastFold_nil {sch : Schema} :
    ∀ (ps : List VProp) (vm : Vm),
      ps.foldl (fun acc p => fastStep sch [] p acc) vm = vm := by
  intro ps
  induction ps with
  | nil => intro vm; rfl
  | cons p rest ih =>
      intro vm
      simp only [List.foldl_cons]
      have hnone : objGet ([] : List (String × JVal)) p.name = none := rfl
      rw [fastStep_none hnone]
      exact ih vm

theorem applyPayload_nil (sch : Schema) (vm : Vm) :
    applyPayload sch (.jobj []) vm = vm := by
  show List.foldl (fun acc kv => genericStep sch acc kv)
    (sch.foldl (fun acc p => fastStep sch [] p acc) vm) [] = vm
  simp only [List.foldl_nil]
  exact fastFold_nil sch vm

/-! # Claim theorems -/

/-- C6: the generated dispatch resolves every payload key against the baked
case-insensitive tables before any typed write; keys resolving to no
declared property contribute nothing to the dispatch (first conjunct:
dropping all unresolvable keys from any payload leaves the result of
`apply` unchanged; second conjunct: a payload holding only an unresolvable
key is a complete no-op — no write and no trigger fire, hence no error). -/
theorem c6_unresolved_ignored (sch : Schema) (o : List (String × JVal)) (vm : Vm) :
    (applyPayload sch (.jobj o) vm =
      applyPayload sch (.jobj (o.filter (fun kv => resolvableB sch kv.1))) vm) ∧
    (∀ k v, resolvableB sch k = false → applyPayload sch (.jobj [(k, v)]) vm = vm) := by
  constructor
  · show (let fs := o
          fs.foldl (fun acc kv => genericStep sch acc kv)
            (sch.foldl (fun acc p => fastStep sch fs p acc) vm)) = _
    simp only
    rw [fastFold_filter sch vm (fun p hp => resolvableB_of_mem hp),
        genericFold_filter]
    rfl
  · intro k v h
    show (let fs := [(k, v)]
          fs.foldl (fun acc kv => genericStep sch acc kv)
            (sch.foldl (fun acc p => fastStep sch fs p acc) vm)) = vm
    simp only [List.foldl_cons, List.foldl_nil]
    have hk : vmTypes sch k = none := by
      unfold resolvableB at h
      rw [Bool.or_eq_false_iff] at h
      exact isSome_false_eq_none h.1
    have hfast : ∀ (ps : List VProp) (w : Vm), (∀ q ∈ ps, q ∈ sch) →
        ps.foldl (fun acc q => fastStep sch [(k, v)] q acc) w = w := by
      intro ps
      induction ps with
      | nil => intro w _; rfl
      | cons q rest ih =>
          intro w hq
          simp only [List.foldl_cons]
          rw [fastStep_none]
          · exact ih w (fun r hr => hq r (by simp [hr]))
          · have hne : q.name ≠ k := vmTypes_none_not_name hk q (hq q (by simp))
            unfold objGet getAssoc
            rw [List.find?_cons_of_neg _ (by simp; exact fun e => hne e.symm)]
            rfl
    rw [hfast sch vm (fun q hq => hq)]
    exact genericStep_unresolved h

/-- C4: a payload key that differs from a declared property's name only by
letter case is resolved through the baked lowercase index to the canonical
name, and the value is applied exactly as the declared type's own coercion
branch writes it — the probe cascade contributes nothing (the whole
dispatch equals the typed branch alone). -/
theorem c4_case_insensitive_typed (sch : Schema) (p : VProp) (k : String) (v : JVal)
    (vm : Vm)
    (hp : p ∈ sch)
    (hk : vmTypes sch k = none)
    (hidx : vmIndex sch (lowerS k) = some p.name)
    (hty : vmTypes sch p.name = some p.ptype)
    (huniq : ∀ q ∈ sch, q.name = p.name → q.ptype = p.ptype) :
    applyPayload sch (.jobj [(k, v)]) vm = (typedStep sch p.name (some p.ptype) v vm).1 := by
  show (let fs := [(k, v)]
        fs.foldl (fun acc kv => genericStep sch acc kv)
          (sch.foldl (fun acc q => fastStep sch fs q acc) vm)) = _
  simp only [List.foldl_cons, List.foldl_nil]
  have hfast : ∀ (ps : List VProp) (w : Vm), (∀ q ∈ ps, q ∈ sch) →
      ps.foldl (fun acc q => fastStep sch [(k, v)] q acc) w = w := by
    intro ps
    induction ps with
    | nil => intro w _; rfl
    | cons q rest ih =>
        intro w hq
        simp only [List.foldl_cons]
        rw [fastStep_none]
        · exact ih w (fun r hr => hq r (by simp [hr]))
        · have hne : q.name ≠ k := vmTypes_none_not_name hk q (hq q (by simp))
          unfold objGet getAssoc
          rw [List.find?_cons_of_neg _ (by simp; exact fun e => hne e.symm)]
          rfl
  rw [hfast sch vm (fun q hq => hq)]
  show genericStep sch vm (k, v) = _
  unfold genericStep
  simp only [hk, hidx, hty]
  have hhas := schemaHas_of_mem hp
  have honly : ∀ t', t' ≠ p.ptype → schemaHas sch p.name t' = false :=
    fun t' hne => schemaHas_false_of_unique huniq hne
  rcases p with ⟨nm, t⟩
  simp only at hhas honly ⊢
  cases t with
  | string => simp [typedStep, hhas]
  | number =>
      cases hjn : jsToNumber v with
      | some n => simp [typedStep, hhas, hjn]
      | none =>
          simp only [typedStep, hhas, if_true, hjn]
          show probeStep sch nm v vm = vm
          unfold probeStep
          rw [honly .string (by decide), hhas, hjn]
          simp only [Bool.false_eq_true, if_false, if_true]
          split
          · exact fire_noop (honly .trigger (by decide))
          · rfl
  | boolean => simp [typedStep, hhas]
  | color =>
      cases hjc : toColor32 v with
      | some c => simp [typedStep, hhas, hjc]
      | none =>
          simp only [typedStep, hhas, if_true, hjc]
          show probeStep sch nm v vm = vm
          unfold probeStep
          rw [honly .string (by decide), honly .number (by decide),
              honly .boolean (by decide), hhas, hjc]
          simp only [Bool.false_eq_true, if_false, if_true]
          split
          · exact fire_noop (honly .trigger (by decide))
          · rfl
  | image => simp [typedStep]
  | trigger =>
      cases htr : trigTruthy v with
      | true => simp [typedStep, htr]
      | false =>
          simp only [typedStep, htr, Bool.false_eq_true, if_false]
          show probeStep sch nm v vm = vm
          unfold probeStep
          rw [honly .string (by decide), honly .number (by decide),
              honly .boolean (by decide), honly .color (by decide),
              honly .image (by decide)]
          simp only [Bool.false_eq_true, if_false]
          rw [htr]
          simp

/-! ## Lifecycle lemmas (towards C1 and C2) -/

theorem getAssoc_set_self {α : Type} :
    ∀ (l : List (String × α)) (k : String) (v : α),
      getAssoc (setAssoc l k v) k = some v := by
  intro l k v
  induction l with
  | nil => simp [setAssoc, getAssoc]
  | cons kv rest ih =>
      rcases kv with ⟨k', v'⟩
      simp only [setAssoc]
      by_cases h : k' = k
      · rw [if_pos h]
        simp [getAssoc]
      · rw [if_neg h]
        unfold getAssoc
        rw [List.find?_cons_of_neg _ (by simp [h])]
        exact ih

theorem objGet_singleton_ne {P k : String} {x : JVal} (h : P ≠ k) :
    objGet [(P, x)] k = none := by
  unfold objGet getAssoc
  rw [List.find?_cons_of_neg _ (by simp [h])]
  rfl

theorem parse_jobj_flat {P : String} (x : JVal) (h1 : P ≠ "templateData")
    (h2 : P ≠ "templatedata") :
    parseUpdatePayload (.jobj [(P, x)]) = .jobj [(P, x)] := by
  show (match jsOr (objGet [(P, x)] "templateData") (objGet [(P, x)] "templatedata") with
        | some tdv => JVal.jobj (List.foldl tdEntry [] (tdArr tdv))
        | none => JVal.jobj [(P, x)]) = JVal.jobj [(P, x)]
  rw [objGet_singleton_ne h1, objGet_singleton_ne h2]
  rfl

theorem applyPayload_strProp (sch : Schema) (P v : String) (vm : Vm)
    (hhas : schemaHas sch P .string = true) (hty : vmTypes sch P = some .string) :
    getAssoc (applyPayload sch (.jobj [(P, .jstr v)]) vm).strs P = some v := by
  show getAssoc
    (List.foldl (fun acc kv => genericStep sch acc kv)
      (sch.foldl (fun acc p => fastStep sch [(P, .jstr v)] p acc) vm)
      [(P, .jstr v)]).strs P = some v
  simp only [List.foldl_cons, List.foldl_nil]
  unfold genericStep
  simp only [hty]
  unfold typedStep
  simp only [hhas, if_true]
  exact getAssoc_set_self _ _ _

theorem realUpdate_unbound (cfg : CasparCfg) {st : DocState} {raw : JVal}
    (hvmi : st.vmi = none) (hr : raw ≠ JVal.jnull) :
    realUpdate cfg st raw =
      { st with pending := st.pending ++ [parseUpdatePayload raw] } := by
  cases raw with
  | jnull => exact absurd rfl hr
  | jbool b => unfold realUpdate; rw [hvmi]
  | jnum n => unfold realUpdate; rw [hvmi]
  | jstr s => unfold realUpdate; rw [hvmi]
  | jarr xs => unfold realUpdate; rw [hvmi]
  | jobj fs => unfold realUpdate; rw [hvmi]

theorem foldl_unbound (cfg : CasparCfg) :
    ∀ (raws : List JVal) (st : DocState), st.vmi = none →
      (∀ r ∈ raws, r ≠ JVal.jnull) →
      raws.foldl (realUpdate cfg) st =
        { st with pending := st.pending ++ raws.map parseUpdatePayload } := by
  intro raws
  induction raws with
  | nil =>
      intro st _ _
      simp only [List.foldl_nil, List.map_nil, List.append_nil]
  | cons r rest ih =>
      intro st hvmi h
      simp only [List.foldl_cons, List.map_cons]
      rw [realUpdate_unbound cfg hvmi (h r (by simp))]
      rw [ih { st with pending := st.pending ++ [parseUpdatePayload r] }
            (by exact hvmi) (fun x hx => h x (by simp [hx]))]
      simp [List.append_assoc]

theorem onLoad_vmi (cfg : CasparCfg) {st : DocState} (hearly : st.early = []) :
    (onLoadEvent cfg st).vmi =
      some (st.pending.foldl (fun acc o => applyPayload cfg.sch o acc)
        (applyFromUrl cfg (applyBakedDefaults cfg emptyVm))) := by
  unfold onLoadEvent
  dsimp only
  rw [hearly]
  simp only [List.foldl_nil]
  cases hp : st.pending with
  | nil => rfl
  | cons p ps => rfl

theorem doPlayNow_spec (cfg : CasparCfg) {st : DocState} {vm : Vm} {T : String}
    (hT : cfg.trigIn = some T) (hvmi : st.vmi = some vm) (hr : st.rLive = true) :
    doPlayNow cfg st =
      { st with effects := st.effects ++ [DocEffect.rivePlay],
                vmi := some (fireVmTriggerVm cfg.sch T vm).1 } := by
  unfold doPlayNow
  rw [hr]
  simp only [if_true, hT]
  have : ({ st with effects := st.effects ++ [DocEffect.rivePlay] } : DocState).vmi =
      some vm := hvmi
  rw [this]

theorem doPlayNow_vmi (cfg : CasparCfg) {st : DocState} {vm : Vm} {T : String}
    (hT : cfg.trigIn = some T) (hvmi : st.vmi = some vm) (hr : st.rLive = true) :
    (doPlayNow cfg st).vmi = some (fireVmTriggerVm cfg.sch T vm).1 := by
  rw [doPlayNow_spec cfg hT hvmi hr]

theorem doPlayNow_effects (cfg : CasparCfg) {st : DocState} {vm : Vm} {T : String}
    (hT : cfg.trigIn = some T) (hvmi : st.vmi = some vm) (hr : st.rLive = true) :
    (doPlayNow cfg st).effects = st.effects ++ [DocEffect.rivePlay] := by
  rw [doPlayNow_spec cfg hT hvmi hr]

theorem realUpdate_bound_release (cfg : CasparCfg) {st : DocState} {vm : Vm} {raw : JVal}
    (hvmi : st.vmi = some vm) (hfp : st.firstPlayPending = true) (hr : raw ≠ JVal.jnull) :
    realUpdate cfg st raw =
      doPlayNow cfg
        { st with vmi := some (applyPayload cfg.sch (parseUpdatePayload raw) vm),
                  hasUpdatedOnce := true, firstPlayPending := false,
                  timerArmed := false } := by
  cases raw with
  | jnull => exact absurd rfl hr
  | jbool b => unfold realUpdate; rw [hvmi]; simp [hfp]
  | jnum n => unfold realUpdate; rw [hvmi]; simp [hfp]
  | jstr s => unfold realUpdate; rw [hvmi]; simp [hfp]
  | jarr xs => unfold realUpdate; rw [hvmi]; simp [hfp]
  | jobj fs => unfold realUpdate; rw [hvmi]; simp [hfp]

/-- C1: while the binding is absent, every non-null update call appends its
parsed flat mapping to the pending queue (none are dropped, and the binding
stays absent); the load-completion callback then binds an instance holding,
in order, the baked defaults, then the URL `vm.*` values, then every queued
mapping applied in FIFO arrival order; consequently a string property named
in two queued updates ends holding the second update's value. -/
theorem c1_unbound_queue_fifo (cfg : CasparCfg) :
    (∀ raws : List JVal, (∀ r ∈ raws, r ≠ JVal.jnull) →
      (raws.foldl (realUpdate cfg) bootState).vmi = none ∧
      (raws.foldl (realUpdate cfg) bootState).pending = raws.map parseUpdatePayload ∧
      (onLoadEvent cfg (raws.foldl (realUpdate cfg) bootState)).vmi =
        some ((raws.map parseUpdatePayload).foldl
          (fun acc o => applyPayload cfg.sch o acc)
          (applyFromUrl cfg (applyBakedDefaults cfg emptyVm)))) ∧
    (∀ P v1 v2 : String,
      schemaHas cfg.sch P .string = true →
      vmTypes cfg.sch P = some .string →
      P ≠ "templateData" → P ≠ "templatedata" →
      ∃ vmF,
        (onLoadEvent cfg
          ([JVal.jobj [(P, .jstr v1)], JVal.jobj [(P, .jstr v2)]].foldl
            (realUpdate cfg) bootState)).vmi = some vmF ∧
        getAssoc vmF.strs P = some v2) := by
  have hmain : ∀ raws : List JVal, (∀ r ∈ raws, r ≠ JVal.jnull) →
      (raws.foldl (realUpdate cfg) bootState).vmi = none ∧
      (raws.foldl (realUpdate cfg) bootState).pending = raws.map parseUpdatePayload ∧
      (onLoadEvent cfg (raws.foldl (realUpdate cfg) bootState)).vmi =
        some ((raws.map parseUpdatePayload).foldl
          (fun acc o => applyPayload cfg.sch o acc)
          (applyFromUrl cfg (applyBakedDefaults cfg emptyVm))) := by
    intro raws h
    have hfold := foldl_unbound cfg raws bootState rfl h
    refine ⟨by rw [hfold]; rfl, by rw [hfold]; rfl, ?_⟩
    rw [hfold]
    rw [onLoad_vmi cfg rfl]
    rfl
  constructor
  · exact hmain
  · intro P v1 v2 hhas hty h1 h2
    have hnn : ∀ r ∈ [JVal.jobj [(P, .jstr v1)], JVal.jobj [(P, .jstr v2)]],
        r ≠ JVal.jnull := by
      intro r hr
      rcases List.mem_cons.mp hr with h | h
      · subst h; exact fun e => JVal.noConfusion e
      · rcases List.mem_cons.mp h with h | h
        · subst h; exact fun e => JVal.noConfusion e
        · simp at h
    have h3 := (hmain _ hnn).2.2
    simp only [List.map_cons, List.map_nil, List.foldl_cons, List.foldl_nil] at h3
    rw [parse_jobj_flat (JVal.jstr v1) h1 h2, parse_jobj_flat (JVal.jstr v2) h1 h2] at h3
    exact ⟨_, h3, applyPayload_strProp cfg.sch P v2 _ hhas hty⟩

/-- C1 witness: two queued updates to "Title" while unbound; after load the
property holds the second value. -/
theorem c1_witness :
    ∃ vmF,
      (onLoadEvent { sch := [⟨"Title", .string⟩] }
        ([JVal.jobj [("Title", .jstr "A")], JVal.jobj [("Title", .jstr "B")]].foldl
          (realUpdate { sch := [⟨"Title", .string⟩] }) bootState)).vmi = some vmF ∧
      getAssoc vmF.strs "Title" = some "B" :=
  (c1_unbound_queue_fifo { sch := [⟨"Title", .string⟩] }).2 "Title" "A" "B"
    (by rfl) (by rfl) (by decide) (by decide)

/-- C2: the first-play guard.  The grace window is the fixed 250 ms
constant; a play before any update marks a pending first play, arms the
timer and produces no play effect; a non-null update arriving while the
first play is pending cancels the timer, applies the payload, and only then
plays — with a configured enter trigger the trigger fires on the view model
that already holds the update's value; and if the timer fires with no
update having arrived, play proceeds with the unchanged current values. -/
theorem c2_first_play_guard (cfg : CasparCfg) :
    firstPlayWaitMs = 250 ∧
    (∀ st : DocState, st.hasUpdatedOnce = false →
      playCmd cfg st = { st with firstPlayPending := true, timerArmed := true }) ∧
    (∀ (st : DocState) (vm : Vm) (raw : JVal), st.vmi = some vm →
      st.firstPlayPending = true → raw ≠ JVal.jnull →
      realUpdate cfg st raw =
        doPlayNow cfg
          { st with vmi := some (applyPayload cfg.sch (parseUpdatePayload raw) vm),
                    hasUpdatedOnce := true, firstPlayPending := false,
                    timerArmed := false }) ∧
    (∀ st : DocState, st.firstPlayPending = true →
      timerFire cfg st = doPlayNow cfg { st with firstPlayPending := false }) ∧
    (∀ (st : DocState) (vm : Vm) (P v T : String),
      cfg.trigIn = some T →
      st.vmi = some vm → st.firstPlayPending = true → st.rLive = true →
      schemaHas cfg.sch P .string = true → vmTypes cfg.sch P = some .string →
      P ≠ "templateData" → P ≠ "templatedata" →
      ∃ vmMid,
        getAssoc vmMid.strs P = some v ∧
        (realUpdate cfg st (JVal.jobj [(P, .jstr v)])).vmi =
          some (fireVmTriggerVm cfg.sch T vmMid).1 ∧
        (realUpdate cfg st (JVal.jobj [(P, .jstr v)])).effects =
          st.effects ++ [DocEffect.rivePlay]) := by
  refine ⟨rfl, ?_, ?_, ?_, ?_⟩
  · intro st h
    unfold playCmd
    rw [h]
    dsimp only
    rcases st with ⟨rL, vmi, early, pending, hUp, fp, ta, eff⟩
    cases ta <;> rfl
  · intro st vm raw hvmi hfp hr
    exact realUpdate_bound_release cfg hvmi hfp hr
  · intro st hfp
    unfold timerFire
    rw [hfp]
    rfl
  · intro st vm P v T hT hvmi hfp hr hhas hty h1 h2
    have hupd := realUpdate_bound_release cfg hvmi hfp
      (show JVal.jobj [(P, .jstr v)] ≠ JVal.jnull from fun e => JVal.noConfusion e)
    rw [parse_jobj_flat (JVal.jstr v) h1 h2] at hupd
    refine ⟨applyPayload cfg.sch (.jobj [(P, .jstr v)]) vm, ?_, ?_, ?_⟩
    · exact applyPayload_strProp cfg.sch P v vm hhas hty
    · rw [hupd]
      exact doPlayNow_vmi cfg hT rfl hr
    · rw [hupd]
      exact doPlayNow_effects cfg hT rfl hr

/-- C2 witness: concrete schema with a declared enter trigger; play before
any update, then an update releasing the held play with the value in
place. -/
theorem c2_witness :
    ∃ vmMid,
      getAssoc vmMid.strs "Title" = some "X" ∧
      (realUpdate { sch := [⟨"Title", .string⟩, ⟨"IN", .trigger⟩], trigIn := some "IN" }
        { rLive := true, vmi := some emptyVm, firstPlayPending := true,
          timerArmed := true }
        (JVal.jobj [("Title", .jstr "X")])).vmi =
        some (fireVmTriggerVm [⟨"Title", .string⟩, ⟨"IN", .trigger⟩] "IN" vmMid).1 ∧
      (realUpdate { sch := [⟨"Title", .string⟩, ⟨"IN", .trigger⟩], trigIn := some "IN" }
        { rLive := true, vmi := some emptyVm, firstPlayPending := true,
          timerArmed := true }
        (JVal.jobj [("Title", .jstr "X")])).effects = [DocEffect.rivePlay] :=
  (c2_first_play_guard
      { sch := [⟨"Title", .string⟩, ⟨"IN", .trigger⟩], trigIn := some "IN" }).2.2.2.2
    { rLive := true, vmi := some emptyVm, firstPlayPending := true, timerArmed := true }
    emptyVm "Title" "X" "IN" rfl rfl rfl rfl (by rfl) (by rfl) (by decide) (by decide)

/-- C4 witness: schema declaring the string property "Title", payload key
"title". -/
theorem c4_witness :
    applyPayload [⟨"Title", .string⟩] (.jobj [("title", JVal.jstr "x")]) emptyVm =
      (typedStep [⟨"Title", .string⟩] "Title" (some .string) (JVal.jstr "x") emptyVm).1 :=
  c4_case_insensitive_typed [⟨"Title", .string⟩] ⟨"Title", .string⟩ "title"
    (JVal.jstr "x") emptyVm (by simp) (by rfl) (by rfl) (by rfl)
    (by intro q hq hname; simp at hq; rw [hq])

/-- C10: the claim states that every `inspectContents` and `buildSchema`
call releases the offscreen instance on both the success and the failure
path.  The two preset.mjs variants with `onLoadError` handlers do (first
two conjuncts), but the `buildSchema` variant whose failure handler is
`onError` rejects without calling `cleanup()`, and the part_000
`buildSchema` installs no failure handler at all, so on a load error the
instance stays alive (and that promise never settles): the code contradicts
the clearly intended scoped acquisition/release that its sibling functions
implement. -/
theorem c10_extractor_release :
    (∀ oc, (inspectContentsRun oc).cleanupCalled = true) ∧
    (∀ oc, (buildSchemaRun oc).cleanupCalled = true) ∧
    buildSchemaOnErrorRun .loadErr =
      { resolved := false, rejected := true, cleanupCalled := false, settled := true } ∧
    buildSchemaNoHandlerRun .loadErr =
      { resolved := false, rejected := false, cleanupCalled := false, settled := false } :=
  ⟨fun oc => by cases oc <;> rfl, fun oc => by cases oc <;> rfl, rfl, rfl⟩

/-- C9 counterexample: `buildTemplate` called with `embed: true` and no
base64 payload is not rejected — option resolution succeeds and simply
bakes an empty payload string. -/
theorem c9_counterexample :
    buildTemplateCfg { mode := "caspar", embed := true, base64 := none, rivPath := none } =
      .ok { mode := "caspar", runtime := "canvas", embed := true,
            rivBase64 := "", rivPath := "" } := by
  rfl

/-- C9 amended: a caspar-mode `buildTemplate` call always succeeds; an
embed request lacking payload bytes is accepted with an empty embedded
payload rather than rejected, and a non-embed request lacking an external
path falls back to the fixed default path `./graphics.riv`. -/
theorem c9_amended (opts : BuildOpts) (hmode : opts.mode = "caspar") :
    ∃ cfg, buildTemplateCfg opts = .ok cfg ∧
      (opts.embed = true → opts.base64 = none → cfg.rivBase64 = "") ∧
      (opts.embed = false → opts.rivPath = none → cfg.rivPath = "./graphics.riv") := by
  refine ⟨{ mode := opts.mode
            runtime := jsOrDefaultS opts.runtime "canvas"
            embed := opts.embed
            rivBase64 := if opts.embed then jsOrDefaultS opts.base64 "" else ""
            rivPath := if opts.embed then "" else jsOrDefaultS opts.rivPath "./graphics.riv" },
         ?_, ?_, ?_⟩
  · unfold buildTemplateCfg
    rw [if_neg (by simp [hmode])]
    simp [hmode]
  · intro he hb
    simp [he, hb, jsOrDefaultS]
  · intro he hb
    simp [he, hb, jsOrDefaultS]

/-- C9 amended witness at concrete options. -/
theorem c9_amended_witness :
    ∃ cfg, buildTemplateCfg { mode := "caspar", embed := false } = .ok cfg ∧
      cfg.rivPath = "./graphics.riv" := by
  rcases c9_amended { mode := "caspar", embed := false } rfl with ⟨cfg, h1, _, h3⟩
  exact ⟨cfg, h1, h3 rfl rfl⟩

/-- C8 counterexample: the generated `toColor32` maps the hex string
`"#FF8800"` to the alpha-forced `0xFFFF8800` = 4294936576, but maps the
pre-parsed integer 16755200 to itself (no alpha forcing), so the two do not
normalize to the same 32-bit value (nor is 16755200 the decimal value of
`0xFF8800`, which is 16746496). -/
theorem c8_counterexample :
    toColor32 (JVal.jstr "#FF8800") = some 4294936576 ∧
    toColor32 (JVal.jnum 16755200) = some 16755200 ∧
    toColor32 (JVal.jstr "#FF8800") ≠ toColor32 (JVal.jnum 16755200) := by
  refine ⟨by rfl, by rfl, by decide⟩

/-- C8 amended: in the generated `toColor32` a 6-digit `#RRGGBB` string is
normalized with alpha forced on (`0xFF000000` or-ed in), while a pre-parsed
integer is only reduced `>>> 0` with no alpha forcing; hence `"#FF8800"`
yields `0xFFFF8800` and an integer agrees with it only when it already
carries the opaque alpha (4294936576).  The extractor's `coerceVMValue`
forces no alpha on either path and sends both `"#FF8800"` and its true
decimal value 16746496 to 16746496. -/
theorem c8_amended :
    (∀ hexs : List Char, hexs.length = 6 → (∀ c ∈ hexs, c ∈ hexChars) →
        toColor32 (.jstr ⟨'#' :: hexs⟩) =
          some (Nat.lor 0xFF000000 (hexValL hexs % 2 ^ 32))) ∧
    (∀ n : Int, toColor32 (.jnum n) = some (toU32 n)) ∧
    toColor32 (JVal.jnum 4294936576) = some 4294936576 ∧
    coerceVMValue "color" (JVal.jstr "#FF8800") = .cvColor 16746496 ∧
    coerceVMValue "color" (JVal.jnum 16746496) = .cvColor 16746496 := by
  refine ⟨?_, ?_, by rfl, by rfl, by rfl⟩
  · intro hexs hlen hmem
    have hfacts := fun c hc => hexCh_facts (hmem c hc)
    have hnws : ∀ c ∈ '#' :: hexs, isWsCh c = false := by
      intro c hc
      rcases List.mem_cons.mp hc with h | h
      · subst h; rfl
      · exact (hfacts c h).2.1
    have hne : hexs ≠ [] := by
      intro h; rw [h] at hlen; simp at hlen
    have hh1 : ¬ (hexs.head? = some '-') := by
      intro h
      exact (hfacts _ (mem_of_head? h)).2.2.1 rfl
    have hh2 : ¬ (hexs.head? = some '+') := by
      intro h
      exact (hfacts _ (mem_of_head? h)).2.2.2 rfl
    have hs : trimL (jsToStringL (.jstr ⟨'#' :: hexs⟩)) = '#' :: hexs :=
      trimL_all_nonws hnws
    simp only [toColor32, hs]
    rw [if_pos (by rfl)]
    simp only [List.tail_cons]
    unfold parseIntHexL
    rw [if_neg hh1, if_neg hh2]
    rw [takeWhile_all_true (fun c hc => (hfacts c hc).1)]
    rw [hexAllL_spec hne (fun c hc => (hfacts c hc).1)]
    simp only [Option.map_some', Option.getD_some]
    rw [if_pos (by simp [hlen])]
    simp only [Int.ofNat_eq_coe]
    rw [toU32_ofNat]
  · intro n
    have hs : trimL (jsToStringL (.jnum n)) = intDecL n := trimL_all_nonws intDec_nonws
    simp only [toColor32, hs]
    rw [if_neg]
    · rw [jsStrToNum_intDec]
      rfl
    · intro h
      rcases intDec_mem (mem_of_head? h) with h | ⟨d, hd, h⟩
      · exact absurd h (by decide)
      · interval_cases d <;> exact absurd h (by decide)

/-- C8 amended witness: the hex conjunct applied at `"#FF8800"`. -/
theorem c8_amended_witness :
    toColor32 (.jstr ⟨'#' :: ['F', 'F', '8', '8', '0', '0']⟩) =
      some (Nat.lor 0xFF000000 (hexValL ['F', 'F', '8', '8', '0', '0'] % 2 ^ 32)) :=
  c8_amended.1 ['F', 'F', '8', '8', '0', '0'] (by rfl) (by decide)

/-- C7 counterexample: the update dispatch's boolean coercion maps the
string `"1"` to false (`val===1` is a strict numeric comparison and `"1"`
is not among the accepted strings), while the claim requires true. -/
theorem c7_counterexample : jsBoolCoerceUpd (JVal.jstr "1") = false := by rfl

/-- C7 amended: in the update dispatch (generic branch and fast path share
the expression), a boolean property receives true exactly when the payload
value is boolean true, the number 1, or a string that case-insensitively
equals "true" or "yes"; every other value — including the string "1",
which only the URL-parameter coercion accepts — receives false. -/
theorem c7_amended :
    (∀ s : String, jsBoolCoerceUpd (.jstr s) =
        (lowerS s = "true" || lowerS s = "yes")) ∧
    (∀ b : Bool, jsBoolCoerceUpd (.jbool b) = b) ∧
    (∀ n : Int, jsBoolCoerceUpd (.jnum n) = decide (n = 1)) ∧
    jsBoolCoerceUpd .jnull = false ∧
    jsBoolCoerceUpd (.jstr "1") = false := by
  refine ⟨?_, ?_, ?_, by rfl, by rfl⟩
  · intro s
    have hjs : jsToString (.jstr s) = s := rfl
    simp only [jsBoolCoerceUpd, hjs]
    simp
  · intro b
    cases b <;> rfl
  · intro n
    have hself : lowerS (jsToString (.jnum n)) = ⟨intDecL n⟩ := by
      show lowerS ⟨intDecL n⟩ = ⟨intDecL n⟩
      unfold lowerS
      congr 1
      refine map_self_of ?_
      intro c hc
      rcases intDec_mem hc with h | ⟨d, hd, h⟩
      · subst h; rfl
      · subst h; exact digitCh_lower hd
    have htr : ∀ w : List Char, (∀ c ∈ w, c ∈ intDecL n → False) →
        ((⟨intDecL n⟩ : String) = (⟨w⟩ : String)) → False := by
      intro w hw h
      have hdata : intDecL n = w := by
        have := congrArg String.data h
        simpa using this
      cases w with
      | nil => exact absurd hdata (intDec_ne_nil n)
      | cons c rest =>
          exact hw c (by simp) (by rw [hdata]; simp)
    have hne1 : lowerS (jsToString (.jnum n)) ≠ "true" := by
      rw [hself]
      intro h
      refine htr ['t', 'r', 'u', 'e'] ?_ h
      intro c hcw hcl
      rcases intDec_mem hcl with h' | ⟨d, hd, h'⟩
      · subst h'; simp at hcw
      · subst h'
        interval_cases d <;> exact absurd hcw (by decide)
    have hne2 : lowerS (jsToString (.jnum n)) ≠ "yes" := by
      rw [hself]
      intro h
      refine htr ['y', 'e', 's'] ?_ h
      intro c hcw hcl
      rcases intDec_mem hcl with h' | ⟨d, hd, h'⟩
      · subst h'; simp at hcw
      · subst h'
        interval_cases d <;> exact absurd hcw (by decide)
    simp only [jsBoolCoerceUpd]
    simp [hne1, hne2]

/-- C5: no public command entry point of the generated document lets an
exception escape, for any adversarial behaviour of the runtime primitives,
any argument and any state (the update body is blanket-caught; play, next,
stop and remove only touch non-throwing bookkeeping plus individually
guarded runtime calls); `remove` is idempotent, a second `stop` preserves
the stopped state, and when the runtime is live and cleanup succeeds,
`remove` leaves the document released. -/
theorem c5_commands_never_throw :
    ∀ (env : FailEnv) (tOut tNext : Option String) (st : EDoc),
      (updateE env st).2 = false ∧
      (playE env st).2 = false ∧
      (nextE env tNext st).2 = false ∧
      (stopE env tOut st).2 = false ∧
      (removeE env st).2 = false ∧
      (removeE env (removeE env st).1).1 = (removeE env st).1 ∧
      (st.stopped = true → (stopE env tOut st).1.stopped = true) ∧
      (st.released = true → (removeE env st).1.released = true) ∧
      (st.rLive = true → env.cleanupThrows = false → (removeE env st).1.released = true) := by
  intro env tOut tNext st
  refine ⟨rfl, ?_, ?_, ?_, ?_, ?_, ?_, ?_, ?_⟩
  · unfold playE; split <;> rfl
  · unfold nextE; cases tNext <;> rfl
  · unfold stopE
    dsimp only
    split
    · rfl
    · split <;> rfl
  · unfold removeE; split <;> rfl
  · unfold removeE
    by_cases h : st.rLive && !env.cleanupThrows <;> simp [h]
  · intro h
    unfold stopE; dsimp only
    split
    · exact h
    · split <;> simp [h]
  · intro h
    unfold removeE; split <;> simp [h]
  · intro h1 h2
    unfold removeE
    rw [if_pos (by simp [h1, h2])]

/-- C5 witness at a concrete environment and state. -/
theorem c5_witness :
    (updateE { playThrows := true, stopThrows := true, cleanupThrows := false,
               parseThrows := true, trigThrows := fun _ => true,
               trigHas := fun _ => false }
        { rLive := true, vmiLive := true, released := false, stopped := false,
          hasUpdatedOnce := false, firstPlayPending := false,
          timerArmed := false }).2 = false ∧
    (removeE { playThrows := true, stopThrows := true, cleanupThrows := false,
               parseThrows := true, trigThrows := fun _ => true,
               trigHas := fun _ => false }
        { rLive := true, vmiLive := true, released := false, stopped := false,
          hasUpdatedOnce := false, firstPlayPending := false,
          timerArmed := false }).1.released = true := by
  have h := c5_commands_never_throw
    { playThrows := true, stopThrows := true, cleanupThrows := false,
      parseThrows := true, trigThrows := fun _ => true, trigHas := fun _ => false }
    (some "OUT") none
    { rLive := true, vmiLive := true, released := false, stopped := false,
      hasUpdatedOnce := false, firstPlayPending := false, timerArmed := false }
  exact ⟨h.1, h.2.2.2.2.2.2.2.2 rfl rfl⟩

/-! ## C3: agreement of the payload encodings

The development below evaluates the normalization pipeline symbolically on
each encoder.  Small `rfl` stepping equations expose one reduction step of
a fuelled parser; span lemmas consume a run of `simpleCh` characters; the
composite lemmas chain them by rewriting. -/

theorem simpleCh_ne_quote {c : Char} (h : simpleCh c = true) : c ≠ '"' := by
  intro e; subst e; exact absurd h (by decide)

theorem simpleCh_ne_bslash {c : Char} (h : simpleCh c = true) : c ≠ '\\' := by
  intro e; subst e; exact absurd h (by decide)

theorem simpleCh_not_ctl {c : Char} (h : simpleCh c = true) : (c.toNat < 32) = False := by
  simp only [simpleCh, Bool.or_eq_true, Bool.and_eq_true, decide_eq_true_eq] at h
  simp only [eq_iff_iff, iff_false, not_lt]
  omega

/-- One unfolding of the JSON string scanner on a cons cell. -/
theorem pStr_cons (c : Char) (rest : List Char) :
    pStr (c :: rest) =
      if c = '"' then some ([], rest)
      else if c = '\\' then
        (match rest with
         | [] => none
         | 'u' :: h1 :: h2 :: h3 :: h4 :: rest2 =>
             (match hexDigVal h1, hexDigVal h2, hexDigVal h3, hexDigVal h4 with
              | some a, some b, some c, some d =>
                  (pStr rest2).map (fun r => (Char.ofNat (((a * 16 + b) * 16 + c) * 16 + d) :: r.1, r.2))
              | _, _, _, _ => none)
         | e :: rest2 =>
             (match escCh e with
              | some c => (pStr rest2).map (fun r => (c :: r.1, r.2))
              | none => none))
      else if c.toNat < 32 then none
      else (pStr rest).map (fun r => (c :: r.1, r.2)) := by
  rw [pStr.eq_def]

/-- The string scanner consumes a run of simple characters up to the
closing quote. -/
theorem pStr_span {w : List Char} (h : ∀ c ∈ w, simpleCh c = true) :
    ∀ rest, pStr (w ++ '"' :: rest) = some (w, rest) := by
  induction w with
  | nil =>
      intro rest
      rw [List.nil_append, pStr_cons]
      simp
  | cons c w' ih =>
      intro rest
      have hc := h c (by simp)
      have h' : ∀ x ∈ w', simpleCh x = true := fun x hx => h x (by simp [hx])
      rw [List.cons_append, pStr_cons]
      rw [if_neg (simpleCh_ne_quote hc), if_neg (simpleCh_ne_bslash hc)]
      simp only [simpleCh_not_ctl hc, if_false]
      rw [ih h']
      rfl

/-- The string scanner decodes a backslash-n escape between two simple
runs. -/
theorem pStr_span_esc {v1 v2 : List Char} (h1 : ∀ c ∈ v1, simpleCh c = true)
    (h2 : ∀ c ∈ v2, simpleCh c = true) :
    ∀ rest, pStr (v1 ++ '\\' :: 'n' :: (v2 ++ '"' :: rest)) =
      some (v1 ++ '\n' :: v2, rest) := by
  induction v1 with
  | nil =>
      intro rest
      rw [List.nil_append, pStr_cons]
      rw [if_neg (by decide : ¬ ('\\' : Char) = '"'), if_pos rfl]
      show (pStr (v2 ++ '"' :: rest)).map (fun r => ('\n' :: r.1, r.2)) = _
      rw [pStr_span h2]
      rfl
  | cons c v1' ih =>
      intro rest
      have hc := h1 c (by simp)
      have h' : ∀ x ∈ v1', simpleCh x = true := fun x hx => h1 x (by simp [hx])
      rw [List.cons_append, pStr_cons]
      rw [if_neg (simpleCh_ne_quote hc), if_neg (simpleCh_ne_bslash hc)]
      simp only [simpleCh_not_ctl hc, if_false]
      rw [ih h']
      rfl

/-- A raw (unescaped) line break inside a JSON string is rejected. -/
theorem pStr_ctrl {w : List Char} (h : ∀ c ∈ w, simpleCh c = true) :
    ∀ rest, pStr (w ++ '\n' :: rest) = none := by
  induction w with
  | nil =>
      intro rest
      rw [List.nil_append, pStr_cons]
      simp
  | cons c w' ih =>
      intro rest
      have hc := h c (by simp)
      have h' : ∀ x ∈ w', simpleCh x = true := fun x hx => h x (by simp [hx])
      rw [List.cons_append, pStr_cons]
      rw [if_neg (simpleCh_ne_quote hc), if_neg (simpleCh_ne_bslash hc)]
      simp only [simpleCh_not_ctl hc, if_false]
      rw [ih h']
      rfl

theorem skipWsJ_sp (l : List Char) : skipWsJ (' ' :: l) = skipWsJ l := rfl

theorem skipWsJ_dq (l : List Char) : skipWsJ ('"' :: l) = '"' :: l := rfl

theorem skipWsJ_colon (l : List Char) : skipWsJ (':' :: l) = ':' :: l := rfl

theorem skipWsJ_comma (l : List Char) : skipWsJ (',' :: l) = ',' :: l := rfl

theorem skipWsJ_lb (l : List Char) : skipWsJ ('\x7b' :: l) = '\x7b' :: l := rfl

theorem skipWsJ_rb (l : List Char) : skipWsJ ('\x7d' :: l) = '\x7d' :: l := rfl

theorem skipWsJ_lk (l : List Char) : skipWsJ ('[' :: l) = '[' :: l := rfl

theorem skipWsJ_rk (l : List Char) : skipWsJ (']' :: l) = ']' :: l := rfl

theorem skipWsJ_nil : skipWsJ [] = [] := rfl

/-- One unfolding of the value parser on an opening quote. -/
theorem pVal_dq (f : Nat) (rest : List Char) :
    pVal (f + 1) ('"' :: rest) = (pStr rest).map (fun r => (JVal.jstr ⟨r.1⟩, r.2)) := rfl

/-- One unfolding of the value parser on an opening brace. -/
theorem pVal_lb (f : Nat) (rest : List Char) :
    pVal (f + 1) ('\x7b' :: rest) =
      (match skipWsJ rest with
       | '\x7d' :: rest2 => some (JVal.jobj [], rest2)
       | r => (pMembers f r []).map (fun p => (JVal.jobj p.1, p.2))) := rfl

/-- One unfolding of the value parser on an opening bracket. -/
theorem pVal_lk (f : Nat) (rest : List Char) :
    pVal (f + 1) ('[' :: rest) =
      (match skipWsJ rest with
       | ']' :: rest2 => some (JVal.jarr [], rest2)
       | r => (pElems f r []).map (fun p => (JVal.jarr p.1, p.2))) := rfl

/-- One unfolding of the member parser on an opening quote. -/
theorem pMembers_dq (f : Nat) (rest : List Char) (acc : List (String × JVal)) :
    pMembers (f + 1) ('"' :: rest) acc =
      (pStr rest).bind (fun kr =>
        match skipWsJ kr.2 with
        | ':' :: r2 =>
            (pVal f (skipWsJ r2)).bind (fun vr =>
              match skipWsJ vr.2 with
              | ',' :: r3 => pMembers f (skipWsJ r3) (setAssoc acc ⟨kr.1⟩ vr.1)
              | '\x7d' :: r3 => some (setAssoc acc ⟨kr.1⟩ vr.1, r3)
              | _ => none)
        | _ => none) := rfl

/-- One unfolding of the element parser. -/
theorem pElems_succ (f : Nat) (l : List Char) (acc : List JVal) :
    pElems (f + 1) l acc =
      (pVal f l).bind (fun vr =>
        match skipWsJ vr.2 with
        | ',' :: r2 => pElems f (skipWsJ r2) (acc ++ [vr.1])
        | ']' :: r2 => some (acc ++ [vr.1], r2)
        | _ => none) := rfl

/-- A quoted run of simple characters parses to the string value. -/
theorem pVal_str (f : Nat) {v : List Char} (hv : ∀ c ∈ v, simpleCh c = true)
    (rest : List Char) :
    pVal (f + 1) ('"' :: (v ++ '"' :: rest)) = some (.jstr ⟨v⟩, rest) := by
  rw [pVal_dq, pStr_span hv]
  rfl

/-- A quoted string with one escaped line break parses to the decoded
string value. -/
theorem pVal_str_esc (f : Nat) {v1 v2 : List Char} (h1 : ∀ c ∈ v1, simpleCh c = true)
    (h2 : ∀ c ∈ v2, simpleCh c = true) (rest : List Char) :
    pVal (f + 1) ('"' :: (v1 ++ '\\' :: 'n' :: (v2 ++ '"' :: rest))) =
      some (.jstr ⟨v1 ++ '\n' :: v2⟩, rest) := by
  rw [pVal_dq, pStr_span_esc h1 h2]
  rfl

/-- Object parse step into the member list. -/
theorem pVal_obj {rest r : List Char} (f : Nat) (h : skipWsJ rest = '"' :: r) :
    pVal (f + 1) ('\x7b' :: rest) =
      (pMembers f ('"' :: r) []).map (fun p => (JVal.jobj p.1, p.2)) := by
  rw [pVal_lb, h]
  rfl

/-- Array parse step into the element list (first element an object). -/
theorem pVal_arr {rest r : List Char} (f : Nat) (h : skipWsJ rest = '\x7b' :: r) :
    pVal (f + 1) ('[' :: rest) =
      (pElems f ('\x7b' :: r) []).map (fun p => (JVal.jarr p.1, p.2)) := by
  rw [pVal_lk, h]
  rfl

/-- A final object member: simple key, resolved value, closing brace. -/
theorem pMembers_entry_done {w R r2 r3 r4 : List Char} (f : Nat)
    (hw : ∀ c ∈ w, simpleCh c = true) (hR : skipWsJ R = ':' :: r2) {val : JVal}
    (hval : pVal f (skipWsJ r2) = some (val, r3)) (hcl : skipWsJ r3 = '\x7d' :: r4)
    (acc : List (String × JVal)) :
    pMembers (f + 1) ('"' :: (w ++ '"' :: R)) acc = some (setAssoc acc ⟨w⟩ val, r4) := by
  rw [pMembers_dq, pStr_span hw]
  show (match skipWsJ R with
        | ':' :: r2 =>
            (pVal f (skipWsJ r2)).bind (fun vr =>
              match skipWsJ vr.2 with
              | ',' :: r3 => pMembers f (skipWsJ r3) (setAssoc acc ⟨w⟩ vr.1)
              | '\x7d' :: r3 => some (setAssoc acc ⟨w⟩ vr.1, r3)
              | _ => none)
        | _ => none) = _
  rw [hR]
  show (pVal f (skipWsJ r2)).bind (fun vr =>
        match skipWsJ vr.2 with
        | ',' :: r3 => pMembers f (skipWsJ r3) (setAssoc acc ⟨w⟩ vr.1)
        | '\x7d' :: r3 => some (setAssoc acc ⟨w⟩ vr.1, r3)
        | _ => none) = _
  rw [hval]
  show (match skipWsJ r3 with
        | ',' :: r5 => pMembers f (skipWsJ r5) (setAssoc acc ⟨w⟩ val)
        | '\x7d' :: r5 => some (setAssoc acc ⟨w⟩ val, r5)
        | _ => none) = _
  rw [hcl]
  rfl

/-- A continued object member: simple key, resolved value, comma. -/
theorem pMembers_entry_cont {w R r2 r3 r4 : List Char} (f : Nat)
    (hw : ∀ c ∈ w, simpleCh c = true) (hR : skipWsJ R = ':' :: r2) {val : JVal}
    (hval : pVal f (skipWsJ r2) = some (val, r3)) (hcm : skipWsJ r3 = ',' :: r4)
    (acc : List (String × JVal)) :
    pMembers (f + 1) ('"' :: (w ++ '"' :: R)) acc =
      pMembers f (skipWsJ r4) (setAssoc acc ⟨w⟩ val) := by
  rw [pMembers_dq, pStr_span hw]
  show (match skipWsJ R with
        | ':' :: r2 =>
            (pVal f (skipWsJ r2)).bind (fun vr =>
              match skipWsJ vr.2 with
              | ',' :: r3 => pMembers f (skipWsJ r3) (setAssoc acc ⟨w⟩ vr.1)
              | '\x7d' :: r3 => some (setAssoc acc ⟨w⟩ vr.1, r3)
              | _ => none)
        | _ => none) = _
  rw [hR]
  show (pVal f (skipWsJ r2)).bind (fun vr =>
        match skipWsJ vr.2 with
        | ',' :: r3 => pMembers f (skipWsJ r3) (setAssoc acc ⟨w⟩ vr.1)
        | '\x7d' :: r3 => some (setAssoc acc ⟨w⟩ vr.1, r3)
        | _ => none) = _
  rw [hval]
  show (match skipWsJ r3 with
        | ',' :: r5 => pMembers f (skipWsJ r5) (setAssoc acc ⟨w⟩ val)
        | '\x7d' :: r5 => some (setAssoc acc ⟨w⟩ val, r5)
        | _ => none) = _
  rw [hcm]
  rfl

/-- A single array element followed by the closing bracket. -/
theorem pElems_done {l : List Char} (f : Nat) {val : JVal} {r2 r3 : List Char}
    (hval : pVal f l = some (val, r2)) (hc : skipWsJ r2 = ']' :: r3) (acc : List JVal) :
    pElems (f + 1) l acc = some (acc ++ [val], r3) := by
  rw [pElems_succ, hval]
  show (match skipWsJ r2 with
        | ',' :: rr => pElems f (skipWsJ rr) (acc ++ [val])
        | ']' :: rr => some (acc ++ [val], rr)
        | _ => none) = _
  rw [hc]
  rfl

/-- The flat JSON encoding parses to the one-pair object. -/
theorem pVal_encJsonFlat {name v : List Char} (hn : ∀ c ∈ name, simpleCh c = true)
    (hv : ∀ c ∈ v, simpleCh c = true) (f : Nat) :
    pVal (f + 1 + 1 + 1) (encJsonFlat name v) =
      some (.jobj [(⟨name⟩, .jstr ⟨v⟩)], []) := by
  have hval : pVal (f + 1) (skipWsJ (' ' :: '"' :: (v ++ '"' :: '\x7d' :: []))) =
      some (.jstr ⟨v⟩, '\x7d' :: []) := by
    rw [skipWsJ_sp, skipWsJ_dq]
    exact pVal_str f hv _
  simp only [encJsonFlat]
  rw [pVal_obj (f + 1 + 1) (skipWsJ_dq _)]
  rw [pMembers_entry_done (f + 1) hn (skipWsJ_colon _) hval (skipWsJ_rb _)]
  rfl

/-- One unfolding of the `JSON.parse` model. -/
theorem jsonParse_eqd (s : String) :
    jsonParse s =
      (match pVal ((skipWsJ s.data).length + 1) (skipWsJ s.data) with
       | some (v, rest) => if skipWsJ rest = [] then some v else none
       | none => none) := rfl

/-- One unfolding of the strict Caspar JSON parse. -/
theorem strict_eqd (s : String) :
    parseCasparJsonStrictStr s = (jsonParse s).map normalizeCasparJsonObject := rfl

/-- One unfolding of the lenient Caspar JSON parse. -/
theorem lenient_eqd (raw : String) :
    parseCasparJsonLenientStr raw =
      (match parseCasparJsonStrictStr raw with
       | some o => o
       | none =>
           (match parseCasparJsonStrictStr
               ⟨escBareNlL (unwrapIfQuoted (stripBomAndTrim raw)).data⟩ with
            | some o => o
            | none =>
                .jobj ((scrapePairs raw).map (fun kv => (kv.1, JVal.jstr kv.2))))) := rfl

/-- The lenient parse returns the strict result when strict parsing
succeeds. -/
theorem lenient_of_strict {raw : String} {o : JVal}
    (h : parseCasparJsonStrictStr raw = some o) :
    parseCasparJsonLenientStr raw = o := by
  rw [lenient_eqd, h]

/-- One unfolding of the update-payload dispatch on a string payload. -/
theorem pUP_str (s0 : String) :
    parseUpdatePayload (.jstr s0) =
      (if ((stripBomAndTrim s0).data.dropWhile isWsCh).head? = some '<' then
        .jobj (parseTemplateDataXml (stripBomAndTrim s0))
      else parseCasparJsonLenientStr (stripBomAndTrim s0)) := rfl

/-- Flattening passes a one-pair object through when its key is neither
`templateData` spelling. -/
theorem normalize_flat {P : String} (x : JVal) (h1 : P ≠ "templateData")
    (h2 : P ≠ "templatedata") :
    normalizeCasparJsonObject (.jobj [(P, x)]) = .jobj [(P, x)] := by
  show (match jsOr (objGet [(P, x)] "templateData") (objGet [(P, x)] "templatedata") with
        | some tdv => JVal.jobj (List.foldl tdEntry [] (tdArr tdv))
        | none => JVal.jobj [(P, x)]) = JVal.jobj [(P, x)]
  rw [objGet_singleton_ne h1, objGet_singleton_ne h2]
  rfl

/-- Whitespace trimming keeps a list with non-whitespace edges. -/
theorem trimL_edges {c d : Char} (hc : isWsCh c = false) (hd : isWsCh d = false)
    (m : List Char) : trimL (c :: (m ++ [d])) = c :: (m ++ [d]) := by
  have hrev : (c :: (m ++ [d])).reverse = d :: (m.reverse ++ [c]) := by simp
  unfold trimL
  rw [List.dropWhile_cons, hc]
  simp only [Bool.false_eq_true, if_false]
  rw [hrev, List.dropWhile_cons, hd]
  simp only [Bool.false_eq_true, if_false]
  rw [← hrev, List.reverse_reverse]

/-- The flat encoding is BOM-free with non-whitespace edges, so the strip
and trim keep it. -/
theorem strip_encJsonFlat (name v : List Char) :
    stripBomAndTrim ⟨encJsonFlat name v⟩ = ⟨encJsonFlat name v⟩ := by
  show (⟨trimL (encJsonFlat name v)⟩ : String) = _
  rw [show encJsonFlat name v =
        '\x7b' :: (('"' :: (name ++ '"' :: ':' :: ' ' :: '"' :: (v ++ ['"']))) ++ ['\x7d'])
      from by simp [encJsonFlat]]
  rw [trimL_edges (by decide) (by decide)]

/-- Stripping the byte-order mark from the BOM encoding leaves the trimmed
flat encoding. -/
theorem strip_encBom (name v : List Char) :
    stripBomAndTrim ⟨encBom name v⟩ = ⟨encJsonFlat name v⟩ := by
  show (⟨trimL (encJsonFlat name v)⟩ : String) = _
  rw [show encJsonFlat name v =
        '\x7b' :: (('"' :: (name ++ '"' :: ':' :: ' ' :: '"' :: (v ++ ['"']))) ++ ['\x7d'])
      from by simp [encJsonFlat]]
  rw [trimL_edges (by decide) (by decide)]

/-- The strict parse of the flat encoding. -/
theorem strict_encJsonFlat {name v : List Char} (hn : ∀ c ∈ name, simpleCh c = true)
    (hv : ∀ c ∈ v, simpleCh c = true) (h1 : (⟨name⟩ : String) ≠ "templateData")
    (h2 : (⟨name⟩ : String) ≠ "templatedata") :
    parseCasparJsonStrictStr ⟨encJsonFlat name v⟩ =
      some (.jobj [(⟨name⟩, .jstr ⟨v⟩)]) := by
  have hskip : skipWsJ (String.mk (encJsonFlat name v)).data = encJsonFlat name v := by
    show skipWsJ (encJsonFlat name v) = encJsonFlat name v
    simp only [encJsonFlat]
    exact skipWsJ_lb _
  have hL : (encJsonFlat name v).length + 1 =
      (name.length + v.length + 6) + 1 + 1 + 1 := by
    simp [encJsonFlat]
    omega
  rw [strict_eqd, jsonParse_eqd, hskip, hL, pVal_encJsonFlat hn hv]
  show (if skipWsJ [] = ([] : List Char) then some (JVal.jobj [(⟨name⟩, .jstr ⟨v⟩)])
      else none).map normalizeCasparJsonObject = _
  rw [if_pos skipWsJ_nil]
  show some (normalizeCasparJsonObject (JVal.jobj [(⟨name⟩, .jstr ⟨v⟩)])) = _
  rw [normalize_flat _ h1 h2]

theorem data_mk (l : List Char) : (⟨l⟩ : String).data = l := rfl

theorem dwWs_lb (l : List Char) : ('\x7b' :: l).dropWhile isWsCh = '\x7b' :: l := rfl

theorem dwWs_dq (l : List Char) : ('"' :: l).dropWhile isWsCh = '"' :: l := rfl

theorem dwWs_lt (l : List Char) : ('<' :: l).dropWhile isWsCh = '<' :: l := rfl

/-- The trimmed flat encoding is not routed to the XML extraction. -/
theorem notXml_encJsonFlat (name v : List Char) :
    ¬ ((⟨encJsonFlat name v⟩ : String).data.dropWhile isWsCh).head? = some '<' := by
  show ¬ ((encJsonFlat name v).dropWhile isWsCh).head? = some '<'
  simp only [encJsonFlat, dwWs_lb]
  simp

/-- The update dispatch on the flat JSON encoding. -/
theorem pUP_encJsonFlat {name v : List Char} (hn : ∀ c ∈ name, simpleCh c = true)
    (hv : ∀ c ∈ v, simpleCh c = true) (h1 : (⟨name⟩ : String) ≠ "templateData")
    (h2 : (⟨name⟩ : String) ≠ "templatedata") :
    parseUpdatePayload (.jstr ⟨encJsonFlat name v⟩) = .jobj [(⟨name⟩, .jstr ⟨v⟩)] := by
  rw [pUP_str, strip_encJsonFlat, if_neg (notXml_encJsonFlat name v)]
  exact lenient_of_strict (strict_encJsonFlat hn hv h1 h2)

/-- The update dispatch on the BOM-prefixed flat JSON encoding. -/
theorem pUP_encBom {name v : List Char} (hn : ∀ c ∈ name, simpleCh c = true)
    (hv : ∀ c ∈ v, simpleCh c = true) (h1 : (⟨name⟩ : String) ≠ "templateData")
    (h2 : (⟨name⟩ : String) ≠ "templatedata") :
    parseUpdatePayload (.jstr ⟨encBom name v⟩) = .jobj [(⟨name⟩, .jstr ⟨v⟩)] := by
  rw [pUP_str, strip_encBom, if_neg (notXml_encJsonFlat name v)]
  exact lenient_of_strict (strict_encJsonFlat hn hv h1 h2)

theorem pStr_dq (l : List Char) : pStr ('"' :: l) = some ([], l) := by
  rw [pStr_cons]
  simp

/-- Dropping a prefix cannot erase a member the predicate keeps. -/
theorem dropWhile_ne_nil {p : Char → Bool} (c : Char) :
    ∀ {l : List Char}, c ∈ l → p c = false → l.dropWhile p ≠ [] := by
  intro l
  induction l with
  | nil => intro hc; exact absurd hc (List.not_mem_nil c)
  | cons a t ih =>
      intro hc hpc
      rw [List.dropWhile_cons]
      by_cases ha : p a = true
      · rw [ha]
        simp only [if_true]
        rcases List.mem_cons.mp hc with h | h
        · subst h; rw [ha] at hpc; exact absurd hpc (by simp)
        · exact ih h hpc
      · rw [Bool.not_eq_true] at ha
        rw [ha]
        simp

/-- The quote-wrapped encoding fails the strict parse: the value string
ends at the first inner quote, leaving a tail. -/
theorem strict_encWrapped_none (name v : List Char) :
    parseCasparJsonStrictStr ⟨encWrapped name v⟩ = none := by
  have hshape : encJsonFlat name v ++ ['"'] =
      '\x7b' :: '"' :: ((name ++ '"' :: ':' :: ' ' :: '"' :: (v ++ '"' :: '\x7d' :: [])) ++ ['"']) := by
    simp [encJsonFlat]
  have hstr : pStr (encJsonFlat name v ++ ['"']) =
      some (['\x7b'],
        (name ++ '"' :: ':' :: ' ' :: '"' :: (v ++ '"' :: '\x7d' :: [])) ++ ['"']) := by
    rw [hshape, pStr_cons]
    rw [if_neg (by decide), if_neg (by decide)]
    simp only [show (('\x7b' : Char).toNat < 32) = False from by decide, if_false]
    rw [pStr_dq]
    rfl
  have hne : skipWsJ ((name ++ '"' :: ':' :: ' ' :: '"' :: (v ++ '"' :: '\x7d' :: [])) ++ ['"']) ≠ [] := by
    exact dropWhile_ne_nil '"' (by simp) (by decide)
  have hskip : skipWsJ (String.mk (encWrapped name v)).data = encWrapped name v := by
    show skipWsJ (encWrapped name v) = encWrapped name v
    simp only [encWrapped]
    exact skipWsJ_dq _
  rw [strict_eqd, jsonParse_eqd, hskip]
  rw [show encWrapped name v = '"' :: (encJsonFlat name v ++ ['"']) from rfl]
  rw [show (('"' :: (encJsonFlat name v ++ ['"'])).length + 1 : Nat) =
      (('"' :: (encJsonFlat name v ++ ['"'])).length) + 1 from rfl]
  rw [pVal_dq, hstr]
  show (if skipWsJ ((name ++ '"' :: ':' :: ' ' :: '"' :: (v ++ '"' :: '\x7d' :: [])) ++ ['"']) = []
      then some (JVal.jstr ⟨['\x7b']⟩) else none).map normalizeCasparJsonObject = none
  rw [if_neg hne]
  rfl

/-- Strip and trim keep the quote-wrapped encoding. -/
theorem strip_encWrapped (name v : List Char) :
    stripBomAndTrim ⟨encWrapped name v⟩ = ⟨encWrapped name v⟩ := by
  show (⟨trimL (encWrapped name v)⟩ : String) = _
  rw [show encWrapped name v = '"' :: (encJsonFlat name v ++ ['"']) from rfl]
  rw [trimL_edges (by decide) (by decide)]

/-- Unwrapping removes exactly the stray quote layer. -/
theorem unwrap_dq (m : List Char) : unwrapIfQuoted ⟨'"' :: (m ++ ['"'])⟩ = ⟨m⟩ := by
  show (if 2 ≤ ('"' :: (m ++ ['"'])).length then
      if (('"' :: (m ++ ['"'])).head? = some '"' ∧ ('"' :: (m ++ ['"'])).getLast? = some '"') ∨
         (('"' :: (m ++ ['"'])).head? = some (Char.ofNat 39) ∧
          ('"' :: (m ++ ['"'])).getLast? = some (Char.ofNat 39)) then
        (⟨(('"' :: (m ++ ['"'])).drop 1).dropLast⟩ : String)
      else ⟨'"' :: (m ++ ['"'])⟩
    else ⟨'"' :: (m ++ ['"'])⟩) = ⟨m⟩
  have hlast : ('"' :: (m ++ ['"'])).getLast? = some '"' := by
    rw [show '"' :: (m ++ ['"']) = ('"' :: m) ++ ['"'] from rfl]
    exact List.getLast?_concat _
  rw [if_pos (by simp)]
  rw [if_pos (Or.inl ⟨rfl, hlast⟩)]
  show (⟨(m ++ ['"']).dropLast⟩ : String) = ⟨m⟩
  rw [List.dropLast_concat]

/-- One unfolding of the bare-newline escaper on a cons cell. -/
theorem escBare_cons (c : Char) (rest : List Char) :
    escBareNlL (c :: rest) =
      (if c = '\n' then '\\' :: 'n' :: escBareNlL rest
       else if c = '\r' then
         (match rest with
          | '\n' :: rest2 => '\\' :: 'n' :: escBareNlL rest2
          | [] => [c]
          | d :: rest2 => c :: escBareNlL (d :: rest2))
       else c :: escBareNlL rest) := by
  rw [escBareNlL.eq_def]

/-- The escaper keeps a newline-free list. -/
theorem escBareNl_id : ∀ {l : List Char},
    (∀ c ∈ l, c ≠ '\n' ∧ c ≠ '\r') → escBareNlL l = l := by
  intro l
  induction l with
  | nil => intro _; rfl
  | cons c rest ih =>
      intro h
      have hc := h c (by simp)
      rw [escBare_cons, if_neg hc.1, if_neg hc.2]
      rw [ih (fun x hx => h x (by simp [hx]))]

theorem simpleCh_ne_nl {c : Char} (h : simpleCh c = true) : c ≠ '\n' := by
  intro e; subst e; exact absurd h (by decide)

theorem simpleCh_ne_cr {c : Char} (h : simpleCh c = true) : c ≠ '\r' := by
  intro e; subst e; exact absurd h (by decide)

/-- No character of the flat encoding is a line break. -/
theorem encJsonFlat_no_nl {name v : List Char} (hn : ∀ c ∈ name, simpleCh c = true)
    (hv : ∀ c ∈ v, simpleCh c = true) :
    ∀ c ∈ encJsonFlat name v, c ≠ '\n' ∧ c ≠ '\r' := by
  intro c hc
  constructor
  · intro e
    subst e
    simp [encJsonFlat] at hc
    rcases hc with h | h
    · exact absurd (hn _ h) (by decide)
    · exact absurd (hv _ h) (by decide)
  · intro e
    subst e
    simp [encJsonFlat] at hc
    rcases hc with h | h
    · exact absurd (hn _ h) (by decide)
    · exact absurd (hv _ h) (by decide)

/-- The update dispatch on the quote-wrapped encoding: strict fails, the
recovery unwraps, and the retry succeeds. -/
theorem pUP_encWrapped {name v : List Char} (hn : ∀ c ∈ name, simpleCh c = true)
    (hv : ∀ c ∈ v, simpleCh c = true) (h1 : (⟨name⟩ : String) ≠ "templateData")
    (h2 : (⟨name⟩ : String) ≠ "templatedata") :
    parseUpdatePayload (.jstr ⟨encWrapped name v⟩) = .jobj [(⟨name⟩, .jstr ⟨v⟩)] := by
  have hcond : ¬ ((⟨encWrapped name v⟩ : String).data.dropWhile isWsCh).head? = some '<' := by
    show ¬ ((encWrapped name v).dropWhile isWsCh).head? = some '<'
    simp only [encWrapped, dwWs_dq]
    simp
  rw [pUP_str, strip_encWrapped, if_neg hcond]
  rw [lenient_eqd, strict_encWrapped_none]
  show (match parseCasparJsonStrictStr
      ⟨escBareNlL (unwrapIfQuoted (stripBomAndTrim ⟨encWrapped name v⟩)).data⟩ with
    | some o => o
    | none => .jobj ((scrapePairs ⟨encWrapped name v⟩).map
        (fun kv : String × String => (kv.1, JVal.jstr kv.2)))) = _
  rw [strip_encWrapped]
  rw [show (⟨encWrapped name v⟩ : String) = ⟨'"' :: (encJsonFlat name v ++ ['"'])⟩ from rfl]
  rw [unwrap_dq, data_mk, escBareNl_id (encJsonFlat_no_nl hn hv)]
  rw [strict_encJsonFlat hn hv h1 h2]

/-- The escaped-newline encoding parses to the object carrying the decoded
line break. -/
theorem pVal_encNlEsc {name v1 v2 : List Char} (hn : ∀ c ∈ name, simpleCh c = true)
    (hv1 : ∀ c ∈ v1, simpleCh c = true) (hv2 : ∀ c ∈ v2, simpleCh c = true) (f : Nat) :
    pVal (f + 1 + 1 + 1) (encNlEsc name v1 v2) =
      some (.jobj [(⟨name⟩, .jstr ⟨v1 ++ '\n' :: v2⟩)], []) := by
  have hval : pVal (f + 1)
      (skipWsJ (' ' :: '"' :: (v1 ++ '\\' :: 'n' :: (v2 ++ '"' :: '\x7d' :: [])))) =
      some (.jstr ⟨v1 ++ '\n' :: v2⟩, '\x7d' :: []) := by
    rw [skipWsJ_sp, skipWsJ_dq]
    exact pVal_str_esc f hv1 hv2 _
  simp only [encNlEsc]
  rw [pVal_obj (f + 1 + 1) (skipWsJ_dq _)]
  rw [pMembers_entry_done (f + 1) hn (skipWsJ_colon _) hval (skipWsJ_rb _)]
  rfl

/-- The strict parse of the escaped-newline encoding. -/
theorem strict_encNlEsc {name v1 v2 : List Char} (hn : ∀ c ∈ name, simpleCh c = true)
    (hv1 : ∀ c ∈ v1, simpleCh c = true) (hv2 : ∀ c ∈ v2, simpleCh c = true)
    (h1 : (⟨name⟩ : String) ≠ "templateData") (h2 : (⟨name⟩ : String) ≠ "templatedata") :
    parseCasparJsonStrictStr ⟨encNlEsc name v1 v2⟩ =
      some (.jobj [(⟨name⟩, .jstr ⟨v1 ++ '\n' :: v2⟩)]) := by
  have hskip : skipWsJ (String.mk (encNlEsc name v1 v2)).data = encNlEsc name v1 v2 := by
    show skipWsJ (encNlEsc name v1 v2) = encNlEsc name v1 v2
    simp only [encNlEsc]
    exact skipWsJ_lb _
  have hL : (encNlEsc name v1 v2).length + 1 =
      (name.length + v1.length + v2.length + 8) + 1 + 1 + 1 := by
    simp [encNlEsc]
    omega
  rw [strict_eqd, jsonParse_eqd, hskip, hL, pVal_encNlEsc hn hv1 hv2]
  show (if skipWsJ [] = ([] : List Char) then
      some (JVal.jobj [(⟨name⟩, .jstr ⟨v1 ++ '\n' :: v2⟩)])
      else none).map normalizeCasparJsonObject = _
  rw [if_pos skipWsJ_nil]
  show some (normalizeCasparJsonObject (JVal.jobj [(⟨name⟩, .jstr ⟨v1 ++ '\n' :: v2⟩)])) = _
  rw [normalize_flat _ h1 h2]

/-- A quoted string with a raw line break fails to parse. -/
theorem pVal_str_none (f : Nat) {v1 : List Char} (hv1 : ∀ c ∈ v1, simpleCh c = true)
    (rest : List Char) :
    pVal (f + 1) ('"' :: (v1 ++ '\n' :: rest)) = none := by
  rw [pVal_dq, pStr_ctrl hv1]
  rfl

/-- An object member whose value fails to parse fails the member list. -/
theorem pMembers_entry_none {w R r2 : List Char} (f : Nat)
    (hw : ∀ c ∈ w, simpleCh c = true) (hR : skipWsJ R = ':' :: r2)
    (hval : pVal f (skipWsJ r2) = none) (acc : List (String × JVal)) :
    pMembers (f + 1) ('"' :: (w ++ '"' :: R)) acc = none := by
  rw [pMembers_dq, pStr_span hw]
  show (match skipWsJ R with
        | ':' :: r2 =>
            (pVal f (skipWsJ r2)).bind (fun vr =>
              match skipWsJ vr.2 with
              | ',' :: r3 => pMembers f (skipWsJ r3) (setAssoc acc ⟨w⟩ vr.1)
              | '\x7d' :: r3 => some (setAssoc acc ⟨w⟩ vr.1, r3)
              | _ => none)
        | _ => none) = _
  rw [hR]
  show (pVal f (skipWsJ r2)).bind (fun vr =>
        match skipWsJ vr.2 with
        | ',' :: r3 => pMembers f (skipWsJ r3) (setAssoc acc ⟨w⟩ vr.1)
        | '\x7d' :: r3 => some (setAssoc acc ⟨w⟩ vr.1, r3)
        | _ => none) = _
  rw [hval]
  rfl

/-- The raw-newline encoding fails the strict parse. -/
theorem strict_encNlRaw_none {name v1 v2 : List Char} (hn : ∀ c ∈ name, simpleCh c = true)
    (hv1 : ∀ c ∈ v1, simpleCh c = true) :
    parseCasparJsonStrictStr ⟨encNlRaw name v1 v2⟩ = none := by
  have hskip : skipWsJ (String.mk (encNlRaw name v1 v2)).data = encNlRaw name v1 v2 := by
    show skipWsJ (encNlRaw name v1 v2) = encNlRaw name v1 v2
    simp only [encNlRaw]
    exact skipWsJ_lb _
  rw [strict_eqd, jsonParse_eqd, hskip]
  obtain ⟨K, hK⟩ : ∃ K, (encNlRaw name v1 v2).length + 1 = K + 1 + 1 + 1 :=
    ⟨(encNlRaw name v1 v2).length - 2, by
      simp only [encNlRaw, List.length_cons, List.length_append]
      omega⟩
  rw [hK]
  have hval : pVal (K + 1) (skipWsJ (' ' :: '"' :: (v1 ++ '\n' :: (v2 ++ '"' :: '\x7d' :: [])))) = none := by
    rw [skipWsJ_sp, skipWsJ_dq]
    exact pVal_str_none K hv1 _
  simp only [encNlRaw]
  rw [pVal_obj (K + 1 + 1) (skipWsJ_dq _)]
  rw [pMembers_entry_none (K + 1) hn (skipWsJ_colon _) hval]
  rfl

/-- Unwrapping keeps a string that does not start with a quote. -/
theorem unwrap_keep {c : Char} (h1 : ¬ c = '"') (h2 : ¬ c = Char.ofNat 39)
    (l : List Char) : unwrapIfQuoted ⟨c :: l⟩ = ⟨c :: l⟩ := by
  show (if 2 ≤ (c :: l).length then
      if ((c :: l).head? = some '"' ∧ (c :: l).getLast? = some '"') ∨
         ((c :: l).head? = some (Char.ofNat 39) ∧
          (c :: l).getLast? = some (Char.ofNat 39)) then
        (⟨((c :: l).drop 1).dropLast⟩ : String)
      else ⟨c :: l⟩
    else ⟨c :: l⟩) = ⟨c :: l⟩
  by_cases hlen : 2 ≤ (c :: l).length
  · rw [if_pos hlen, if_neg]
    intro hx
    rcases hx with ⟨ha, _⟩ | ⟨ha, _⟩
    · simp only [List.head?_cons, Option.some.injEq] at ha
      exact h1 ha
    · simp only [List.head?_cons, Option.some.injEq] at ha
      exact h2 ha
  · rw [if_neg hlen]

/-- The escaper rewrites the first raw line break after a clean prefix. -/
theorem escBareNl_split {a : List Char} (ha : ∀ c ∈ a, c ≠ '\n' ∧ c ≠ '\r')
    (b : List Char) : escBareNlL (a ++ '\n' :: b) = a ++ '\\' :: 'n' :: escBareNlL b := by
  induction a with
  | nil =>
      rw [List.nil_append, escBare_cons, if_pos rfl]
      rfl
  | cons c a' ih =>
      have hc := ha c (by simp)
      rw [List.cons_append, escBare_cons, if_neg hc.1, if_neg hc.2]
      rw [ih (fun x hx => ha x (by simp [hx]))]
      rfl

/-- No character of the clean prefix of the raw-newline encoding is a line
break. -/
theorem encNlRaw_prefix_no_nl {name v1 : List Char} (hn : ∀ c ∈ name, simpleCh c = true)
    (hv1 : ∀ c ∈ v1, simpleCh c = true) :
    ∀ c ∈ '\x7b' :: '"' :: (name ++ '"' :: ':' :: ' ' :: '"' :: v1), c ≠ '\n' ∧ c ≠ '\r' := by
  intro c hc
  constructor
  · intro e
    subst e
    simp at hc
    rcases hc with h | h
    · exact absurd (hn _ h) (by decide)
    · exact absurd (hv1 _ h) (by decide)
  · intro e
    subst e
    simp at hc
    rcases hc with h | h
    · exact absurd (hn _ h) (by decide)
    · exact absurd (hv1 _ h) (by decide)

/-- No character of the tail of the raw-newline encoding is a line
break. -/
theorem encNlRaw_tail_no_nl {v2 : List Char} (hv2 : ∀ c ∈ v2, simpleCh c = true) :
    ∀ c ∈ v2 ++ '"' :: '\x7d' :: [], c ≠ '\n' ∧ c ≠ '\r' := by
  intro c hc
  constructor
  · intro e
    subst e
    simp at hc
    exact absurd (hv2 _ hc) (by decide)
  · intro e
    subst e
    simp at hc
    exact absurd (hv2 _ hc) (by decide)

/-- Escaping the bare newline turns the raw encoding into the escaped
one. -/
theorem escBare_encNlRaw {name v1 v2 : List Char} (hn : ∀ c ∈ name, simpleCh c = true)
    (hv1 : ∀ c ∈ v1, simpleCh c = true) (hv2 : ∀ c ∈ v2, simpleCh c = true) :
    escBareNlL (encNlRaw name v1 v2) = encNlEsc name v1 v2 := by
  rw [show encNlRaw name v1 v2 =
      ('\x7b' :: '"' :: (name ++ '"' :: ':' :: ' ' :: '"' :: v1)) ++
        '\n' :: (v2 ++ '"' :: '\x7d' :: []) from by simp [encNlRaw]]
  rw [escBareNl_split (encNlRaw_prefix_no_nl hn hv1)]
  rw [escBareNl_id (encNlRaw_tail_no_nl hv2)]
  simp [encNlEsc]

/-- Strip and trim keep the raw-newline encoding. -/
theorem strip_encNlRaw (name v1 v2 : List Char) :
    stripBomAndTrim ⟨encNlRaw name v1 v2⟩ = ⟨encNlRaw name v1 v2⟩ := by
  show (⟨trimL (encNlRaw name v1 v2)⟩ : String) = _
  rw [show encNlRaw name v1 v2 =
        '\x7b' :: (('"' :: (name ++ '"' :: ':' :: ' ' :: '"' :: (v1 ++ '\n' :: (v2 ++ ['"'])))) ++ ['\x7d'])
      from by simp [encNlRaw]]
  rw [trimL_edges (by decide) (by decide)]

/-- The update dispatch on the raw-newline encoding: strict fails and the
newline-escaping recovery repairs it. -/
theorem pUP_encNlRaw {name v1 v2 : List Char} (hn : ∀ c ∈ name, simpleCh c = true)
    (hv1 : ∀ c ∈ v1, simpleCh c = true) (hv2 : ∀ c ∈ v2, simpleCh c = true)
    (h1 : (⟨name⟩ : String) ≠ "templateData") (h2 : (⟨name⟩ : String) ≠ "templatedata") :
    parseUpdatePayload (.jstr ⟨encNlRaw name v1 v2⟩) =
      .jobj [(⟨name⟩, .jstr ⟨v1 ++ '\n' :: v2⟩)] := by
  have hcond : ¬ ((⟨encNlRaw name v1 v2⟩ : String).data.dropWhile isWsCh).head? = some '<' := by
    show ¬ ((encNlRaw name v1 v2).dropWhile isWsCh).head? = some '<'
    simp only [encNlRaw, dwWs_lb]
    simp
  rw [pUP_str, strip_encNlRaw, if_neg hcond]
  rw [lenient_eqd, strict_encNlRaw_none hn hv1]
  show (match parseCasparJsonStrictStr
      ⟨escBareNlL (unwrapIfQuoted (stripBomAndTrim ⟨encNlRaw name v1 v2⟩)).data⟩ with
    | some o => o
    | none => .jobj ((scrapePairs ⟨encNlRaw name v1 v2⟩).map
        (fun kv : String × String => (kv.1, JVal.jstr kv.2)))) = _
  rw [strip_encNlRaw]
  rw [show (⟨encNlRaw name v1 v2⟩ : String) =
      ⟨'\x7b' :: ('"' :: (name ++ '"' :: ':' :: ' ' :: '"' :: (v1 ++ '\n' :: (v2 ++ '"' :: '\x7d' :: []))))⟩
      from rfl]
  rw [unwrap_keep (by decide) (by decide), data_mk]
  rw [show '\x7b' :: ('"' :: (name ++ '"' :: ':' :: ' ' :: '"' :: (v1 ++ '\n' :: (v2 ++ '"' :: '\x7d' :: []))))
      = encNlRaw name v1 v2 from rfl]
  rw [escBare_encNlRaw hn hv1 hv2]
  rw [strict_encNlEsc hn hv1 hv2 h1 h2]

/-- The update dispatch on the escaped-newline encoding. -/
theorem pUP_encNlEsc {name v1 v2 : List Char} (hn : ∀ c ∈ name, simpleCh c = true)
    (hv1 : ∀ c ∈ v1, simpleCh c = true) (hv2 : ∀ c ∈ v2, simpleCh c = true)
    (h1 : (⟨name⟩ : String) ≠ "templateData") (h2 : (⟨name⟩ : String) ≠ "templatedata") :
    parseUpdatePayload (.jstr ⟨encNlEsc name v1 v2⟩) =
      .jobj [(⟨name⟩, .jstr ⟨v1 ++ '\n' :: v2⟩)] := by
  have hcond : ¬ ((⟨encNlEsc name v1 v2⟩ : String).data.dropWhile isWsCh).head? = some '<' := by
    show ¬ ((encNlEsc name v1 v2).dropWhile isWsCh).head? = some '<'
    simp only [encNlEsc, dwWs_lb]
    simp
  have hstrip : stripBomAndTrim ⟨encNlEsc name v1 v2⟩ = ⟨encNlEsc name v1 v2⟩ := by
    show (⟨trimL (encNlEsc name v1 v2)⟩ : String) = _
    rw [show encNlEsc name v1 v2 =
          '\x7b' :: (('"' :: (name ++ '"' :: ':' :: ' ' :: '"' ::
            (v1 ++ '\\' :: 'n' :: (v2 ++ ['"'])))) ++ ['\x7d'])
        from by simp [encNlEsc]]
    rw [trimL_edges (by decide) (by decide)]
  rw [pUP_str, hstrip, if_neg hcond]
  exact lenient_of_strict (strict_encNlEsc hn hv1 hv2 h1 h2)

set_option maxHeartbeats 1600000 in
/-- The nested `templateData` encoding parses to the nested object. -/
theorem pVal_encTD {name v : List Char} (hn : ∀ c ∈ name, simpleCh c = true)
    (hv : ∀ c ∈ v, simpleCh c = true) (f : Nat) :
    pVal (f + 1 + 1 + 1 + 1 + 1 + 1 + 1 + 1 + 1 + 1) (encTD name v) =
      some (.jobj [(⟨"templateData".data⟩, .jobj [(⟨"componentData".data⟩,
        .jarr [.jobj [(⟨"id".data⟩, .jstr ⟨name⟩), (⟨"value".data⟩, .jstr ⟨v⟩)]])])], []) := by
  have hW1 : ∀ c ∈ "templateData".data, simpleCh c = true := by decide
  have hW2 : ∀ c ∈ "componentData".data, simpleCh c = true := by decide
  have hWid : ∀ c ∈ "id".data, simpleCh c = true := by decide
  have hWval : ∀ c ∈ "value".data, simpleCh c = true := by decide
  have hvalV : pVal (f + 1)
      (skipWsJ (' ' :: '"' :: (v ++ '"' :: '\x7d' :: ']' :: '\x7d' :: '\x7d' :: []))) =
      some (.jstr ⟨v⟩, '\x7d' :: ']' :: '\x7d' :: '\x7d' :: []) := by
    rw [skipWsJ_sp, skipWsJ_dq]
    exact pVal_str f hv _
  have hvalN : pVal (f + 1 + 1)
      (skipWsJ (' ' :: '"' :: (name ++ '"' :: ',' :: ' ' :: '"' ::
        ("value".data ++ '"' :: ':' :: ' ' :: '"' ::
          (v ++ '"' :: '\x7d' :: ']' :: '\x7d' :: '\x7d' :: []))))) =
      some (.jstr ⟨name⟩,
        ',' :: ' ' :: '"' :: ("value".data ++ '"' :: ':' :: ' ' :: '"' ::
          (v ++ '"' :: '\x7d' :: ']' :: '\x7d' :: '\x7d' :: []))) := by
    rw [skipWsJ_sp, skipWsJ_dq]
    exact pVal_str (f + 1) hn _
  have hObj : pVal (f + 1 + 1 + 1 + 1)
      ('\x7b' :: '"' :: ("id".data ++ '"' :: ':' :: ' ' :: '"' ::
        (name ++ '"' :: ',' :: ' ' :: '"' ::
          ("value".data ++ '"' :: ':' :: ' ' :: '"' ::
            (v ++ '"' :: '\x7d' :: ']' :: '\x7d' :: '\x7d' :: []))))) =
      some (.jobj [(⟨"id".data⟩, .jstr ⟨name⟩), (⟨"value".data⟩, .jstr ⟨v⟩)],
        ']' :: '\x7d' :: '\x7d' :: []) := by
    rw [pVal_obj (f + 1 + 1 + 1) (skipWsJ_dq _)]
    rw [pMembers_entry_cont (f + 1 + 1) hWid (skipWsJ_colon _) hvalN (skipWsJ_comma _)]
    rw [skipWsJ_sp, skipWsJ_dq]
    rw [pMembers_entry_done (f + 1) hWval (skipWsJ_colon _) hvalV (skipWsJ_rb _)]
    rfl
  have hArr : pVal (f + 1 + 1 + 1 + 1 + 1 + 1)
      ('[' :: '\x7b' :: '"' :: ("id".data ++ '"' :: ':' :: ' ' :: '"' ::
        (name ++ '"' :: ',' :: ' ' :: '"' ::
          ("value".data ++ '"' :: ':' :: ' ' :: '"' ::
            (v ++ '"' :: '\x7d' :: ']' :: '\x7d' :: '\x7d' :: []))))) =
      some (.jarr [.jobj [(⟨"id".data⟩, .jstr ⟨name⟩), (⟨"value".data⟩, .jstr ⟨v⟩)]],
        '\x7d' :: '\x7d' :: []) := by
    rw [pVal_arr (f + 1 + 1 + 1 + 1 + 1) (skipWsJ_lb _)]
    rw [pElems_done (f + 1 + 1 + 1 + 1) hObj (skipWsJ_rk _)]
    rfl
  have hInner : pVal (f + 1 + 1 + 1 + 1 + 1 + 1 + 1 + 1)
      ('\x7b' :: '"' :: ("componentData".data ++ '"' :: ':' :: ' ' :: '[' :: '\x7b' :: '"' ::
        ("id".data ++ '"' :: ':' :: ' ' :: '"' ::
          (name ++ '"' :: ',' :: ' ' :: '"' ::
            ("value".data ++ '"' :: ':' :: ' ' :: '"' ::
              (v ++ '"' :: '\x7d' :: ']' :: '\x7d' :: '\x7d' :: [])))))) =
      some (.jobj [(⟨"componentData".data⟩,
        .jarr [.jobj [(⟨"id".data⟩, .jstr ⟨name⟩), (⟨"value".data⟩, .jstr ⟨v⟩)]])],
        '\x7d' :: []) := by
    have hmid : pVal (f + 1 + 1 + 1 + 1 + 1 + 1)
        (skipWsJ (' ' :: '[' :: '\x7b' :: '"' :: ("id".data ++ '"' :: ':' :: ' ' :: '"' ::
          (name ++ '"' :: ',' :: ' ' :: '"' ::
            ("value".data ++ '"' :: ':' :: ' ' :: '"' ::
              (v ++ '"' :: '\x7d' :: ']' :: '\x7d' :: '\x7d' :: [])))))) =
        some (.jarr [.jobj [(⟨"id".data⟩, .jstr ⟨name⟩), (⟨"value".data⟩, .jstr ⟨v⟩)]],
          '\x7d' :: '\x7d' :: []) := by
      rw [skipWsJ_sp, skipWsJ_lk]
      exact hArr
    rw [pVal_obj (f + 1 + 1 + 1 + 1 + 1 + 1 + 1) (skipWsJ_dq _)]
    rw [pMembers_entry_done (f + 1 + 1 + 1 + 1 + 1 + 1) hW2 (skipWsJ_colon _) hmid
        (skipWsJ_rb _)]
    rfl
  have htop : pVal (f + 1 + 1 + 1 + 1 + 1 + 1 + 1 + 1)
      (skipWsJ (' ' :: '\x7b' :: '"' ::
        ("componentData".data ++ '"' :: ':' :: ' ' :: '[' :: '\x7b' :: '"' ::
          ("id".data ++ '"' :: ':' :: ' ' :: '"' ::
            (name ++ '"' :: ',' :: ' ' :: '"' ::
              ("value".data ++ '"' :: ':' :: ' ' :: '"' ::
                (v ++ '"' :: '\x7d' :: ']' :: '\x7d' :: '\x7d' :: []))))))) =
      some (.jobj [(⟨"componentData".data⟩,
        .jarr [.jobj [(⟨"id".data⟩, .jstr ⟨name⟩), (⟨"value".data⟩, .jstr ⟨v⟩)]])],
        '\x7d' :: []) := by
    rw [skipWsJ_sp, skipWsJ_lb]
    exact hInner
  simp only [encTD]
  rw [pVal_obj (f + 1 + 1 + 1 + 1 + 1 + 1 + 1 + 1 + 1) (skipWsJ_dq _)]
  rw [pMembers_entry_done (f + 1 + 1 + 1 + 1 + 1 + 1 + 1 + 1) hW1 (skipWsJ_colon _) htop
      (skipWsJ_rb _)]
  rfl

set_option maxHeartbeats 1600000 in
/-- The strict parse of the nested `templateData` encoding. -/
theorem strict_encTD {name v : List Char} (hn : ∀ c ∈ name, simpleCh c = true)
    (hv : ∀ c ∈ v, simpleCh c = true) :
    parseCasparJsonStrictStr ⟨encTD name v⟩ =
      some (normalizeCasparJsonObject
        (.jobj [(⟨"templateData".data⟩, .jobj [(⟨"componentData".data⟩,
          .jarr [.jobj [(⟨"id".data⟩, .jstr ⟨name⟩), (⟨"value".data⟩, .jstr ⟨v⟩)]])])])) := by
  have hskip : skipWsJ (String.mk (encTD name v)).data = encTD name v := by
    show skipWsJ (encTD name v) = encTD name v
    simp only [encTD]
    exact skipWsJ_lb _
  have hL : (encTD name v).length + 1 =
      (name.length + v.length + 53) + 1 + 1 + 1 + 1 + 1 + 1 + 1 + 1 + 1 + 1 := by
    simp [encTD]
    omega
  rw [strict_eqd, jsonParse_eqd, hskip, hL, pVal_encTD hn hv]
  show (if skipWsJ [] = ([] : List Char) then
      some (JVal.jobj [(⟨"templateData".data⟩, .jobj [(⟨"componentData".data⟩,
        .jarr [.jobj [(⟨"id".data⟩, .jstr ⟨name⟩), (⟨"value".data⟩, .jstr ⟨v⟩)]])])])
      else none).map normalizeCasparJsonObject = _
  rw [if_pos skipWsJ_nil]
  rfl

theorem jsToString_str (s : String) : jsToString (.jstr s) = s := by
  cases s
  rfl

/-- Flattening the nested `templateData` object produces the flat one-pair
map (template-builders.mjs lines 396-411 acting on the parsed nest). -/
theorem normalize_td {N V : String} (hN : N ≠ "") :
    normalizeCasparJsonObject (.jobj [("templateData", .jobj [("componentData",
      .jarr [.jobj [("id", .jstr N), ("value", .jstr V)]])])]) = .jobj [(N, .jstr V)] := by
  have htru : jsTruthy (.jstr N) = true := by
    simp only [jsTruthy]
    exact decide_eq_true hN
  show JVal.jobj (tdEntry [] (.jobj [("id", .jstr N), ("value", .jstr V)])) = _
  by_cases hV : V = ""
  · subst hV
    simp [tdEntry, objGet, getAssoc, jsOr, htru, jsToString_str, jsTruthy, setAssoc]
    rw [if_neg hN]
    simp [jsToString_str, hN]
  · have htruV : jsTruthy (.jstr V) = true := by
      simp only [jsTruthy]
      exact decide_eq_true hV
    simp [tdEntry, objGet, getAssoc, jsOr, htru, htruV, jsToString_str, setAssoc]

/-- The update dispatch on the nested `templateData` encoding. -/
theorem pUP_encTD {name v : List Char} (hn : ∀ c ∈ name, simpleCh c = true)
    (hv : ∀ c ∈ v, simpleCh c = true) (hne : name ≠ []) :
    parseUpdatePayload (.jstr ⟨encTD name v⟩) = .jobj [(⟨name⟩, .jstr ⟨v⟩)] := by
  have hN : (⟨name⟩ : String) ≠ "" := fun h => hne (congrArg String.data h)
  have hstrip : stripBomAndTrim ⟨encTD name v⟩ = ⟨encTD name v⟩ := by
    show (⟨trimL (encTD name v)⟩ : String) = _
    rw [show encTD name v =
          '\x7b' :: (('"' :: ("templateData".data ++ '"' :: ':' :: ' ' :: '\x7b' :: '"' ::
            ("componentData".data ++ '"' :: ':' :: ' ' :: '[' :: '\x7b' :: '"' ::
              ("id".data ++ '"' :: ':' :: ' ' :: '"' ::
                (name ++ '"' :: ',' :: ' ' :: '"' ::
                  ("value".data ++ '"' :: ':' :: ' ' :: '"' ::
                    (v ++ '"' :: '\x7d' :: ']' :: '\x7d' :: []))))))) ++ ['\x7d'])
        from by simp [encTD]]
    rw [trimL_edges (by decide) (by decide)]
  have hcond : ¬ ((⟨encTD name v⟩ : String).data.dropWhile isWsCh).head? = some '<' := by
    show ¬ ((encTD name v).dropWhile isWsCh).head? = some '<'
    simp only [encTD, dwWs_lb]
    simp
  rw [pUP_str, hstrip, if_neg hcond]
  have e := strict_encTD hn hv
  rw [show (⟨"templateData".data⟩ : String) = "templateData" from rfl,
      show (⟨"componentData".data⟩ : String) = "componentData" from rfl,
      show (⟨"id".data⟩ : String) = "id" from rfl,
      show (⟨"value".data⟩ : String) = "value" from rfl] at e
  rw [normalize_td hN] at e
  exact lenient_of_strict e

theorem pMembers_rb (f : Nat) (l : List Char) (acc : List (String × JVal)) :
    pMembers f ('\x7d' :: l) acc = none := by
  cases f <;> rfl

/-- The trailing-comma encoding fails the strict parse: after the pair a
comma is followed by the closing brace, which is not a member. -/
theorem strict_encScrape_none {name v : List Char} (hn : ∀ c ∈ name, simpleCh c = true)
    (hv : ∀ c ∈ v, simpleCh c = true) :
    parseCasparJsonStrictStr ⟨encScrape name v⟩ = none := by
  have hskip : skipWsJ (String.mk (encScrape name v)).data = encScrape name v := by
    show skipWsJ (encScrape name v) = encScrape name v
    simp only [encScrape]
    exact skipWsJ_lb _
  rw [strict_eqd, jsonParse_eqd, hskip]
  obtain ⟨K, hK⟩ : ∃ K, (encScrape name v).length + 1 = K + 1 + 1 + 1 :=
    ⟨(encScrape name v).length - 2, by
      simp only [encScrape, List.length_cons, List.length_append]
      omega⟩
  rw [hK]
  have hval : pVal (K + 1) (skipWsJ (' ' :: '"' :: (v ++ '"' :: ',' :: '\x7d' :: []))) =
      some (.jstr ⟨v⟩, ',' :: '\x7d' :: []) := by
    rw [skipWsJ_sp, skipWsJ_dq]
    exact pVal_str K hv _
  simp only [encScrape]
  rw [pVal_obj (K + 1 + 1) (skipWsJ_dq _)]
  rw [pMembers_entry_cont (K + 1) hn (skipWsJ_colon _) hval (skipWsJ_comma _)]
  rw [skipWsJ_rb, pMembers_rb]
  rfl

/-- Strip and trim keep the trailing-comma encoding. -/
theorem strip_encScrape (name v : List Char) :
    stripBomAndTrim ⟨encScrape name v⟩ = ⟨encScrape name v⟩ := by
  show (⟨trimL (encScrape name v)⟩ : String) = _
  rw [show encScrape name v =
        '\x7b' :: (('"' :: (name ++ '"' :: ':' :: ' ' :: '"' :: (v ++ '"' :: ',' :: []))) ++ ['\x7d'])
      from by simp [encScrape]]
  rw [trimL_edges (by decide) (by decide)]

/-- No character of the trailing-comma encoding is a line break. -/
theorem encScrape_no_nl {name v : List Char} (hn : ∀ c ∈ name, simpleCh c = true)
    (hv : ∀ c ∈ v, simpleCh c = true) :
    ∀ c ∈ encScrape name v, c ≠ '\n' ∧ c ≠ '\r' := by
  intro c hc
  constructor
  · intro e
    subst e
    simp [encScrape] at hc
    rcases hc with h | h
    · exact absurd (hn _ h) (by decide)
    · exact absurd (hv _ h) (by decide)
  · intro e
    subst e
    simp [encScrape] at hc
    rcases hc with h | h
    · exact absurd (hn _ h) (by decide)
    · exact absurd (hv _ h) (by decide)

/-- One unfolding of the newline-run collapser. -/
theorem replNlAux_cons (f : Nat) (c : Char) (rest : List Char) :
    replNlAux (f + 1) (c :: rest) =
      (if c = '\r' || c = '\n' then
        ' ' :: replNlAux f (rest.dropWhile (fun x => x = '\r' || x = '\n'))
      else c :: replNlAux f rest) := rfl

/-- The collapser keeps a newline-free list. -/
theorem replNlAux_id : ∀ (f : Nat) {l : List Char}, l.length < f →
    (∀ c ∈ l, c ≠ '\n' ∧ c ≠ '\r') → replNlAux f l = l := by
  intro f
  induction f with
  | zero => intro l hl; omega
  | succ f ih =>
      intro l hl hc
      cases l with
      | nil => rfl
      | cons c t =>
          have h0 := hc c (by simp)
          rw [replNlAux_cons]
          rw [if_neg (by simp [h0.1, h0.2])]
          rw [ih (by simp at hl; omega) (fun x hx => hc x (by simp [hx]))]

/-- The collapser keeps a newline-free list (wrapper form). -/
theorem replNlL_id {l : List Char} (h : ∀ c ∈ l, c ≠ '\n' ∧ c ≠ '\r') :
    replNlL l = l :=
  replNlAux_id _ (by omega) h

/-- The scrape's key/value characters satisfy its character class. -/
theorem simpleCh_scanPred {w : List Char} (hw : ∀ c ∈ w, simpleCh c = true) :
    ∀ c ∈ w, (!(c = '"' || c = '\\')) = true := by
  intro c hc
  have h := hw c hc
  simp [simpleCh_ne_quote h, simpleCh_ne_bslash h]

/-- `takeWhile` consumes a satisfying run up to a failing stop. -/
theorem takeWhile_span {p : Char → Bool} {w : List Char} (hw : ∀ c ∈ w, p c = true)
    (s : Char) (hs : p s = false) :
    ∀ rest, (w ++ s :: rest).takeWhile p = w := by
  induction w with
  | nil =>
      intro rest
      rw [List.nil_append, List.takeWhile_cons, hs]
      rfl
  | cons c w' ih =>
      intro rest
      rw [List.cons_append, List.takeWhile_cons, hw c (by simp)]
      rw [ih (fun x hx => hw x (by simp [hx]))]
      rfl

theorem dwWs_colon (l : List Char) : (':' :: l).dropWhile isWsCh = ':' :: l := rfl

theorem dwWs_sp (l : List Char) : (' ' :: l).dropWhile isWsCh = l.dropWhile isWsCh := rfl

/-- One unfolding of the scrape matcher after the opening quote. -/
theorem scanKV_dq (rest : List Char) :
    scanKV ('"' :: rest) =
      (let k := rest.takeWhile (fun c => !(c = '"' || c = '\\'))
       if k = [] then none else
       match rest.drop k.length with
       | '"' :: r2 =>
           (match r2.dropWhile isWsCh with
            | ':' :: r4 =>
                (match r4.dropWhile isWsCh with
                 | '"' :: r6 =>
                     (let v := r6.takeWhile (fun c => !(c = '"' || c = '\\'))
                      match r6.drop v.length with
                      | '"' :: r7 => some (⟨k⟩, ⟨v⟩, r7)
                      | _ => none)
                 | _ => none)
            | _ => none)
       | _ => none) := rfl

/-- One successful match of the scrape pattern. -/
theorem scanKV_hit {name v : List Char} (hn : ∀ c ∈ name, simpleCh c = true)
    (hv : ∀ c ∈ v, simpleCh c = true) (hne : name ≠ []) (rest : List Char) :
    scanKV ('"' :: (name ++ '"' :: ':' :: ' ' :: '"' :: (v ++ '"' :: rest))) =
      some (⟨name⟩, ⟨v⟩, rest) := by
  have hk := takeWhile_span (simpleCh_scanPred hn) '"' (by decide)
    (':' :: ' ' :: '"' :: (v ++ '"' :: rest))
  have hkv := takeWhile_span (simpleCh_scanPred hv) '"' (by decide) rest
  simp only [scanKV_dq, hk, hkv, List.drop_left, if_neg hne, dwWs_colon, dwWs_sp, dwWs_dq]

theorem scanKV_lb (l : List Char) : scanKV ('\x7b' :: l) = none := rfl

theorem scanKV_comma (l : List Char) : scanKV (',' :: l) = none := rfl

theorem scanKV_rb (l : List Char) : scanKV ('\x7d' :: l) = none := rfl

/-- One unfolding of the scrape scanner on a cons cell. -/
theorem scrapeAux_cons (f : Nat) (c : Char) (t : List Char)
    (acc : List (String × String)) :
    scrapeAux (f + 1) (c :: t) acc =
      (match scanKV (c :: t) with
       | some (k, v, rest) => scrapeAux f rest (setAssoc acc k v)
       | none => scrapeAux f t acc) := rfl

theorem scrapeAux_nil (f : Nat) (acc : List (String × String)) :
    scrapeAux (f + 1) [] acc = acc := rfl

/-- Skip one character when the pattern does not match here. -/
theorem scrapeAux_miss {c : Char} {t : List Char} (f : Nat)
    (h : scanKV (c :: t) = none) (acc : List (String × String)) :
    scrapeAux (f + 1) (c :: t) acc = scrapeAux f t acc := by
  rw [scrapeAux_cons, h]

/-- Consume one whole match of the pattern. -/
theorem scrapeAux_hit {c : Char} {t : List Char} {k v : String} {rest : List Char}
    (f : Nat) (h : scanKV (c :: t) = some (k, v, rest)) (acc : List (String × String)) :
    scrapeAux (f + 1) (c :: t) acc = scrapeAux f rest (setAssoc acc k v) := by
  rw [scrapeAux_cons, h]

/-- One unfolding of the scrape fallback. -/
theorem scrapePairs_eqd (raw : String) :
    scrapePairs raw =
      scrapeAux ((replNlL raw.data).length + 1) (replNlL raw.data) [] := rfl

/-- The scrape of the trailing-comma encoding finds exactly the one
pair. -/
theorem scrape_encScrape {name v : List Char} (hn : ∀ c ∈ name, simpleCh c = true)
    (hv : ∀ c ∈ v, simpleCh c = true) (hne : name ≠ []) :
    scrapePairs ⟨encScrape name v⟩ = [(⟨name⟩, ⟨v⟩)] := by
  rw [scrapePairs_eqd, data_mk, replNlL_id (encScrape_no_nl hn hv)]
  obtain ⟨K, hK⟩ : ∃ K, (encScrape name v).length + 1 = K + 1 + 1 + 1 + 1 + 1 :=
    ⟨(encScrape name v).length - 4, by
      simp only [encScrape, List.length_cons, List.length_append]
      omega⟩
  rw [hK]
  simp only [encScrape]
  rw [scrapeAux_miss _ (scanKV_lb _)]
  rw [scrapeAux_hit _ (scanKV_hit hn hv hne _)]
  rw [scrapeAux_miss _ (scanKV_comma _)]
  rw [scrapeAux_miss _ (scanKV_rb _)]
  rw [scrapeAux_nil]
  rfl

/-- The update dispatch on the trailing-comma encoding: both strict
attempts fail and the regular-expression scrape extracts the pair. -/
theorem pUP_encScrape {name v : List Char} (hn : ∀ c ∈ name, simpleCh c = true)
    (hv : ∀ c ∈ v, simpleCh c = true) (hne : name ≠ []) :
    parseUpdatePayload (.jstr ⟨encScrape name v⟩) = .jobj [(⟨name⟩, .jstr ⟨v⟩)] := by
  have hcond : ¬ ((⟨encScrape name v⟩ : String).data.dropWhile isWsCh).head? = some '<' := by
    show ¬ ((encScrape name v).dropWhile isWsCh).head? = some '<'
    simp only [encScrape, dwWs_lb]
    simp
  rw [pUP_str, strip_encScrape, if_neg hcond]
  rw [lenient_eqd, strict_encScrape_none hn hv]
  show (match parseCasparJsonStrictStr
      ⟨escBareNlL (unwrapIfQuoted (stripBomAndTrim ⟨encScrape name v⟩)).data⟩ with
    | some o => o
    | none => .jobj ((scrapePairs ⟨encScrape name v⟩).map
        (fun kv : String × String => (kv.1, JVal.jstr kv.2)))) = _
  rw [strip_encScrape]
  rw [show (⟨encScrape name v⟩ : String) =
      ⟨'\x7b' :: ('"' :: (name ++ '"' :: ':' :: ' ' :: '"' :: (v ++ '"' :: ',' :: '\x7d' :: [])))⟩
      from rfl]
  rw [unwrap_keep (by decide) (by decide), data_mk]
  rw [show '\x7b' :: ('"' :: (name ++ '"' :: ':' :: ' ' :: '"' :: (v ++ '"' :: ',' :: '\x7d' :: [])))
      = encScrape name v from rfl]
  rw [escBareNl_id (encScrape_no_nl hn hv)]
  rw [strict_encScrape_none hn hv]
  show JVal.jobj ((scrapePairs ⟨'\x7b' :: ('"' :: (name ++ '"' :: ':' :: ' ' :: '"' ::
      (v ++ '"' :: ',' :: '\x7d' :: [])))⟩).map
        (fun kv : String × String => (kv.1, JVal.jstr kv.2))) = _
  rw [show (⟨'\x7b' :: ('"' :: (name ++ '"' :: ':' :: ' ' :: '"' :: (v ++ '"' :: ',' :: '\x7d' :: [])))⟩ : String)
      = ⟨encScrape name v⟩ from rfl]
  rw [scrape_encScrape hn hv hne]
  rfl

theorem simpleCh_ne_lt {c : Char} (h : simpleCh c = true) : ¬ c = '<' := by
  intro e; subst e; exact absurd h (by decide)

theorem simpleCh_ne_amp {c : Char} (h : simpleCh c = true) : ¬ c = '&' := by
  intro e; subst e; exact absurd h (by decide)

theorem skipWsX_lt (l : List Char) : skipWsX ('<' :: l) = '<' :: l := rfl

theorem skipWsX_gt (l : List Char) : skipWsX ('>' :: l) = '>' :: l := rfl

theorem skipWsX_slash (l : List Char) : skipWsX ('/' :: l) = '/' :: l := rfl

theorem skipWsX_eqch (l : List Char) : skipWsX ('=' :: l) = '=' :: l := rfl

theorem skipWsX_sp (l : List Char) : skipWsX (' ' :: l) = skipWsX l := rfl

theorem skipWsX_nil : skipWsX [] = [] := rfl

/-- One unfolding of the attribute value scanner. -/
theorem xava_cons (q : Char) (F : Nat) (c : Char) (rest : List Char) :
    xAttrValAux q (F + 1) (c :: rest) =
      (if c = q then some ([], rest)
       else if c = '<' then none
       else if c = '&' then
         (xEntity rest).bind (fun er =>
           (xAttrValAux q F er.2).map (fun r => (er.1 :: r.1, r.2)))
       else (xAttrValAux q F rest).map (fun r => (c :: r.1, r.2))) := rfl

/-- The attribute value scanner consumes a simple run up to the closing
quote. -/
theorem xAttrValAux_span {w : List Char} (hw : ∀ c ∈ w, simpleCh c = true) :
    ∀ (F : Nat) (rest : List Char), w.length < F →
      xAttrValAux '"' F (w ++ '"' :: rest) = some (w, rest) := by
  induction w with
  | nil =>
      intro F rest hF
      obtain ⟨F', rfl⟩ : ∃ F', F = F' + 1 := ⟨F - 1, by omega⟩
      rw [List.nil_append, xava_cons, if_pos rfl]
  | cons c w' ih =>
      intro F rest hF
      obtain ⟨F', rfl⟩ : ∃ F', F = F' + 1 := ⟨F - 1, by omega⟩
      have hc := hw c (by simp)
      rw [List.cons_append, xava_cons]
      rw [if_neg (simpleCh_ne_quote hc), if_neg (simpleCh_ne_lt hc),
          if_neg (simpleCh_ne_amp hc)]
      rw [ih (fun x hx => hw x (by simp [hx])) F' rest (by simp at hF; omega)]
      rfl

/-- Wrapper form of the span. -/
theorem xAttrVal_span {w : List Char} (hw : ∀ c ∈ w, simpleCh c = true)
    (rest : List Char) : xAttrVal '"' (w ++ '"' :: rest) = some (w, rest) := by
  show xAttrValAux '"' ((w ++ '"' :: rest).length + 1) (w ++ '"' :: rest) = _
  exact xAttrValAux_span hw _ _ (by simp; omega)

/-- One unfolding of the element parser. -/
theorem xpe_succ (f : Nat) (l : List Char) :
    xParseElem (f + 1) l =
      (let nm := l.takeWhile xNameCh
       if nm = [] then none else
       (xAttrsP f (skipWsX (l.drop nm.length))).bind (fun ar =>
         match ar.2 with
         | '/' :: '>' :: r3 => some (.elem ⟨nm⟩ ar.1 .nil, r3)
         | '>' :: r3 =>
             (xParseNodes f r3).bind (fun cr =>
               match cr.2 with
               | '<' :: '/' :: r5 =>
                   let nm2 := r5.takeWhile xNameCh
                   if nm2 = nm then
                     (match skipWsX (r5.drop nm2.length) with
                      | '>' :: r6 => some (.elem ⟨nm⟩ ar.1 cr.1, r6)
                      | _ => none)
                   else none
               | _ => none)
         | _ => none)) := rfl

theorem xpn_close (f : Nat) (rest : List Char) :
    xParseNodes (f + 1) ('<' :: '/' :: rest) = some (.nil, '<' :: '/' :: rest) := rfl

theorem xpn_openC (f : Nat) (rest : List Char) :
    xParseNodes (f + 1) ('<' :: 'c' :: rest) =
      (xParseElem f ('c' :: rest)).bind (fun nr =>
        (xParseNodes f nr.2).map (fun r => (.cons nr.1 r.1, r.2))) := rfl

theorem xpn_openD (f : Nat) (rest : List Char) :
    xParseNodes (f + 1) ('<' :: 'd' :: rest) =
      (xParseElem f ('d' :: rest)).bind (fun nr =>
        (xParseNodes f nr.2).map (fun r => (.cons nr.1 r.1, r.2))) := rfl

theorem xap_slash (f : Nat) (rest : List Char) :
    xAttrsP (f + 1) ('/' :: rest) = some ([], '/' :: rest) := rfl

theorem xap_gt (f : Nat) (rest : List Char) :
    xAttrsP (f + 1) ('>' :: rest) = some ([], '>' :: rest) := rfl

/-- The `id` attribute with a resolved quoted value. -/
theorem xAttrsP_id {TAIL w rest2 : List Char} (f : Nat)
    (hval : xAttrVal '"' TAIL = some (w, rest2)) :
    xAttrsP (f + 1) ('i' :: 'd' :: '=' :: '"' :: TAIL) =
      (xAttrsP f (skipWsX rest2)).map
        (fun r => ((⟨['i', 'd']⟩, ⟨w⟩) :: r.1, r.2)) := by
  show (xAttrVal '"' TAIL).bind (fun vr =>
      (xAttrsP f (skipWsX vr.2)).map
        (fun r => ((⟨['i', 'd']⟩, ⟨vr.1⟩) :: r.1, r.2))) = _
  rw [hval]
  rfl

/-- The `value` attribute with a resolved quoted value. -/
theorem xAttrsP_value {TAIL w rest2 : List Char} (f : Nat)
    (hval : xAttrVal '"' TAIL = some (w, rest2)) :
    xAttrsP (f + 1) ('v' :: 'a' :: 'l' :: 'u' :: 'e' :: '=' :: '"' :: TAIL) =
      (xAttrsP f (skipWsX rest2)).map
        (fun r => ((⟨['v', 'a', 'l', 'u', 'e']⟩, ⟨w⟩) :: r.1, r.2)) := by
  show (xAttrVal '"' TAIL).bind (fun vr =>
      (xAttrsP f (skipWsX vr.2)).map
        (fun r => ((⟨['v', 'a', 'l', 'u', 'e']⟩, ⟨vr.1⟩) :: r.1, r.2))) = _
  rw [hval]
  rfl

theorem opt_some_bind {α β : Type} (a : α) (f : α → Option β) :
    (some a).bind f = f a := rfl

theorem opt_some_map {α β : Type} (a : α) (f : α → β) :
    (some a).map f = some (f a) := rfl

/-- Parse of the self-closing `data` element carrying the value
attribute. -/
theorem xpe_data {v : List Char} (hv : ∀ c ∈ v, simpleCh c = true)
    (g : Nat) (L5 : List Char) :
    xParseElem (g + 1 + 1 + 1)
      ('d' :: 'a' :: 't' :: 'a' :: ' ' :: 'v' :: 'a' :: 'l' :: 'u' :: 'e' :: '=' :: '"' ::
        (v ++ '"' :: '/' :: '>' :: L5)) =
      some (.elem ⟨['d', 'a', 't', 'a']⟩ [(⟨['v', 'a', 'l', 'u', 'e']⟩, ⟨v⟩)] .nil, L5) := by
  show (xAttrsP (g + 1 + 1)
      ('v' :: 'a' :: 'l' :: 'u' :: 'e' :: '=' :: '"' :: (v ++ '"' :: '/' :: '>' :: L5))).bind
      (fun ar =>
        match ar.2 with
        | '/' :: '>' :: r3 => some (XNode.elem ⟨['d', 'a', 't', 'a']⟩ ar.1 XNodes.nil, r3)
        | '>' :: r3 =>
            (xParseNodes (g + 1 + 1) r3).bind (fun cr =>
              match cr.2 with
              | '<' :: '/' :: r5 =>
                  (let nm2 := r5.takeWhile xNameCh
                   if nm2 = ['d', 'a', 't', 'a'] then
                     (match skipWsX (r5.drop nm2.length) with
                      | '>' :: r6 => some (XNode.elem ⟨['d', 'a', 't', 'a']⟩ ar.1 cr.1, r6)
                      | _ => none)
                   else none)
              | _ => none)
        | _ => none) = _
  rw [xAttrsP_value (g + 1) (xAttrVal_span hv _)]
  rw [skipWsX_slash, xap_slash]
  rfl

/-- Parse of the `componentData` element: id attribute, one `data` child,
matching close tag. -/
theorem xpe_comp {name v : List Char} (hn : ∀ c ∈ name, simpleCh c = true)
    (hv : ∀ c ∈ v, simpleCh c = true) (g : Nat) (L6 : List Char) :
    xParseElem (g + 1 + 1 + 1 + 1 + 1)
      ('c' :: 'o' :: 'm' :: 'p' :: 'o' :: 'n' :: 'e' :: 'n' :: 't' :: 'D' :: 'a' :: 't' :: 'a' ::
        ' ' :: 'i' :: 'd' :: '=' :: '"' ::
        (name ++ '"' :: '>' :: '<' ::
          'd' :: 'a' :: 't' :: 'a' :: ' ' :: 'v' :: 'a' :: 'l' :: 'u' :: 'e' :: '=' :: '"' ::
          (v ++ '"' :: '/' :: '>' ::
            '<' :: '/' :: 'c' :: 'o' :: 'm' :: 'p' :: 'o' :: 'n' :: 'e' :: 'n' :: 't' :: 'D' ::
            'a' :: 't' :: 'a' :: '>' :: L6))) =
      some (.elem ⟨['c', 'o', 'm', 'p', 'o', 'n', 'e', 'n', 't', 'D', 'a', 't', 'a']⟩
        [(⟨['i', 'd']⟩, ⟨name⟩)]
        (.cons (.elem ⟨['d', 'a', 't', 'a']⟩ [(⟨['v', 'a', 'l', 'u', 'e']⟩, ⟨v⟩)] .nil) .nil),
        L6) := by
  show (xAttrsP (g + 1 + 1 + 1 + 1)
      ('i' :: 'd' :: '=' :: '"' ::
        (name ++ '"' :: '>' :: '<' ::
          'd' :: 'a' :: 't' :: 'a' :: ' ' :: 'v' :: 'a' :: 'l' :: 'u' :: 'e' :: '=' :: '"' ::
          (v ++ '"' :: '/' :: '>' ::
            '<' :: '/' :: 'c' :: 'o' :: 'm' :: 'p' :: 'o' :: 'n' :: 'e' :: 'n' :: 't' :: 'D' ::
            'a' :: 't' :: 'a' :: '>' :: L6)))).bind
      (fun ar =>
        match ar.2 with
        | '/' :: '>' :: r3 =>
            some (XNode.elem ⟨['c', 'o', 'm', 'p', 'o', 'n', 'e', 'n', 't', 'D', 'a', 't', 'a']⟩
              ar.1 XNodes.nil, r3)
        | '>' :: r3 =>
            (xParseNodes (g + 1 + 1 + 1 + 1) r3).bind (fun cr =>
              match cr.2 with
              | '<' :: '/' :: r5 =>
                  (let nm2 := r5.takeWhile xNameCh
                   if nm2 = ['c', 'o', 'm', 'p', 'o', 'n', 'e', 'n', 't', 'D', 'a', 't', 'a'] then
                     (match skipWsX (r5.drop nm2.length) with
                      | '>' :: r6 =>
                          some (XNode.elem
                            ⟨['c', 'o', 'm', 'p', 'o', 'n', 'e', 'n', 't', 'D', 'a', 't', 'a']⟩
                            ar.1 cr.1, r6)
                      | _ => none)
                   else none)
              | _ => none)
        | _ => none) = _
  rw [xAttrsP_id (g + 1 + 1 + 1) (xAttrVal_span hn _)]
  rw [skipWsX_gt, xap_gt]
  show (xParseNodes (g + 1 + 1 + 1 + 1)
      ('<' :: 'd' :: 'a' :: 't' :: 'a' :: ' ' :: 'v' :: 'a' :: 'l' :: 'u' :: 'e' :: '=' :: '"' ::
        (v ++ '"' :: '/' :: '>' ::
          '<' :: '/' :: 'c' :: 'o' :: 'm' :: 'p' :: 'o' :: 'n' :: 'e' :: 'n' :: 't' :: 'D' ::
          'a' :: 't' :: 'a' :: '>' :: L6))).bind
      (fun cr =>
        match cr.2 with
        | '<' :: '/' :: r5 =>
            (let nm2 := r5.takeWhile xNameCh
             if nm2 = ['c', 'o', 'm', 'p', 'o', 'n', 'e', 'n', 't', 'D', 'a', 't', 'a'] then
               (match skipWsX (r5.drop nm2.length) with
                | '>' :: r6 =>
                    some (XNode.elem
                      ⟨['c', 'o', 'm', 'p', 'o', 'n', 'e', 'n', 't', 'D', 'a', 't', 'a']⟩
                      [(⟨['i', 'd']⟩, ⟨name⟩)] cr.1, r6)
                | _ => none)
             else none)
        | _ => none) = _
  rw [xpn_openD (g + 1 + 1 + 1)]
  rw [xpe_data hv g _]
  simp only [opt_some_bind]
  rw [xpn_close]
  simp only [opt_some_map, opt_some_bind]
  rfl

/-- Parse of the whole `templateData` element. -/
theorem xpe_top {name v : List Char} (hn : ∀ c ∈ name, simpleCh c = true)
    (hv : ∀ c ∈ v, simpleCh c = true) (g : Nat) :
    xParseElem (g + 1 + 1 + 1 + 1 + 1 + 1 + 1)
      ('t' :: 'e' :: 'm' :: 'p' :: 'l' :: 'a' :: 't' :: 'e' :: 'D' :: 'a' :: 't' :: 'a' ::
        '>' :: '<' ::
        'c' :: 'o' :: 'm' :: 'p' :: 'o' :: 'n' :: 'e' :: 'n' :: 't' :: 'D' :: 'a' :: 't' :: 'a' ::
        ' ' :: 'i' :: 'd' :: '=' :: '"' ::
        (name ++ '"' :: '>' :: '<' ::
          'd' :: 'a' :: 't' :: 'a' :: ' ' :: 'v' :: 'a' :: 'l' :: 'u' :: 'e' :: '=' :: '"' ::
          (v ++ '"' :: '/' :: '>' ::
            '<' :: '/' :: 'c' :: 'o' :: 'm' :: 'p' :: 'o' :: 'n' :: 'e' :: 'n' :: 't' :: 'D' ::
            'a' :: 't' :: 'a' :: '>' ::
            '<' :: '/' :: 't' :: 'e' :: 'm' :: 'p' :: 'l' :: 'a' :: 't' :: 'e' :: 'D' :: 'a' ::
            't' :: 'a' :: '>' :: []))) =
      some (.elem ⟨['t', 'e', 'm', 'p', 'l', 'a', 't', 'e', 'D', 'a', 't', 'a']⟩ []
        (.cons (.elem ⟨['c', 'o', 'm', 'p', 'o', 'n', 'e', 'n', 't', 'D', 'a', 't', 'a']⟩
          [(⟨['i', 'd']⟩, ⟨name⟩)]
          (.cons (.elem ⟨['d', 'a', 't', 'a']⟩ [(⟨['v', 'a', 'l', 'u', 'e']⟩, ⟨v⟩)] .nil) .nil))
          .nil),
        []) := by
  show (xAttrsP (g + 1 + 1 + 1 + 1 + 1 + 1)
      ('>' :: '<' ::
        'c' :: 'o' :: 'm' :: 'p' :: 'o' :: 'n' :: 'e' :: 'n' :: 't' :: 'D' :: 'a' :: 't' :: 'a' ::
        ' ' :: 'i' :: 'd' :: '=' :: '"' ::
        (name ++ '"' :: '>' :: '<' ::
          'd' :: 'a' :: 't' :: 'a' :: ' ' :: 'v' :: 'a' :: 'l' :: 'u' :: 'e' :: '=' :: '"' ::
          (v ++ '"' :: '/' :: '>' ::
            '<' :: '/' :: 'c' :: 'o' :: 'm' :: 'p' :: 'o' :: 'n' :: 'e' :: 'n' :: 't' :: 'D' ::
            'a' :: 't' :: 'a' :: '>' ::
            '<' :: '/' :: 't' :: 'e' :: 'm' :: 'p' :: 'l' :: 'a' :: 't' :: 'e' :: 'D' :: 'a' ::
            't' :: 'a' :: '>' :: [])))).bind
      (fun ar =>
        match ar.2 with
        | '/' :: '>' :: r3 =>
            some (XNode.elem ⟨['t', 'e', 'm', 'p', 'l', 'a', 't', 'e', 'D', 'a', 't', 'a']⟩
              ar.1 XNodes.nil, r3)
        | '>' :: r3 =>
            (xParseNodes (g + 1 + 1 + 1 + 1 + 1 + 1) r3).bind (fun cr =>
              match cr.2 with
              | '<' :: '/' :: r5 =>
                  (let nm2 := r5.takeWhile xNameCh
                   if nm2 = ['t', 'e', 'm', 'p', 'l', 'a', 't', 'e', 'D', 'a', 't', 'a'] then
                     (match skipWsX (r5.drop nm2.length) with
                      | '>' :: r6 =>
                          some (XNode.elem
                            ⟨['t', 'e', 'm', 'p', 'l', 'a', 't', 'e', 'D', 'a', 't', 'a']⟩
                            ar.1 cr.1, r6)
                      | _ => none)
                   else none)
              | _ => none)
        | _ => none) = _
  rw [xap_gt]
  show (xParseNodes (g + 1 + 1 + 1 + 1 + 1 + 1)
      ('<' ::
        'c' :: 'o' :: 'm' :: 'p' :: 'o' :: 'n' :: 'e' :: 'n' :: 't' :: 'D' :: 'a' :: 't' :: 'a' ::
        ' ' :: 'i' :: 'd' :: '=' :: '"' ::
        (name ++ '"' :: '>' :: '<' ::
          'd' :: 'a' :: 't' :: 'a' :: ' ' :: 'v' :: 'a' :: 'l' :: 'u' :: 'e' :: '=' :: '"' ::
          (v ++ '"' :: '/' :: '>' ::
            '<' :: '/' :: 'c' :: 'o' :: 'm' :: 'p' :: 'o' :: 'n' :: 'e' :: 'n' :: 't' :: 'D' ::
            'a' :: 't' :: 'a' :: '>' ::
            '<' :: '/' :: 't' :: 'e' :: 'm' :: 'p' :: 'l' :: 'a' :: 't' :: 'e' :: 'D' :: 'a' ::
            't' :: 'a' :: '>' :: [])))).bind
      (fun cr =>
        match cr.2 with
        | '<' :: '/' :: r5 =>
            (let nm2 := r5.takeWhile xNameCh
             if nm2 = ['t', 'e', 'm', 'p', 'l', 'a', 't', 'e', 'D', 'a', 't', 'a'] then
               (match skipWsX (r5.drop nm2.length) with
                | '>' :: r6 =>
                    some (XNode.elem
                      ⟨['t', 'e', 'm', 'p', 'l', 'a', 't', 'e', 'D', 'a', 't', 'a']⟩
                      [] cr.1, r6)
                | _ => none)
             else none)
        | _ => none) = _
  rw [xpn_openC (g + 1 + 1 + 1 + 1 + 1)]
  rw [xpe_comp hn hv g _]
  simp only [opt_some_bind]
  rw [xpn_close]
  simp only [opt_some_map, opt_some_bind]
  rfl

/-- The XML encoding parses to the three-level element tree. -/
theorem xdoc_encXml {name v : List Char} (hn : ∀ c ∈ name, simpleCh c = true)
    (hv : ∀ c ∈ v, simpleCh c = true) :
    xParseDoc ⟨encXml name v⟩ =
      some (.elem ⟨['t', 'e', 'm', 'p', 'l', 'a', 't', 'e', 'D', 'a', 't', 'a']⟩ []
        (.cons (.elem ⟨['c', 'o', 'm', 'p', 'o', 'n', 'e', 'n', 't', 'D', 'a', 't', 'a']⟩
          [(⟨['i', 'd']⟩, ⟨name⟩)]
          (.cons (.elem ⟨['d', 'a', 't', 'a']⟩ [(⟨['v', 'a', 'l', 'u', 'e']⟩, ⟨v⟩)] .nil) .nil))
          .nil)) := by
  show (xParseElem
      (('t' :: 'e' :: 'm' :: 'p' :: 'l' :: 'a' :: 't' :: 'e' :: 'D' :: 'a' :: 't' :: 'a' ::
        '>' :: '<' ::
        'c' :: 'o' :: 'm' :: 'p' :: 'o' :: 'n' :: 'e' :: 'n' :: 't' :: 'D' :: 'a' :: 't' :: 'a' ::
        ' ' :: 'i' :: 'd' :: '=' :: '"' ::
        (name ++ '"' :: '>' :: '<' ::
          'd' :: 'a' :: 't' :: 'a' :: ' ' :: 'v' :: 'a' :: 'l' :: 'u' :: 'e' :: '=' :: '"' ::
          (v ++ '"' :: '/' :: '>' ::
            '<' :: '/' :: 'c' :: 'o' :: 'm' :: 'p' :: 'o' :: 'n' :: 'e' :: 'n' :: 't' :: 'D' ::
            'a' :: 't' :: 'a' :: '>' ::
            '<' :: '/' :: 't' :: 'e' :: 'm' :: 'p' :: 'l' :: 'a' :: 't' :: 'e' :: 'D' :: 'a' ::
            't' :: 'a' :: '>' :: []))).length + 1)
      ('t' :: 'e' :: 'm' :: 'p' :: 'l' :: 'a' :: 't' :: 'e' :: 'D' :: 'a' :: 't' :: 'a' ::
        '>' :: '<' ::
        'c' :: 'o' :: 'm' :: 'p' :: 'o' :: 'n' :: 'e' :: 'n' :: 't' :: 'D' :: 'a' :: 't' :: 'a' ::
        ' ' :: 'i' :: 'd' :: '=' :: '"' ::
        (name ++ '"' :: '>' :: '<' ::
          'd' :: 'a' :: 't' :: 'a' :: ' ' :: 'v' :: 'a' :: 'l' :: 'u' :: 'e' :: '=' :: '"' ::
          (v ++ '"' :: '/' :: '>' ::
            '<' :: '/' :: 'c' :: 'o' :: 'm' :: 'p' :: 'o' :: 'n' :: 'e' :: 'n' :: 't' :: 'D' ::
            'a' :: 't' :: 'a' :: '>' ::
            '<' :: '/' :: 't' :: 'e' :: 'm' :: 'p' :: 'l' :: 'a' :: 't' :: 'e' :: 'D' :: 'a' ::
            't' :: 'a' :: '>' :: [])))).bind
      (fun nr => if skipWsX nr.2 = [] then some nr.1 else none) = _
  obtain ⟨K, hK⟩ : ∃ K,
      (('t' :: 'e' :: 'm' :: 'p' :: 'l' :: 'a' :: 't' :: 'e' :: 'D' :: 'a' :: 't' :: 'a' ::
        '>' :: '<' ::
        'c' :: 'o' :: 'm' :: 'p' :: 'o' :: 'n' :: 'e' :: 'n' :: 't' :: 'D' :: 'a' :: 't' :: 'a' ::
        ' ' :: 'i' :: 'd' :: '=' :: '"' ::
        (name ++ '"' :: '>' :: '<' ::
          'd' :: 'a' :: 't' :: 'a' :: ' ' :: 'v' :: 'a' :: 'l' :: 'u' :: 'e' :: '=' :: '"' ::
          (v ++ '"' :: '/' :: '>' ::
            '<' :: '/' :: 'c' :: 'o' :: 'm' :: 'p' :: 'o' :: 'n' :: 'e' :: 'n' :: 't' :: 'D' ::
            'a' :: 't' :: 'a' :: '>' ::
            '<' :: '/' :: 't' :: 'e' :: 'm' :: 'p' :: 'l' :: 'a' :: 't' :: 'e' :: 'D' :: 'a' ::
            't' :: 'a' :: '>' :: []))).length + 1) = K + 1 + 1 + 1 + 1 + 1 + 1 + 1 :=
    ⟨('t' :: 'e' :: 'm' :: 'p' :: 'l' :: 'a' :: 't' :: 'e' :: 'D' :: 'a' :: 't' :: 'a' ::
        '>' :: '<' ::
        'c' :: 'o' :: 'm' :: 'p' :: 'o' :: 'n' :: 'e' :: 'n' :: 't' :: 'D' :: 'a' :: 't' :: 'a' ::
        ' ' :: 'i' :: 'd' :: '=' :: '"' ::
        (name ++ '"' :: '>' :: '<' ::
          'd' :: 'a' :: 't' :: 'a' :: ' ' :: 'v' :: 'a' :: 'l' :: 'u' :: 'e' :: '=' :: '"' ::
          (v ++ '"' :: '/' :: '>' ::
            '<' :: '/' :: 'c' :: 'o' :: 'm' :: 'p' :: 'o' :: 'n' :: 'e' :: 'n' :: 't' :: 'D' ::
            'a' :: 't' :: 'a' :: '>' ::
            '<' :: '/' :: 't' :: 'e' :: 'm' :: 'p' :: 'l' :: 'a' :: 't' :: 'e' :: 'D' :: 'a' ::
            't' :: 'a' :: '>' :: []))).length - 6, by
      simp only [List.length_cons, List.length_append]
      omega⟩
  rw [hK, xpe_top hn hv K]
  show (if skipWsX [] = ([] : List Char) then
      some (XNode.elem ⟨['t', 'e', 'm', 'p', 'l', 'a', 't', 'e', 'D', 'a', 't', 'a']⟩ []
        (.cons (.elem ⟨['c', 'o', 'm', 'p', 'o', 'n', 'e', 'n', 't', 'D', 'a', 't', 'a']⟩
          [(⟨['i', 'd']⟩, ⟨name⟩)]
          (.cons (.elem ⟨['d', 'a', 't', 'a']⟩ [(⟨['v', 'a', 'l', 'u', 'e']⟩, ⟨v⟩)] .nil) .nil))
          .nil))
      else none) = _
  rw [if_pos skipWsX_nil]

/-- One unfolding of the generated XML extraction. -/
theorem ptdx_eqd (s : String) :
    parseTemplateDataXml s =
      (match xParseDoc s with
       | none => []
       | some root =>
           let up := elemsByTagN "componentData" root
           let nodes := match up with
                        | [] => elemsByTagN "componentdata" root
                        | _ => up
           nodes.foldl (fun out n =>
             let id : String :=
               match getAttr n "id" with
               | some a => if a ≠ "" then a else textByTag n "id"
               | none => textByTag n "id"
             let val : String :=
               match (descElemsByTag n "data").head? with
               | some d =>
                   (match getAttr d "value" with
                    | some a => if a ≠ "" then a else ⟨textContentN d⟩
                    | none => ⟨textContentN d⟩)
               | none => textByTag n "value"
             if id ≠ "" then setAssoc out id (.jstr val) else out) []) := rfl

/-- The XML extraction of the encoding yields the one-pair map. -/
theorem ptdx_encXml {name v : List Char} (hn : ∀ c ∈ name, simpleCh c = true)
    (hv : ∀ c ∈ v, simpleCh c = true) (hne : name ≠ []) :
    parseTemplateDataXml ⟨encXml name v⟩ = [(⟨name⟩, .jstr ⟨v⟩)] := by
  have hN : (⟨name⟩ : String) ≠ "" := fun h => hne (congrArg String.data h)
  rw [ptdx_eqd, xdoc_encXml hn hv]
  show (if (if (⟨name⟩ : String) ≠ "" then (⟨name⟩ : String)
        else textByTag (XNode.elem ⟨['c', 'o', 'm', 'p', 'o', 'n', 'e', 'n', 't', 'D', 'a', 't', 'a']⟩
          [(⟨['i', 'd']⟩, ⟨name⟩)]
          (.cons (XNode.elem ⟨['d', 'a', 't', 'a']⟩ [(⟨['v', 'a', 'l', 'u', 'e']⟩, ⟨v⟩)] XNodes.nil)
            XNodes.nil)) "id") ≠ "" then
      setAssoc []
        (if (⟨name⟩ : String) ≠ "" then (⟨name⟩ : String)
         else textByTag (XNode.elem ⟨['c', 'o', 'm', 'p', 'o', 'n', 'e', 'n', 't', 'D', 'a', 't', 'a']⟩
           [(⟨['i', 'd']⟩, ⟨name⟩)]
           (.cons (XNode.elem ⟨['d', 'a', 't', 'a']⟩ [(⟨['v', 'a', 'l', 'u', 'e']⟩, ⟨v⟩)] XNodes.nil)
             XNodes.nil)) "id")
        (JVal.jstr (if (⟨v⟩ : String) ≠ "" then (⟨v⟩ : String)
          else ⟨textContentN (XNode.elem ⟨['d', 'a', 't', 'a']⟩
            [(⟨['v', 'a', 'l', 'u', 'e']⟩, ⟨v⟩)] XNodes.nil)⟩))
    else []) = [(⟨name⟩, JVal.jstr ⟨v⟩)]
  rw [if_pos hN, if_pos hN]
  by_cases hV : (⟨v⟩ : String) = ""
  · have hv0 : v = [] := congrArg String.data hV
    subst hv0
    rw [if_neg (fun h => h rfl)]
    rfl
  · rw [if_pos hV]
    rfl

/-- Strip and trim keep the XML encoding. -/
theorem strip_encXml (name v : List Char) :
    stripBomAndTrim ⟨encXml name v⟩ = ⟨encXml name v⟩ := by
  have h1 : ("templateData><componentData id=").data =
      't' :: 'e' :: 'm' :: 'p' :: 'l' :: 'a' :: 't' :: 'e' :: 'D' :: 'a' :: 't' :: 'a' ::
      '>' :: '<' ::
      'c' :: 'o' :: 'm' :: 'p' :: 'o' :: 'n' :: 'e' :: 'n' :: 't' :: 'D' :: 'a' :: 't' :: 'a' ::
      ' ' :: 'i' :: 'd' :: '=' :: [] := rfl
  have h2 : ("><data value=").data =
      '>' :: '<' :: 'd' :: 'a' :: 't' :: 'a' :: ' ' :: 'v' :: 'a' :: 'l' :: 'u' :: 'e' :: '=' :: [] := rfl
  have h3 : ("/></componentData></templateData>").data =
      '/' :: '>' :: '<' :: '/' :: 'c' :: 'o' :: 'm' :: 'p' :: 'o' :: 'n' :: 'e' :: 'n' :: 't' ::
      'D' :: 'a' :: 't' :: 'a' :: '>' ::
      '<' :: '/' :: 't' :: 'e' :: 'm' :: 'p' :: 'l' :: 'a' :: 't' :: 'e' :: 'D' :: 'a' :: 't' ::
      'a' :: '>' :: [] := rfl
  show (⟨trimL (encXml name v)⟩ : String) = _
  rw [show encXml name v =
      '<' :: (('t' :: 'e' :: 'm' :: 'p' :: 'l' :: 'a' :: 't' :: 'e' :: 'D' :: 'a' :: 't' :: 'a' ::
        '>' :: '<' ::
        'c' :: 'o' :: 'm' :: 'p' :: 'o' :: 'n' :: 'e' :: 'n' :: 't' :: 'D' :: 'a' :: 't' :: 'a' ::
        ' ' :: 'i' :: 'd' :: '=' :: '"' ::
        (name ++ '"' :: '>' :: '<' ::
          'd' :: 'a' :: 't' :: 'a' :: ' ' :: 'v' :: 'a' :: 'l' :: 'u' :: 'e' :: '=' :: '"' ::
          (v ++ '"' :: '/' :: '>' ::
            '<' :: '/' :: 'c' :: 'o' :: 'm' :: 'p' :: 'o' :: 'n' :: 'e' :: 'n' :: 't' :: 'D' ::
            'a' :: 't' :: 'a' :: '>' ::
            '<' :: '/' :: 't' :: 'e' :: 'm' :: 'p' :: 'l' :: 'a' :: 't' :: 'e' :: 'D' :: 'a' ::
            't' :: 'a' :: []))) ++ ['>'])
      from by simp [encXml, h1, h2, h3]]
  rw [trimL_edges (by decide) (by decide)]

/-- The update dispatch on the XML encoding. -/
theorem pUP_encXml {name v : List Char} (hn : ∀ c ∈ name, simpleCh c = true)
    (hv : ∀ c ∈ v, simpleCh c = true) (hne : name ≠ []) :
    parseUpdatePayload (.jstr ⟨encXml name v⟩) = .jobj [(⟨name⟩, .jstr ⟨v⟩)] := by
  have hcond : ((⟨encXml name v⟩ : String).data.dropWhile isWsCh).head? = some '<' := by
    show ((encXml name v).dropWhile isWsCh).head? = some '<'
    simp only [encXml, dwWs_lt]
    rfl
  rw [pUP_str, strip_encXml, if_pos hcond, ptdx_encXml hn hv hne]

/-- C3: for one logical content pair (a non-empty simple-character name
that is not a `templateData` spelling, and simple-character values), the
generated payload normalization maps every supported encoding to the same
flat map: the native flat object, the strict flat JSON string, the
BOM-prefixed string, the quote-wrapped string repaired by unwrapping, the
nested `templateData`/`componentData` JSON flattened by
`normalizeCasparJsonObject`, the trailing-comma string recovered by the
regular-expression scrape, and the XML `componentData` fragment extracted
by `parseTemplateDataXml` all yield `{name: value}`; and a payload whose
value carries a raw line break normalizes identically to the properly
escaped strict form, both yielding the value with the line break. -/
theorem c3_encoding_agreement (name v v1 v2 : List Char)
    (hn : ∀ c ∈ name, simpleCh c = true) (hv : ∀ c ∈ v, simpleCh c = true)
    (hv1 : ∀ c ∈ v1, simpleCh c = true) (hv2 : ∀ c ∈ v2, simpleCh c = true)
    (hne : name ≠ [])
    (h1 : (⟨name⟩ : String) ≠ "templateData")
    (h2 : (⟨name⟩ : String) ≠ "templatedata") :
    parseUpdatePayload (.jobj [(⟨name⟩, .jstr ⟨v⟩)]) = .jobj [(⟨name⟩, .jstr ⟨v⟩)] ∧
    parseUpdatePayload (.jstr ⟨encJsonFlat name v⟩) = .jobj [(⟨name⟩, .jstr ⟨v⟩)] ∧
    parseUpdatePayload (.jstr ⟨encBom name v⟩) = .jobj [(⟨name⟩, .jstr ⟨v⟩)] ∧
    parseUpdatePayload (.jstr ⟨encWrapped name v⟩) = .jobj [(⟨name⟩, .jstr ⟨v⟩)] ∧
    parseUpdatePayload (.jstr ⟨encTD name v⟩) = .jobj [(⟨name⟩, .jstr ⟨v⟩)] ∧
    parseUpdatePayload (.jstr ⟨encScrape name v⟩) = .jobj [(⟨name⟩, .jstr ⟨v⟩)] ∧
    parseUpdatePayload (.jstr ⟨encXml name v⟩) = .jobj [(⟨name⟩, .jstr ⟨v⟩)] ∧
    parseUpdatePayload (.jstr ⟨encNlRaw name v1 v2⟩) =
      parseUpdatePayload (.jstr ⟨encNlEsc name v1 v2⟩) ∧
    parseUpdatePayload (.jstr ⟨encNlEsc name v1 v2⟩) =
      .jobj [(⟨name⟩, .jstr ⟨v1 ++ '\n' :: v2⟩)] :=
  ⟨parse_jobj_flat _ h1 h2,
   pUP_encJsonFlat hn hv h1 h2,
   pUP_encBom hn hv h1 h2,
   pUP_encWrapped hn hv h1 h2,
   pUP_encTD hn hv hne,
   pUP_encScrape hn hv hne,
   pUP_encXml hn hv hne,
   by rw [pUP_encNlRaw hn hv1 hv2 h1 h2, pUP_encNlEsc hn hv1 hv2 h1 h2],
   pUP_encNlEsc hn hv1 hv2 h1 h2⟩

/-- C3 witness: the content `Title`/`Hello` normalizes identically from
the flat JSON string and from the XML fragment. -/
theorem c3_witness :
    parseUpdatePayload (.jstr ⟨encJsonFlat "Title".data "Hello".data⟩) =
      .jobj [("Title", .jstr "Hello")] ∧
    parseUpdatePayload (.jstr ⟨encXml "Title".data "Hello".data⟩) =
      .jobj [("Title", .jstr "Hello")] := by
  have h := c3_encoding_agreement "Title".data "Hello".data "He".data "llo".data
    (by decide) (by decide) (by decide) (by decide) (by decide) (by decide) (by decide)
  exact ⟨h.2.1, h.2.2.2.2.2.2.1⟩

end RG
